import Mathlib

/-! # The PLOCAR reader of `c_plocar_io.c`

A shallow embedding of `io_read_plocar`, `create_par_dictionary`,
`create_plo_array`, `create_ferw_array` and `read_arrays`.

* The file is a finite list of bytes; a `FILE` is that list with a read position and
  the end-of-file indicator. `fread` falls short only at the end of the list.
* Scalars are read in the byte order of the host, little-endian.
* A `double` is kept as its 64-bit pattern, a `float` as its 32-bit pattern, a complex
  number as the pair (real, imaginary) of such patterns, as they lie in memory.
* The two temporaries `rbuf` and `dbuf` hold 50 items. A read that stores more, a store
  outside an array, an `int` product that overflows and an array that NumPy refuses to
  build all leave the behaviour the C text defines: those runs end in `undefined`.
-/

namespace Plocar

/-! ## Bytes and scalars -/

/-- One byte of the file. -/
abbrev Byte := Fin 256

/-- Value of a byte string read as a little-endian unsigned scalar. -/
def le_nat : List Byte → Nat
  | [] => 0
  | b :: bs => b.val + 256 * le_nat bs

/-- The C `int` held by a 32-bit pattern (two's complement). -/
def to_int32 (n : Nat) : Int :=
  if n % 2 ^ 32 < 2 ^ 31 then ((n % 2 ^ 32 : Nat) : Int) else ((n % 2 ^ 32 : Nat) : Int) - 2 ^ 32

/-- Conversion of an `int` to the 64-bit `size_t`. -/
def to_size_t (n : Int) : Nat := (n % 2 ^ 64).toNat

/-- Number of doublings that bring a non-zero binary32 subnormal fraction up to the
hidden-bit position. -/
def lead_shift : Nat → Nat → Nat
  | 0, _ => 0
  | fuel + 1, m => if 2 ^ 23 ≤ m then 0 else 1 + lead_shift fuel (2 * m)

/-- The conversion `(double)x` of a `float`, on bit patterns (IEEE 754 binary32 to
binary64). A NaN keeps its payload in the leading fraction bits and comes out quiet. -/
def float_to_double (b : Nat) : Nat :=
  let s := b / 2 ^ 31 % 2
  let e := b / 2 ^ 23 % 2 ^ 8
  let m := b % 2 ^ 23
  if e = 255 then
    if m = 0 then s * 2 ^ 63 + 2047 * 2 ^ 52
    else s * 2 ^ 63 + 2047 * 2 ^ 52 + 2 ^ 51 + (m % 2 ^ 22) * 2 ^ 29
  else if e = 0 then
    if m = 0 then s * 2 ^ 63
    else
      let t := lead_shift 23 m
      s * 2 ^ 63 + (897 - t) * 2 ^ 52 + (m * 2 ^ t - 2 ^ 23) * 2 ^ 29
  else s * 2 ^ 63 + (e + 896) * 2 ^ 52 + m * 2 ^ 29

/-- The number a floating-point pattern stands for. -/
inductive FpVal where
  | nan
  | inf (neg : Bool)
  | fin (neg : Bool) (mag : ℚ)
deriving DecidableEq

/-- Value of a binary32 pattern. -/
def float_val (b : Nat) : FpVal :=
  let s : Nat := b / 2 ^ 31 % 2
  let e : Nat := b / 2 ^ 23 % 2 ^ 8
  let m : Nat := b % 2 ^ 23
  if e = 255 then (if m = 0 then .inf (decide (s = 1)) else .nan)
  else if e = 0 then .fin (decide (s = 1)) ((m : ℚ) * (2 : ℚ) ^ (-149 : ℤ))
  else .fin (decide (s = 1)) ((2 ^ 23 + (m : ℚ)) * (2 : ℚ) ^ ((e : ℤ) - 150))

/-- Value of a binary64 pattern. -/
def double_val (b : Nat) : FpVal :=
  let s : Nat := b / 2 ^ 63 % 2
  let e : Nat := b / 2 ^ 52 % 2 ^ 11
  let m : Nat := b % 2 ^ 52
  if e = 2047 then (if m = 0 then .inf (decide (s = 1)) else .nan)
  else if e = 0 then .fin (decide (s = 1)) ((m : ℚ) * (2 : ℚ) ^ (-1074 : ℤ))
  else .fin (decide (s = 1)) ((2 ^ 52 + (m : ℚ)) * (2 : ℚ) ^ ((e : ℤ) - 1075))

/-! ## The stream -/

/-- An open stream: the bytes of the file, the read position and the end-of-file
indicator. -/
structure FILE where
  data : List Byte
  pos : Nat
  eof : Bool
deriving DecidableEq

/-- What one `fread` call leaves behind: its return value, the bytes stored through the
pointer, and the stream. -/
structure ReadResult where
  count : Nat
  bytes : List Byte
  fh : FILE
deriving DecidableEq

/-- The call `fread(ptr, size, nmemb, fh)`: as many bytes as are asked for and left are
stored and consumed, the number of whole items is returned, and the end-of-file indicator
is raised when the request runs past the end. -/
def fread (size nmemb : Nat) (fh : FILE) : ReadResult :=
  let avail := fh.data.length - fh.pos
  let want := size * nmemb
  let got := min want avail
  ⟨got / size, (fh.data.drop fh.pos).take got, ⟨fh.data, fh.pos + got, fh.eof || decide (avail < want)⟩⟩

/-- The `k`-th `double` of a buffer. -/
def double_at (buf : List Byte) (k : Nat) : Nat := le_nat ((buf.drop (8 * k)).take 8)

/-- The `k`-th `float` of a buffer. -/
def float_at (buf : List Byte) (k : Nat) : Nat := le_nat ((buf.drop (4 * k)).take 4)

/-- The `k`-th `double complex` of a buffer: real part, then imaginary part. -/
def cdouble_at (buf : List Byte) (k : Nat) : Nat × Nat :=
  (double_at buf (2 * k), double_at buf (2 * k + 1))

/-- The `k`-th `float complex` of a buffer: real part, then imaginary part. -/
def cfloat_at (buf : List Byte) (k : Nat) : Nat × Nat :=
  (float_at buf (2 * k), float_at buf (2 * k + 1))

/-- The conversion `(double complex)z` of a `float complex`. -/
def cfloat_to_cdouble (z : Nat × Nat) : Nat × Nat := (float_to_double z.1, float_to_double z.2)

/-! ## Parameters, dictionary and arrays -/

/-- The struct `t_params`. -/
structure t_params where
  nion : Int
  ns : Int
  nk : Int
  nb : Int
  nlmmax : Int
  nc_flag : Int
  isdouble : Int
deriving DecidableEq

/-- A Python dictionary with string keys and integer values. -/
abbrev PyDict := List (String × Int)

/-- The call `PyDict_SetItemString(d, key, PyInt_FromLong(v))`. -/
def PyDict_SetItemString (d : PyDict) (key : String) (v : Int) : PyDict :=
  if d.any (fun e => e.1 == key) then d.map (fun e => if e.1 == key then (key, v) else e)
  else d ++ [(key, v)]

/-- The function `create_par_dictionary`. -/
def create_par_dictionary (p : t_params) : PyDict :=
  let par_dict : PyDict := []
  let par_dict := PyDict_SetItemString par_dict "nion" p.nion
  let par_dict := PyDict_SetItemString par_dict "ns" p.ns
  let par_dict := PyDict_SetItemString par_dict "nk" p.nk
  let par_dict := PyDict_SetItemString par_dict "nb" p.nb
  let par_dict := PyDict_SetItemString par_dict "nc_flag" p.nc_flag
  par_dict

/-- A C-contiguous NumPy array over a block of elements. -/
structure PyArrayObject (α : Type) where
  dims : List Nat
  data : List α
deriving DecidableEq

/-- The PLO array: `double complex` elements. -/
abbrev PloArray := PyArrayObject (Nat × Nat)

/-- The Fermi-weight array: `double` elements. -/
abbrev FerwArray := PyArrayObject Nat

/-- Element strides of a C-contiguous array. -/
def strides : List Nat → List Nat
  | [] => []
  | _ :: ds => ds.prod :: strides ds

/-- The macro `PyArray_GetPtr(arr, idx)`, as an element offset into the data block. -/
def PyArray_GetPtr {α : Type} (arr : PyArrayObject α) (idx : List Nat) : Nat :=
  (List.zipWith (fun i st => i * st) idx (strides arr.dims)).sum

/-- A product of two `int`s; `none` when it is not representable. -/
def int_mul (a b : Int) : Option Int :=
  if -(2 ^ 31) ≤ a * b ∧ a * b < 2 ^ 31 then some (a * b) else none

/-- The largest `npy_intp`, `2^63 - 1` on a host with 64-bit pointers. -/
def NPY_MAX_INTP : Nat := 9223372036854775807

/-- The byte count that `PyArray_SimpleNewFromData` works out for items of `itemsize`
bytes under the dimensions `dims`: its loop over the dimensions skips those that are 0 and
multiplies the others into the count. The constructor returns `NULL` when a dimension is
negative or when the count does not fit an `npy_intp`. -/
def npy_nbytes (itemsize : Nat) (dims : List Int) : Nat :=
  dims.foldl (fun n dim => if dim = 0 then n else n * dim.toNat) itemsize

/-- The function `create_plo_array`: `ntot` zeroed elements under the five dimensions.
`none` when `ntot` overflows or is negative, and when `PyArray_SimpleNewFromData` refuses
the dimensions (one is negative, or the byte count of those that are not 0 overflows) and
returns the `NULL` that the caller does not check. -/
def create_plo_array (p : t_params) : Option PloArray := do
  let a ← int_mul p.nion p.ns
  let b ← int_mul a p.nk
  let c ← int_mul b p.nb
  let ntot ← int_mul c p.nlmmax
  if ntot < 0 ∨ p.nion < 0 ∨ p.ns < 0 ∨ p.nk < 0 ∨ p.nb < 0 ∨ p.nlmmax < 0 then none
  else if NPY_MAX_INTP < npy_nbytes 16 [p.nion, p.ns, p.nk, p.nb, p.nlmmax] then none
  else some ⟨[p.nion.toNat, p.ns.toNat, p.nk.toNat, p.nb.toNat, p.nlmmax.toNat],
    List.replicate ntot.toNat (0, 0)⟩

/-- The function `create_ferw_array`: `ntot` zeroed elements under the four dimensions.
`none` when `ntot` overflows or is negative, and when `PyArray_SimpleNewFromData` refuses
the dimensions (one is negative, or the byte count of those that are not 0 overflows) and
returns the `NULL` that the caller does not check. -/
def create_ferw_array (p : t_params) : Option FerwArray := do
  let a ← int_mul p.nion p.ns
  let b ← int_mul a p.nk
  let ntot ← int_mul b p.nb
  if ntot < 0 ∨ p.nion < 0 ∨ p.ns < 0 ∨ p.nk < 0 ∨ p.nb < 0 then none
  else if NPY_MAX_INTP < npy_nbytes 8 [p.nion, p.ns, p.nk, p.nb] then none
  else some ⟨[p.nion.toNat, p.ns.toNat, p.nk.toNat, p.nb.toNat], List.replicate ntot.toNat 0⟩

/-- A store of one element through a pointer into an array; `none` outside the block. -/
def store {α : Type} (arr : PyArrayObject α) (off : Nat) (v : α) : Option (PyArrayObject α) :=
  if off < arr.data.length then some ⟨arr.dims, arr.data.set off v⟩ else none

/-- The call `memcpy(ptr, buf, n * sizeof *ptr)` into an array; `none` when the copy
leaves the block. -/
def memcpy {α : Type} (arr : PyArrayObject α) (off : Nat) (vals : List α) :
    Option (PyArrayObject α) :=
  if off + vals.length ≤ arr.data.length then
    some ⟨arr.dims, arr.data.take off ++ vals ++ arr.data.drop (off + vals.length)⟩
  else none

/-! ## `read_arrays` -/

/-- How a piece of `read_arrays` ends: it runs through, it jumps to `error` with the
state reached, or it leaves defined behaviour. -/
inductive Res (σ : Type) where
  | ok (s : σ)
  | error (s : σ)
  | undefined
deriving DecidableEq

/-- The loop `for (i = i0; i < i0 + n; i++) body`. -/
def for_from {σ : Type} (body : Nat → σ → Res σ) : Nat → Nat → σ → Res σ
  | _, 0, s => .ok s
  | i, n + 1, s =>
    match body i s with
    | .ok t => for_from body (i + 1) n t
    | .error t => .error t
    | .undefined => .undefined

/-- The loop `for (i = 0; i < n; i++) body` with an `int` bound. -/
def for_loop {σ : Type} (n : Int) (body : Nat → σ → Res σ) (s : σ) : Res σ :=
  for_from body 0 n.toNat s

/-- What `read_arrays` works on: the stream and the two arrays. -/
structure Arrays where
  fh : FILE
  py_plo : PloArray
  py_ferw : FerwArray
deriving DecidableEq

/-- Capacity, in items, of the temporaries `rbuf` and `dbuf`. -/
def BUF_LEN : Nat := 50

/-- The body of the innermost loop of `read_arrays`: one record. -/
def read_record (p : t_params) (nlm : Int) (ion is ik ib : Nat) (s : Arrays) : Res Arrays :=
  let plo := PyArray_GetPtr s.py_plo [ion, is, ik, ib, 0]
  let ferw := PyArray_GetPtr s.py_ferw [ion, is, ik, ib]
  if p.isdouble ≠ 0 then
    let r1 := fread 8 1 s.fh
    if r1.count < 1 then .error ⟨r1.fh, s.py_plo, s.py_ferw⟩ else
    let r2 := fread 16 (to_size_t nlm) r1.fh
    if BUF_LEN * 16 < r2.bytes.length then .undefined else
    if r2.count < to_size_t nlm then .error ⟨r2.fh, s.py_plo, s.py_ferw⟩ else
    match store s.py_ferw ferw (le_nat r1.bytes) with
    | none => .undefined
    | some fw =>
      match memcpy s.py_plo plo ((List.range (to_size_t nlm)).map (cdouble_at r2.bytes)) with
      | none => .undefined
      | some pl => .ok ⟨r2.fh, pl, fw⟩
  else
    let r1 := fread 4 1 s.fh
    if r1.count < 1 then .error ⟨r1.fh, s.py_plo, s.py_ferw⟩ else
    let r2 := fread 8 (to_size_t nlm) r1.fh
    if BUF_LEN * 8 < r2.bytes.length then .undefined else
    if r2.count < to_size_t nlm then .error ⟨r2.fh, s.py_plo, s.py_ferw⟩ else
    match store s.py_ferw ferw (float_to_double (le_nat r1.bytes)) with
    | none => .undefined
    | some fw =>
      for_loop nlm (fun ilm t =>
        match store t.py_plo (plo + ilm) (cfloat_to_cdouble (cfloat_at r2.bytes ilm)) with
        | none => .undefined
        | some pl => .ok ⟨t.fh, pl, t.py_ferw⟩) ⟨r2.fh, s.py_plo, fw⟩

/-- The body of the loop over ions: the ion's `nlm`, then its records. -/
def read_ion (p : t_params) (ion : Nat) (s : Arrays) : Res Arrays :=
  let r := fread 4 1 s.fh
  if r.count < 1 then .error ⟨r.fh, s.py_plo, s.py_ferw⟩ else
  let nlm := to_int32 (le_nat r.bytes)
  for_loop p.ns (fun is =>
    for_loop p.nk (fun ik =>
      for_loop p.nb (fun ib => read_record p nlm ion is ik ib))) ⟨r.fh, s.py_plo, s.py_ferw⟩

/-- The function `read_arrays`; `ok` is its return value 0 and `error` its return value -1. -/
def read_arrays (p : t_params) (s : Arrays) : Res Arrays :=
  for_loop p.nion (read_ion p) s

/-! ## `io_read_plocar` -/

/-- The exceptions `io_read_plocar` raises. -/
inductive PyExc where
  /-- An `IOError`, "Error opening ..." -/
  | IOError_open
  /-- An `IOError`, "End-of-file reading ..." -/
  | IOError_eof
  /-- An `IOError`, "Error reading ...: ..." -/
  | IOError_read
  /-- A `ValueError`, "only prec = 4, 8 are supported" -/
  | ValueError_prec
  /-- A `ValueError`, "Error adding element to the return tuple" -/
  | ValueError_tuple
deriving DecidableEq

/-- The surroundings of one call: the bytes of the named file, `none` when `fopen` fails,
and whether `PyTuple_SetItem` reports a failure for a given slot. -/
structure Host where
  file : Option (List Byte)
  setitem_fails : Nat → Bool

/-- The locals of `io_read_plocar` on reaching a `return` after the file was opened, before
the error path drops its references, with the exception raised and the number of `fclose`
calls made. -/
structure Frame where
  fh : FILE
  par_dict : Option PyDict
  py_plo : Option PloArray
  py_ferw : Option FerwArray
  exc : Option PyExc
  nclose : Nat
deriving DecidableEq

/-- How a call of `io_read_plocar` ends. -/
inductive Outcome where
  /-- The call of `fopen` failed: `IOError` raised, `NULL` returned at once. -/
  | open_error
  /-- A `return` after the file was opened: the tuple returned (`none` for `NULL`) and the
  locals. -/
  | returned (ret : Option (PyDict × PloArray × FerwArray)) (fr : Frame)
  /-- The run left defined behaviour. -/
  | undefined
deriving DecidableEq

/-- The label `error`: close the file, drop the references, return `NULL`. -/
def label_error (fr : Frame) : Outcome :=
  .returned none ⟨fr.fh, fr.par_dict, fr.py_plo, fr.py_ferw, fr.exc, fr.nclose + 1⟩

/-- The label `ioerror`: raise the `IOError` that fits the stream, then fall into `error`. -/
def label_ioerror (fr : Frame) : Outcome :=
  if fr.fh.eof then
    label_error ⟨fr.fh, fr.par_dict, fr.py_plo, fr.py_ferw, some .IOError_eof, fr.nclose⟩
  else
    label_error ⟨fr.fh, fr.par_dict, fr.py_plo, fr.py_ferw, some .IOError_read, fr.nclose⟩

/-- One header statement `if(!fread(&x, 4, 1, fh)) goto ioerror;` followed by the rest. -/
def read_field (fh : FILE) (rest : Int → FILE → Outcome) : Outcome :=
  let r := fread 4 1 fh
  if r.count = 0 then label_ioerror ⟨r.fh, none, none, none, none, 0⟩
  else rest (to_int32 (le_nat r.bytes)) r.fh

/-- The part of `io_read_plocar` after the header and the precision switch. -/
def read_body (h : Host) (params : t_params) (fh : FILE) : Outcome :=
  let par_dict := create_par_dictionary params
  match create_plo_array params, create_ferw_array params with
  | some py_plo, some py_ferw =>
    match read_arrays params ⟨fh, py_plo, py_ferw⟩ with
    | .undefined => .undefined
    | .error s => label_ioerror ⟨s.fh, some par_dict, some s.py_plo, some s.py_ferw, none, 0⟩
    | .ok s =>
      if h.setitem_fails 0 then
        label_error ⟨s.fh, some par_dict, some s.py_plo, some s.py_ferw, some .ValueError_tuple, 0⟩
      else if h.setitem_fails 1 then
        label_error ⟨s.fh, some par_dict, some s.py_plo, some s.py_ferw, some .ValueError_tuple, 0⟩
      else if h.setitem_fails 2 then
        label_error ⟨s.fh, some par_dict, some s.py_plo, some s.py_ferw, some .ValueError_tuple, 0⟩
      else
        .returned (some (par_dict, s.py_plo, s.py_ferw))
          ⟨s.fh, some par_dict, some s.py_plo, some s.py_ferw, none, 1⟩
  | _, _ => .undefined

/-- The function `io_read_plocar`, from `fopen` on. -/
def io_read_plocar (h : Host) : Outcome :=
  match h.file with
  | none => .open_error
  | some bytes =>
    read_field ⟨bytes, 0, false⟩ fun prec fh =>
    read_field fh fun nion fh =>
    read_field fh fun ns fh =>
    read_field fh fun nk fh =>
    read_field fh fun nb fh =>
    read_field fh fun nlmmax fh =>
    read_field fh fun nc_flag fh =>
      if prec = 8 then read_body h ⟨nion, ns, nk, nb, nlmmax, nc_flag, 1⟩ fh
      else if prec = 4 then read_body h ⟨nion, ns, nk, nb, nlmmax, nc_flag, 0⟩ fh
      else label_error ⟨fh, none, none, none, some .ValueError_prec, 0⟩

/-! ## The file layout of the specification -/

/-- The `n` bytes of the little-endian scalar `x`. -/
def le_bytes : Nat → Nat → List Byte
  | 0, _ => []
  | n + 1, x => ⟨x % 256, Nat.mod_lt x (by decide)⟩ :: le_bytes n (x / 256)

/-- The four bytes of an `int32`. -/
def enc_int32 (v : Int) : List Byte := le_bytes 4 (v % 2 ^ 32).toNat

/-- The content of a PLOCAR file: the seven header fields, the `nlm` of every ion, and for
every record its weight and its complex values, as bit patterns of the file's precision. -/
structure PlocarData where
  precision : Int
  nion : Int
  ns : Int
  nk : Int
  nb : Int
  nlmmax : Int
  nc_flag : Int
  nlm : Nat → Int
  weight : Nat → Nat → Nat → Nat → Nat
  value : Nat → Nat → Nat → Nat → Nat → Nat × Nat

/-- A record in the layout of the specification: the weight, then `nlm` complex values,
real part first, in `float64` for precision 8 and in `float32` for precision 4. -/
def encode_record (x : PlocarData) (ion is ik ib : Nat) : List Byte :=
  if x.precision = 8 then
    le_bytes 8 (x.weight ion is ik ib) ++
      (List.range (x.nlm ion).toNat).flatMap (fun m =>
        le_bytes 8 (x.value ion is ik ib m).1 ++ le_bytes 8 (x.value ion is ik ib m).2)
  else if x.precision = 4 then
    le_bytes 4 (x.weight ion is ik ib) ++
      (List.range (x.nlm ion).toNat).flatMap (fun m =>
        le_bytes 4 (x.value ion is ik ib m).1 ++ le_bytes 4 (x.value ion is ik ib m).2)
  else []

/-- The block of an ion in the layout of the specification: `nlm`, then the records in
`is`, `ik`, `ib` order. -/
def encode_ion (x : PlocarData) (ion : Nat) : List Byte :=
  enc_int32 (x.nlm ion) ++
    (List.range x.ns.toNat).flatMap (fun is =>
      (List.range x.nk.toNat).flatMap (fun ik =>
        (List.range x.nb.toNat).flatMap (fun ib => encode_record x ion is ik ib)))

/-- A file in the layout of the specification: the header, then the ions. -/
def encode_plocar (x : PlocarData) : List Byte :=
  enc_int32 x.precision ++ enc_int32 x.nion ++ enc_int32 x.ns ++ enc_int32 x.nk ++
    enc_int32 x.nb ++ enc_int32 x.nlmmax ++ enc_int32 x.nc_flag ++
    (List.range x.nion.toNat).flatMap (encode_ion x)

/-- The scenario of the specification: header `(8, 1, 1, 1, 1, 3, 0)`, `nlm = 2`, weight
`0.5`, values `1 + 2i` and `3 - 1i`. -/
def scenario : PlocarData :=
  ⟨8, 1, 1, 1, 1, 3, 0, fun _ => 2, fun _ _ _ _ => 0x3FE0000000000000,
    fun _ _ _ _ m =>
      if m = 0 then (0x3FF0000000000000, 0x4000000000000000)
      else (0x4008000000000000, 0xBFF0000000000000)⟩

/-- The scenario of the specification in single precision. -/
def scenario4 : PlocarData :=
  ⟨4, 1, 1, 1, 1, 3, 0, fun _ => 2, fun _ _ _ _ => 0x3F000000,
    fun _ _ _ _ m => if m = 0 then (0x3F800000, 0x40000000) else (0x40400000, 0xBF800000)⟩

/-- The tuple that the scenario of the specification decodes to, in either precision. -/
def scenario_out : PyDict × PloArray × FerwArray :=
  ([("nion", 1), ("ns", 1), ("nk", 1), ("nb", 1), ("nc_flag", 0)],
    ⟨[1, 1, 1, 1, 3],
      [(0x3FF0000000000000, 0x4000000000000000), (0x4008000000000000, 0xBFF0000000000000),
        (0, 0)]⟩,
    ⟨[1, 1, 1, 1], [0x3FE0000000000000]⟩)

/-- The locals at the end of a successful call that read `n` bytes of `d` into `out`. -/
def frame_ok (d : List Byte) (n : Nat) (out : PyDict × PloArray × FerwArray) : Frame :=
  ⟨⟨d, n, false⟩, some out.1, some out.2.1, some out.2.2, none, 1⟩

/-- A file whose header carries the unsupported precision code 2. -/
def scenario_prec2 : PlocarData :=
  ⟨2, 1, 1, 1, 1, 3, 0, fun _ => 2, fun _ _ _ _ => 0, fun _ _ _ _ _ => (0, 0)⟩

/-- A header whose dimensions are positive and whose `int` product `nion*ns` overflows. -/
def overflow_data : PlocarData :=
  ⟨8, 65536, 65536, 1, 1, 1, 0, fun _ => 1, fun _ _ _ _ => 0, fun _ _ _ _ _ => (0, 0)⟩

/-- A header with `nion = 0`: the file is the 28 bytes of the header. -/
def zero_ion_data : PlocarData :=
  ⟨8, 0, 1, 1, 1, 1, 0, fun _ => 1, fun _ _ _ _ => 0, fun _ _ _ _ _ => (0, 0)⟩

/-- Two ions under `nlmmax = 1`: the first has `nlm = 2`, weight `0.5` and the values
`1 + 2i` and `3 - 1i`; the second has `nlm = 0` and weight `0.25`. -/
def spill_data : PlocarData :=
  ⟨8, 2, 1, 1, 1, 1, 0, fun ion => if ion = 0 then 2 else 0,
    fun ion _ _ _ => if ion = 0 then 0x3FE0000000000000 else 0x3FD0000000000000,
    fun _ _ _ _ m =>
      if m = 0 then (0x3FF0000000000000, 0x4000000000000000)
      else (0x4008000000000000, 0xBFF0000000000000)⟩

/-- The tuple that `spill_data` decodes to: the second value of the first ion sits in the
slot of the second ion. -/
def spill_out : PyDict × PloArray × FerwArray :=
  ([("nion", 2), ("ns", 1), ("nk", 1), ("nb", 1), ("nc_flag", 0)],
    ⟨[2, 1, 1, 1, 1],
      [(0x3FF0000000000000, 0x4000000000000000), (0x4008000000000000, 0xBFF0000000000000)]⟩,
    ⟨[2, 1, 1, 1], [0x3FE0000000000000, 0x3FD0000000000000]⟩)

/-- One ion with `nlm = -1`: its block holds the `nlm` and one weight. -/
def neg_nlm_data : PlocarData :=
  ⟨8, 1, 1, 1, 1, 3, 0, fun _ => -1, fun _ _ _ _ => 0x3FE0000000000000,
    fun _ _ _ _ _ => (0, 0)⟩

/-- One ion with `nlm = nlmmax = 51`, one more value than `rbuf` and `dbuf` hold. -/
def nlm51_data : PlocarData :=
  ⟨8, 1, 1, 1, 1, 51, 0, fun _ => 51, fun _ _ _ _ => 0x3FE0000000000000,
    fun _ _ _ _ _ => (0x3FF0000000000000, 0x4000000000000000)⟩

/-- The file of `neg_nlm_data` followed by 801 zero bytes: after the weight of the record,
more bytes are left than `dbuf` holds. -/
def neg_nlm_long_file : List Byte := encode_plocar neg_nlm_data ++ List.replicate 801 0

/-- Two ions under `nlmmax = 2`: the first has `nlm = 2`, weight `0.5` and the values
`1 + 2i` and `3 - 1i`; the second has `nlm = 1`, weight `0.25` and the value `1 + 2i`. -/
def pair_data : PlocarData :=
  ⟨8, 2, 1, 1, 1, 2, 0, fun ion => if ion = 0 then 2 else 1,
    fun ion _ _ _ => if ion = 0 then 0x3FE0000000000000 else 0x3FD0000000000000,
    fun _ _ _ _ m =>
      if m = 0 then (0x3FF0000000000000, 0x4000000000000000)
      else (0x4008000000000000, 0xBFF0000000000000)⟩

/-- Two ions under `nlmmax = 1` in double precision: the first has `nlm = 2`, weight `0.5`
and the values `1 + 2i` and `3 - 1i`; the second has `nlm = 1`, weight `0.25` and the
value `5 + 6i`. -/
def overlap_data : PlocarData :=
  ⟨8, 2, 1, 1, 1, 1, 0, fun ion => if ion = 0 then 2 else 1,
    fun ion _ _ _ => if ion = 0 then 0x3FE0000000000000 else 0x3FD0000000000000,
    fun ion _ _ _ m =>
      if ion = 0 then
        (if m = 0 then (0x3FF0000000000000, 0x4000000000000000)
          else (0x4008000000000000, 0xBFF0000000000000))
      else (0x4014000000000000, 0x4018000000000000)⟩

/-- The content of `overlap_data` in single precision. -/
def overlap_data4 : PlocarData :=
  ⟨4, 2, 1, 1, 1, 1, 0, fun ion => if ion = 0 then 2 else 1,
    fun ion _ _ _ => if ion = 0 then 0x3F000000 else 0x3E800000,
    fun ion _ _ _ m =>
      if ion = 0 then (if m = 0 then (0x3F800000, 0x40000000) else (0x40400000, 0xBF800000))
      else (0x40A00000, 0x40C00000)⟩

/-- The tuple that `overlap_data` decodes to, in either precision: the second value of the
first ion is gone, the value of the second ion lies where it was written. -/
def overlap_out : PyDict × PloArray × FerwArray :=
  ([("nion", 2), ("ns", 1), ("nk", 1), ("nb", 1), ("nc_flag", 0)],
    ⟨[2, 1, 1, 1, 1],
      [(0x3FF0000000000000, 0x4000000000000000), (0x4014000000000000, 0x4018000000000000)]⟩,
    ⟨[2, 1, 1, 1], [0x3FE0000000000000, 0x3FD0000000000000]⟩)

/-- A header with `nion = 2` and `ns = 0`: the file is the header and the `nlm` of the two
ions, which have no record. -/
def zero_ns_data : PlocarData :=
  ⟨8, 2, 0, 1, 1, 1, 0, fun _ => 1, fun _ _ _ _ => 0, fun _ _ _ _ _ => (0, 0)⟩

/-- A call on the file `d` in which `PyTuple_SetItem` does not fail. -/
def host_of (d : List Byte) : Host := ⟨some d, fun _ => false⟩

/-! ## Layout and auxiliary notions -/

/-- The `k`-th `int` of the header. -/
def hdr_field (d : List Byte) (k : Nat) : Int := to_int32 (le_nat ((d.drop (4 * k)).take 4))

/-- A result meets `P` when it ran through and `Q` when it jumped to `error`. -/
def Res.holds {σ : Type} (r : Res σ) (P Q : σ → Prop) : Prop :=
  match r with
  | .ok t => P t
  | .error e => Q e
  | .undefined => True

/-- Size in bytes of a weight: a `double` or a `float`. -/
def wsize (p : t_params) : Nat := if p.isdouble ≠ 0 then 8 else 4

/-- Size in bytes of a record that carries `k` complex values. -/
def rec_size (p : t_params) (k : Nat) : Nat := wsize p + 2 * wsize p * k

/-- The weight of the record that starts at `pos`, as it is stored in `Ferw`. -/
def weight_at (p : t_params) (d : List Byte) (pos : Nat) : Nat :=
  if p.isdouble ≠ 0 then le_nat ((d.drop pos).take 8)
  else float_to_double (le_nat ((d.drop pos).take 4))

/-- The `m`-th complex value of the record that starts at `pos`, as it is stored in `Plo`. -/
def value_at (p : t_params) (d : List Byte) (pos m : Nat) : Nat × Nat :=
  if p.isdouble ≠ 0 then
    (le_nat ((d.drop (pos + 8 + 16 * m)).take 8), le_nat ((d.drop (pos + 8 + 16 * m + 8)).take 8))
  else
    (float_to_double (le_nat ((d.drop (pos + 4 + 8 * m)).take 4)),
      float_to_double (le_nat ((d.drop (pos + 4 + 8 * m + 4)).take 4)))

/-- The stores `plo[i] = f i`, ..., `plo[i + m - 1] = f (i + m - 1)` in turn, from the
element offset `off`. -/
def store_many (pl : PloArray) (off : Nat) (f : Nat → Nat × Nat) : Nat → Nat → Option PloArray
  | _, 0 => some pl
  | i, m + 1 =>
    match store pl (off + i) (f i) with
    | none => none
    | some pl1 => store_many pl1 off f (i + 1) m

/-- The stores of one record, after its weight `wt` and its values `f` were read. -/
def record_store (p : t_params) (ion is ik ib k : Nat) (wt : Nat) (f : Nat → Nat × Nat)
    (fh1 : FILE) (s : Arrays) : Res Arrays :=
  match store s.py_ferw (PyArray_GetPtr s.py_ferw [ion, is, ik, ib]) wt with
  | none => .undefined
  | some fw =>
    if p.isdouble ≠ 0 then
      match memcpy s.py_plo (PyArray_GetPtr s.py_plo [ion, is, ik, ib, 0]) ((List.range k).map f) with
      | none => .undefined
      | some pl => .ok ⟨fh1, pl, fw⟩
    else
      match store_many s.py_plo (PyArray_GetPtr s.py_plo [ion, is, ik, ib, 0]) f 0 k with
      | none => .undefined
      | some pl => .ok ⟨fh1, pl, fw⟩

/-- Number of records of one ion. -/
def nrec (p : t_params) : Nat := p.ns.toNat * p.nk.toNat * p.nb.toNat

/-- The `int` at offset `pos` of the file. -/
def nlm_at (d : List Byte) (pos : Nat) : Int := to_int32 (le_nat ((d.drop pos).take 4))

/-- Offset of the block of ion `i`, for blocks that start at `b0`: each block is the ion's
`nlm` followed by its records. -/
def ion_start (p : t_params) (d : List Byte) (b0 : Nat) : Nat → Nat
  | 0 => b0
  | i + 1 =>
    ion_start p d b0 i + 4 + nrec p * rec_size p (nlm_at d (ion_start p d b0 i)).toNat

/-- The `nlm` of ion `i`, as a count. -/
def ion_nlm (p : t_params) (d : List Byte) (b0 i : Nat) : Nat :=
  (nlm_at d (ion_start p d b0 i)).toNat

/-- Offset of record `r` of ion `i`. -/
def rec_pos (p : t_params) (d : List Byte) (b0 i r : Nat) : Nat :=
  ion_start p d b0 i + 4 + r * rec_size p (ion_nlm p d b0 i)

/-- State of `read_arrays` after `r` records of ion `ion`, whose `nlm` was read as `nlm`
and whose records start at `base`, against the state `s0` in which the ion was entered. -/
structure RecInv (p : t_params) (d : List Byte) (ion base : Nat) (nlm : Int) (s0 : Arrays)
    (r : Nat) (s : Arrays) : Prop where
  fh : s.fh = ⟨d, base + r * rec_size p nlm.toNat, false⟩
  pos_le : base + r * rec_size p nlm.toNat ≤ d.length
  nlm_ok : 0 < r → 0 ≤ nlm ∧ nlm ≤ (BUF_LEN : Int)
  plo_dims : s.py_plo.dims = s0.py_plo.dims
  plo_len : s.py_plo.data.length = s0.py_plo.data.length
  ferw_dims : s.py_ferw.dims = s0.py_ferw.dims
  ferw_len : s.py_ferw.data.length = s0.py_ferw.data.length
  ferw_get : ∀ q, s.py_ferw.data[q]? =
    if ion * nrec p ≤ q ∧ q < ion * nrec p + r then
      some (weight_at p d (base + (q - ion * nrec p) * rec_size p nlm.toNat))
    else s0.py_ferw.data[q]?
  plo_new : ∀ r1 m, r1 < r → m < nlm.toNat → m < p.nlmmax.toNat →
    s.py_plo.data[(ion * nrec p + r1) * p.nlmmax.toNat + m]?
      = some (value_at p d (base + r1 * rec_size p nlm.toNat) m)
  plo_low : ∀ q, q < ion * nrec p * p.nlmmax.toNat → s.py_plo.data[q]? = s0.py_plo.data[q]?
  plo_pad : nlm.toNat ≤ p.nlmmax.toNat → ∀ r1 m, r1 < r → nlm.toNat ≤ m → m < p.nlmmax.toNat →
    s.py_plo.data[(ion * nrec p + r1) * p.nlmmax.toNat + m]?
      = s0.py_plo.data[(ion * nrec p + r1) * p.nlmmax.toNat + m]?
  plo_high : nlm.toNat ≤ p.nlmmax.toNat → ∀ q, (ion * nrec p + r) * p.nlmmax.toNat ≤ q →
    s.py_plo.data[q]? = s0.py_plo.data[q]?

/-- State of `read_arrays` after `i` ions, for blocks that start at `b0`, against the state
`sI` in which `read_arrays` was entered. -/
structure IonInv (p : t_params) (d : List Byte) (b0 : Nat) (sI : Arrays) (i : Nat)
    (s : Arrays) : Prop where
  fh : s.fh = ⟨d, ion_start p d b0 i, false⟩
  pos_le : ion_start p d b0 i ≤ d.length
  nlm_ok : ∀ j, j < i → 0 < nrec p →
    0 ≤ nlm_at d (ion_start p d b0 j) ∧ nlm_at d (ion_start p d b0 j) ≤ (BUF_LEN : Int)
  plo_dims : s.py_plo.dims = sI.py_plo.dims
  plo_len : s.py_plo.data.length = sI.py_plo.data.length
  ferw_dims : s.py_ferw.dims = sI.py_ferw.dims
  ferw_len : s.py_ferw.data.length = sI.py_ferw.data.length
  ferw_new : ∀ j r, j < i → r < nrec p →
    s.py_ferw.data[j * nrec p + r]? = some (weight_at p d (rec_pos p d b0 j r))
  ferw_high : ∀ q, i * nrec p ≤ q → s.py_ferw.data[q]? = sI.py_ferw.data[q]?
  plo_new : ∀ j r m, j < i → r < nrec p → m < ion_nlm p d b0 j → m < p.nlmmax.toNat →
    s.py_plo.data[(j * nrec p + r) * p.nlmmax.toNat + m]?
      = some (value_at p d (rec_pos p d b0 j r) m)
  plo_pad : (∀ j, j < i → ion_nlm p d b0 j ≤ p.nlmmax.toNat) →
    ∀ j r m, j < i → r < nrec p → ion_nlm p d b0 j ≤ m → m < p.nlmmax.toNat →
      s.py_plo.data[(j * nrec p + r) * p.nlmmax.toNat + m]?
        = sI.py_plo.data[(j * nrec p + r) * p.nlmmax.toNat + m]?
  plo_high : (∀ j, j < i → ion_nlm p d b0 j ≤ p.nlmmax.toNat) →
    ∀ q, i * nrec p * p.nlmmax.toNat ≤ q → s.py_plo.data[q]? = sI.py_plo.data[q]?

/-- The parameters that the header of `d` yields when its precision is supported. -/
def hdr_params (d : List Byte) : t_params :=
  ⟨hdr_field d 1, hdr_field d 2, hdr_field d 3, hdr_field d 4, hdr_field d 5, hdr_field d 6,
    if hdr_field d 0 = 8 then 1 else 0⟩

/-- The state `s` over the file cut down to its first `c` bytes. -/
def cut_state (c : Nat) (s : Arrays) : Arrays :=
  ⟨⟨s.fh.data.take c, s.fh.pos, s.fh.eof⟩, s.py_plo, s.py_ferw⟩

/-- A piece of `read_arrays` that runs through on the file `d` does the same on the first
`c` bytes of `d` when it stays inside them, and jumps to `error` at the end of the file
when it does not. -/
def CutStep (d : List Byte) (c : Nat) (body : Arrays → Res Arrays) : Prop :=
  ∀ s t, (s.fh.data = d ∧ s.fh.eof = false ∧ s.fh.pos ≤ d.length) → body s = .ok t →
    (t.fh.data = d ∧ t.fh.eof = false ∧ t.fh.pos ≤ d.length) ∧ s.fh.pos ≤ t.fh.pos ∧
    (t.fh.pos ≤ c → body (cut_state c s) = .ok (cut_state c t)) ∧
    (c < t.fh.pos → s.fh.pos ≤ c → ∃ e, body (cut_state c s) = .error e ∧ e.fh.eof = true)

/-- The state `s` over the file followed by the bytes `tl`. -/
def ext_state (tl : List Byte) (s : Arrays) : Arrays :=
  ⟨⟨s.fh.data ++ tl, s.fh.pos, s.fh.eof⟩, s.py_plo, s.py_ferw⟩

/-- A piece of `read_arrays` that runs through on the file `d` does the same on `d`
followed by the bytes `tl`. -/
def ExtStep (d tl : List Byte) (body : Arrays → Res Arrays) : Prop :=
  ∀ s t, (s.fh.data = d ∧ s.fh.eof = false ∧ s.fh.pos ≤ d.length) → body s = .ok t →
    (t.fh.data = d ∧ t.fh.eof = false ∧ t.fh.pos ≤ d.length) ∧
    body (ext_state tl s) = .ok (ext_state tl t)

/-- The list `x` lies in `l` at offset `o`. -/
def Seg {α : Type} (l : List α) (o : Nat) (x : List α) : Prop :=
  ∃ pre post, l = pre ++ x ++ post ∧ pre.length = o

/-- The `double` that a scalar of the precision of `x` is decoded to. -/
def decoded_of (x : PlocarData) (b : Nat) : Nat :=
  if x.precision = 8 then b else float_to_double b

/-- The number that a scalar of the precision of `x` stands for. -/
def encoded_val (x : PlocarData) (b : Nat) : FpVal :=
  if x.precision = 8 then double_val b else float_val b

/-- The parameters that `io_read_plocar` takes from the header of the encoding of `x`. -/
def params_of (x : PlocarData) : t_params :=
  ⟨x.nion, x.ns, x.nk, x.nb, x.nlmmax, x.nc_flag, if x.precision = 8 then 1 else 0⟩

/-! # Theorems -/

/-! ## Streams, stores and loops -/

theorem fread_one_ok (sz : Nat) (fh : FILE) (hsz : 0 < sz) (h : fh.pos + sz ≤ fh.data.length) :
    fread sz 1 fh = ⟨1, (fh.data.drop fh.pos).take sz, ⟨fh.data, fh.pos + sz, fh.eof⟩⟩ := by
  have h1 : min (sz * 1) (fh.data.length - fh.pos) = sz := by
    rw [Nat.mul_one]; exact Nat.min_eq_left (by omega)
  have h2 : ¬ (fh.data.length - fh.pos < sz * 1) := by omega
  simp only [fread, h1, h2, decide_False, Bool.or_false, Nat.div_self hsz]

theorem fread_one_short (sz : Nat) (fh : FILE) (hp : fh.pos ≤ fh.data.length)
    (h : fh.data.length < fh.pos + sz) :
    fread sz 1 fh = ⟨0, fh.data.drop fh.pos, ⟨fh.data, fh.data.length, true⟩⟩ := by
  have h1 : min (sz * 1) (fh.data.length - fh.pos) = fh.data.length - fh.pos := by
    rw [Nat.mul_one]; exact Nat.min_eq_right (by omega)
  have h2 : fh.data.length - fh.pos < sz * 1 := by omega
  have h3 : (fh.data.length - fh.pos) / sz = 0 := Nat.div_eq_of_lt (by omega)
  have h4 : fh.pos + (fh.data.length - fh.pos) = fh.data.length := by omega
  have h5 : List.take (fh.data.length - fh.pos) (List.drop fh.pos fh.data) = List.drop fh.pos fh.data := by
    apply List.take_of_length_le; simp
  simp only [fread, h1, h2, h3, h4, h5, decide_True, Bool.or_true]

theorem read_field_ok (d : List Byte) (pos : Nat) (eof : Bool) (rest : Int → FILE → Outcome)
    (h : pos + 4 ≤ d.length) :
    read_field ⟨d, pos, eof⟩ rest
      = rest (to_int32 (le_nat ((d.drop pos).take 4))) ⟨d, pos + 4, eof⟩ := by
  have := fread_one_ok 4 ⟨d, pos, eof⟩ (by decide) h
  simp only [read_field, this]
  simp

theorem read_field_short (d : List Byte) (pos : Nat) (eof : Bool) (rest : Int → FILE → Outcome)
    (hp : pos ≤ d.length) (h : d.length < pos + 4) :
    read_field ⟨d, pos, eof⟩ rest
      = .returned none ⟨⟨d, d.length, true⟩, none, none, none, some .IOError_eof, 1⟩ := by
  have := fread_one_short 4 ⟨d, pos, eof⟩ hp h
  simp only [read_field, this]
  simp [label_ioerror, label_error]

theorem io_read_plocar_short (h : Host) (d : List Byte) (hf : h.file = some d)
    (hlen : d.length < 28) :
    io_read_plocar h
      = .returned none ⟨⟨d, d.length, true⟩, none, none, none, some .IOError_eof, 1⟩ := by
  unfold io_read_plocar
  rw [hf]
  simp only
  by_cases h0 : d.length < 0 + 4
  · exact read_field_short d 0 false _ (by omega) h0
  rw [read_field_ok d 0 false _ (by omega)]
  by_cases h1 : d.length < 4 + 4
  · exact read_field_short d _ false _ (by omega) h1
  rw [read_field_ok d _ false _ (by omega)]
  by_cases h2 : d.length < 8 + 4
  · exact read_field_short d _ false _ (by omega) h2
  rw [read_field_ok d _ false _ (by omega)]
  by_cases h3 : d.length < 12 + 4
  · exact read_field_short d _ false _ (by omega) h3
  rw [read_field_ok d _ false _ (by omega)]
  by_cases h4 : d.length < 16 + 4
  · exact read_field_short d _ false _ (by omega) h4
  rw [read_field_ok d _ false _ (by omega)]
  by_cases h5 : d.length < 20 + 4
  · exact read_field_short d _ false _ (by omega) h5
  rw [read_field_ok d _ false _ (by omega)]
  exact read_field_short d _ false _ (by omega) (by omega)

theorem io_read_plocar_header (h : Host) (d : List Byte) (hf : h.file = some d)
    (hlen : 28 ≤ d.length) :
    io_read_plocar h
      = if hdr_field d 0 = 8 then
          read_body h ⟨hdr_field d 1, hdr_field d 2, hdr_field d 3, hdr_field d 4,
            hdr_field d 5, hdr_field d 6, 1⟩ ⟨d, 28, false⟩
        else if hdr_field d 0 = 4 then
          read_body h ⟨hdr_field d 1, hdr_field d 2, hdr_field d 3, hdr_field d 4,
            hdr_field d 5, hdr_field d 6, 0⟩ ⟨d, 28, false⟩
        else label_error ⟨⟨d, 28, false⟩, none, none, none, some .ValueError_prec, 0⟩ := by
  unfold io_read_plocar
  rw [hf]
  simp only
  rw [read_field_ok d 0 false _ (by omega), read_field_ok d _ false _ (by omega),
    read_field_ok d _ false _ (by omega), read_field_ok d _ false _ (by omega),
    read_field_ok d _ false _ (by omega), read_field_ok d _ false _ (by omega),
    read_field_ok d _ false _ (by omega)]
  simp only [hdr_field]

theorem create_par_dictionary_eq (p : t_params) :
    create_par_dictionary p
      = [("nion", p.nion), ("ns", p.ns), ("nk", p.nk), ("nb", p.nb), ("nc_flag", p.nc_flag)] := by
  simp [create_par_dictionary, PyDict_SetItemString]

theorem for_from_holds {σ : Type} (body : Nat → σ → Res σ) (P : Nat → σ → Prop) (Q : σ → Prop) :
    ∀ (n i : Nat) (s : σ), P i s →
      (∀ j s, i ≤ j → j < i + n → P j s → (body j s).holds (P (j + 1)) Q) →
      (for_from body i n s).holds (P (i + n)) Q := by
  intro n
  induction n with
  | zero => intro i s hP _; simpa [for_from, Res.holds] using hP
  | succ n ih =>
    intro i s hP hstep
    have h1 := hstep i s (Nat.le_refl i) (by omega) hP
    unfold for_from
    cases hb : body i s with
    | ok t =>
      rw [hb] at h1
      have h2 := ih (i + 1) t h1 (fun j s hj hj' => hstep j s (by omega) (by omega))
      have e : i + 1 + n = i + (n + 1) := by omega
      rw [e] at h2
      exact h2
    | error e => rw [hb] at h1; exact h1
    | undefined => trivial

theorem for_from_ok {σ : Type} (body : Nat → σ → Res σ) (P : Nat → σ → Prop) :
    ∀ (n i : Nat) (s : σ), P i s →
      (∀ j s, i ≤ j → j < i + n → P j s → ∃ t, body j s = .ok t ∧ P (j + 1) t) →
      ∃ t, for_from body i n s = .ok t ∧ P (i + n) t := by
  intro n
  induction n with
  | zero => intro i s hP _; exact ⟨s, rfl, hP⟩
  | succ n ih =>
    intro i s hP hstep
    obtain ⟨t, hb, hPt⟩ := hstep i s (Nat.le_refl i) (by omega) hP
    obtain ⟨u, hu, hPu⟩ := ih (i + 1) t hPt (fun j s hj hj' => hstep j s (by omega) (by omega))
    refine ⟨u, ?_, ?_⟩
    · unfold for_from; rw [hb]; exact hu
    · have e : i + 1 + n = i + (n + 1) := by omega
      rw [e] at hPu; exact hPu

theorem for_from_congr {σ : Type} (body body' : Nat → σ → Res σ) :
    ∀ (n i : Nat) (s : σ), (∀ j s, i ≤ j → j < i + n → body j s = body' j s) →
      for_from body i n s = for_from body' i n s := by
  intro n
  induction n with
  | zero => intro i s _; rfl
  | succ n ih =>
    intro i s h
    unfold for_from
    rw [h i s (Nat.le_refl i) (by omega)]
    cases body' i s with
    | ok t => exact ih (i + 1) t (fun j s hj hj' => h j s (by omega) (by omega))
    | error e => rfl
    | undefined => rfl

/-- Truncation: a loop that runs through on the whole input either runs through alike on
the cut input, or jumps to `error` there. -/
theorem for_from_cut {σ : Type} (body : Nat → σ → Res σ) (I : σ → Prop) (pos : σ → Nat)
    (rt : σ → σ) (E : σ → Prop) (c : Nat)
    (hstep : ∀ j s t, I s → body j s = .ok t →
      I t ∧ pos s ≤ pos t ∧ (pos t ≤ c → body j (rt s) = .ok (rt t)) ∧
        (c < pos t → pos s ≤ c → ∃ e, body j (rt s) = .error e ∧ E e)) :
    ∀ (n i : Nat) (s t : σ), I s → for_from body i n s = .ok t →
      I t ∧ pos s ≤ pos t ∧ (pos t ≤ c → for_from body i n (rt s) = .ok (rt t)) ∧
        (c < pos t → pos s ≤ c → ∃ e, for_from body i n (rt s) = .error e ∧ E e) := by
  intro n
  induction n with
  | zero =>
    intro i s t hI h
    simp only [for_from, Res.ok.injEq] at h
    subst h
    exact ⟨hI, Nat.le_refl _, fun _ => rfl, fun h1 h2 => absurd h2 (by omega)⟩
  | succ n ih =>
    intro i s t hI h
    unfold for_from at h
    cases hb : body i s with
    | ok u =>
      rw [hb] at h
      simp only at h
      obtain ⟨hIu, hle, hok, herr⟩ := hstep i s u hI hb
      obtain ⟨hIt, hle', hok', herr'⟩ := ih (i + 1) u t hIu h
      refine ⟨hIt, Nat.le_trans hle hle', ?_, ?_⟩
      · intro hc
        unfold for_from
        rw [hok (by omega)]
        exact hok' hc
      · intro hc hs
        unfold for_from
        by_cases hu : pos u ≤ c
        · rw [hok hu]
          exact herr' hc hu
        · obtain ⟨e, he, hE⟩ := herr (by omega) hs
          rw [he]
          exact ⟨e, rfl, hE⟩
    | error e => rw [hb] at h; simp at h
    | undefined => rw [hb] at h; simp at h

theorem fread_full (sz n : Nat) (fh : FILE) (hsz : 0 < sz) (h : fh.pos + sz * n ≤ fh.data.length) :
    fread sz n fh = ⟨n, (fh.data.drop fh.pos).take (sz * n), ⟨fh.data, fh.pos + sz * n, fh.eof⟩⟩ := by
  have h1 : min (sz * n) (fh.data.length - fh.pos) = sz * n := Nat.min_eq_left (by omega)
  have h2 : ¬ (fh.data.length - fh.pos < sz * n) := by omega
  simp only [fread, h1, h2, decide_False, Bool.or_false, Nat.mul_div_cancel_left n hsz]

theorem fread_short (sz n : Nat) (fh : FILE) (hsz : 0 < sz) (hp : fh.pos ≤ fh.data.length)
    (h : fh.data.length < fh.pos + sz * n) :
    fread sz n fh = ⟨(fh.data.length - fh.pos) / sz, fh.data.drop fh.pos, ⟨fh.data, fh.data.length, true⟩⟩
      ∧ (fh.data.length - fh.pos) / sz < n := by
  have h1 : min (sz * n) (fh.data.length - fh.pos) = fh.data.length - fh.pos :=
    Nat.min_eq_right (by omega)
  have h2 : fh.data.length - fh.pos < sz * n := by omega
  have h4 : fh.pos + (fh.data.length - fh.pos) = fh.data.length := by omega
  have h5 : List.take (fh.data.length - fh.pos) (List.drop fh.pos fh.data) = List.drop fh.pos fh.data := by
    apply List.take_of_length_le; simp
  refine ⟨?_, ?_⟩
  · simp only [fread, h1, h2, h4, h5, decide_True, Bool.or_true]
  · exact (Nat.div_lt_iff_lt_mul hsz).mpr (by rw [Nat.mul_comm]; exact h2)

theorem drop_take_drop_take {α : Type} (l : List α) (a n b c : Nat) (h : b + c ≤ n) :
    (((l.drop a).take n).drop b).take c = (l.drop (a + b)).take c := by
  rw [List.drop_take, List.take_take, List.drop_drop, Nat.min_eq_left (by omega)]

theorem to_size_t_small (nlm : Int) (h1 : -(2 ^ 31) ≤ nlm) (h2 : nlm < 2 ^ 31) (k : Nat)
    (hk : to_size_t nlm = k) (hk50 : k < 2 ^ 63) : nlm = (k : Int) := by
  unfold to_size_t at hk
  omega

theorem to_size_t_nat (k : Nat) (hk : k < 2 ^ 64) : to_size_t (k : Int) = k := by
  unfold to_size_t
  omega

theorem to_int32_range (n : Nat) : -(2 ^ 31) ≤ to_int32 n ∧ to_int32 n < 2 ^ 31 := by
  unfold to_int32
  split <;> omega

theorem store_some {α : Type} (arr arr1 : PyArrayObject α) (off : Nat) (v : α)
    (h : store arr off v = some arr1) :
    off < arr.data.length ∧ arr1.dims = arr.dims ∧ arr1.data.length = arr.data.length ∧
      ∀ q, arr1.data[q]? = if q = off then some v else arr.data[q]? := by
  unfold store at h
  split at h
  · rename_i hlt
    simp only [Option.some.injEq] at h
    subst h
    refine ⟨hlt, rfl, by simp, ?_⟩
    intro q
    simp only [List.getElem?_set]
    by_cases hq : q = off
    · subst hq; simp [hlt]
    · have : ¬ off = q := fun e => hq e.symm
      simp [hq, this]
  · simp at h

theorem store_of_lt {α : Type} (arr : PyArrayObject α) (off : Nat) (v : α)
    (h : off < arr.data.length) : ∃ arr1, store arr off v = some arr1 := by
  unfold store
  simp [h]

theorem memcpy_some {α : Type} (arr arr1 : PyArrayObject α) (off : Nat) (vals : List α)
    (h : memcpy arr off vals = some arr1) :
    off + vals.length ≤ arr.data.length ∧ arr1.dims = arr.dims ∧
      arr1.data.length = arr.data.length ∧
      ∀ q, arr1.data[q]? = if off ≤ q ∧ q < off + vals.length then vals[q - off]?
        else arr.data[q]? := by
  unfold memcpy at h
  split at h
  · rename_i hle
    simp only [Option.some.injEq] at h
    subst h
    refine ⟨hle, rfl, ?_, ?_⟩
    · simp; omega
    · intro q
      have hl : (List.take off arr.data).length = off := by simp; omega
      by_cases h1 : q < off
      · have : ¬ (off ≤ q ∧ q < off + vals.length) := by omega
        rw [if_neg this, List.append_assoc, List.getElem?_append_left (by omega)]
        rw [List.getElem?_take_of_lt h1]
      · by_cases h2 : q < off + vals.length
        · have : off ≤ q ∧ q < off + vals.length := by omega
          rw [if_pos this, List.append_assoc, List.getElem?_append_right (by omega), hl,
            List.getElem?_append_left (by omega)]
        · have : ¬ (off ≤ q ∧ q < off + vals.length) := by omega
          rw [if_neg this, List.append_assoc, List.getElem?_append_right (by omega), hl,
            List.getElem?_append_right (by omega), List.getElem?_drop]
          congr 1; omega
  · simp at h

theorem memcpy_of_le {α : Type} (arr : PyArrayObject α) (off : Nat) (vals : List α)
    (h : off + vals.length ≤ arr.data.length) : ∃ arr1, memcpy arr off vals = some arr1 := by
  unfold memcpy
  simp [h]

theorem store_many_some (off : Nat) (f : Nat → Nat × Nat) :
    ∀ (m i : Nat) (pl pl1 : PloArray), store_many pl off f i m = some pl1 →
      (0 < m → off + i + m ≤ pl.data.length) ∧ pl1.dims = pl.dims ∧
      pl1.data.length = pl.data.length ∧
      ∀ q, pl1.data[q]? = if off + i ≤ q ∧ q < off + i + m then some (f (q - off))
        else pl.data[q]? := by
  intro m
  induction m with
  | zero =>
    intro i pl pl1 h
    simp only [store_many, Option.some.injEq] at h
    subst h
    refine ⟨fun h => absurd h (by omega), rfl, rfl, ?_⟩
    intro q
    have : ¬ (off + i ≤ q ∧ q < off + i + 0) := by omega
    rw [if_neg this]
  | succ m ih =>
    intro i pl pl1 h
    unfold store_many at h
    cases hs : store pl (off + i) (f i) with
    | none => rw [hs] at h; simp at h
    | some pl2 =>
      rw [hs] at h
      simp only at h
      obtain ⟨a1, a2, a3, a4⟩ := store_some _ _ _ _ hs
      obtain ⟨b1, b2, b3, b4⟩ := ih (i + 1) pl2 pl1 h
      refine ⟨?_, by rw [b2, a2], by rw [b3, a3], ?_⟩
      · intro _
        by_cases hm : 0 < m
        · have := b1 hm; omega
        · omega
      · intro q
        rw [b4 q, a4 q]
        by_cases h1 : q = off + i
        · subst h1
          have c1 : ¬ (off + (i + 1) ≤ off + i ∧ off + i < off + (i + 1) + m) := by omega
          have c2 : off + i ≤ off + i ∧ off + i < off + i + (m + 1) := by omega
          rw [if_neg c1, if_pos rfl, if_pos c2]
          congr 2; omega
        · by_cases h2 : off + (i + 1) ≤ q ∧ q < off + (i + 1) + m
          · have c2 : off + i ≤ q ∧ q < off + i + (m + 1) := by omega
            rw [if_pos h2, if_pos c2]
          · have c2 : ¬ (off + i ≤ q ∧ q < off + i + (m + 1)) := by omega
            rw [if_neg h2, if_neg h1, if_neg c2]

theorem store_many_of_le (off : Nat) (f : Nat → Nat × Nat) :
    ∀ (m i : Nat) (pl : PloArray), off + i + m ≤ pl.data.length →
      ∃ pl1, store_many pl off f i m = some pl1 := by
  intro m
  induction m with
  | zero => intro i pl _; exact ⟨pl, rfl⟩
  | succ m ih =>
    intro i pl h
    obtain ⟨pl2, hs⟩ := store_of_lt pl (off + i) (f i) (by omega)
    obtain ⟨_, _, a3, _⟩ := store_some _ _ _ _ hs
    obtain ⟨pl1, h1⟩ := ih (i + 1) pl2 (by rw [a3]; omega)
    exact ⟨pl1, by unfold store_many; rw [hs]; exact h1⟩

theorem store_many_congr (off : Nat) (f g : Nat → Nat × Nat) :
    ∀ (m i : Nat) (pl : PloArray), (∀ j, i ≤ j → j < i + m → f j = g j) →
      store_many pl off f i m = store_many pl off g i m := by
  intro m
  induction m with
  | zero => intro i pl _; rfl
  | succ m ih =>
    intro i pl h
    unfold store_many
    rw [h i (Nat.le_refl i) (by omega)]
    cases store pl (off + i) (g i) with
    | none => rfl
    | some pl2 => exact ih (i + 1) pl2 (fun j hj hj' => h j (by omega) (by omega))

theorem store_loop_eq (off : Nat) (f : Nat → Nat × Nat) (fh : FILE) (fw : FerwArray) :
    ∀ (m i : Nat) (pl : PloArray),
      for_from (fun ilm (t : Arrays) =>
          match store t.py_plo (off + ilm) (f ilm) with
          | none => Res.undefined
          | some pl1 => Res.ok ⟨t.fh, pl1, t.py_ferw⟩) i m ⟨fh, pl, fw⟩
        = match store_many pl off f i m with
          | none => Res.undefined
          | some pl1 => Res.ok ⟨fh, pl1, fw⟩ := by
  intro m
  induction m with
  | zero => intro i pl; rfl
  | succ m ih =>
    intro i pl
    unfold for_from store_many
    cases hs : store pl (off + i) (f i) with
    | none => simp [hs]
    | some pl2 => simp only [hs]; exact ih (i + 1) pl2

/-! ## One record -/

theorem rec_size_double (p : t_params) (h : p.isdouble ≠ 0) (k : Nat) :
    rec_size p k = 8 + 16 * k := by
  simp [rec_size, wsize, h]

theorem rec_size_float (p : t_params) (h : ¬ p.isdouble ≠ 0) (k : Nat) :
    rec_size p k = 4 + 8 * k := by
  simp only [rec_size, wsize, if_neg h]

theorem cdouble_at_buf (d : List Byte) (a k m : Nat) (hm : m < k) :
    cdouble_at ((d.drop a).take (16 * k)) m
      = (le_nat ((d.drop (a + 16 * m)).take 8), le_nat ((d.drop (a + 16 * m + 8)).take 8)) := by
  simp only [cdouble_at, double_at]
  rw [drop_take_drop_take _ _ _ _ _ (by omega), drop_take_drop_take _ _ _ _ _ (by omega)]
  have e1 : a + 8 * (2 * m) = a + 16 * m := by omega
  have e2 : a + 8 * (2 * m + 1) = a + 16 * m + 8 := by omega
  rw [e1, e2]

theorem cfloat_at_buf (d : List Byte) (a k m : Nat) (hm : m < k) :
    cfloat_at ((d.drop a).take (8 * k)) m
      = (le_nat ((d.drop (a + 8 * m)).take 4), le_nat ((d.drop (a + 8 * m + 4)).take 4)) := by
  simp only [cfloat_at, float_at]
  rw [drop_take_drop_take _ _ _ _ _ (by omega), drop_take_drop_take _ _ _ _ _ (by omega)]
  have e1 : a + 4 * (2 * m) = a + 8 * m := by omega
  have e2 : a + 4 * (2 * m + 1) = a + 8 * m + 4 := by omega
  rw [e1, e2]

theorem read_record_full (p : t_params) (nlm : Int) (ion is ik ib : Nat) (s : Arrays)
    (d : List Byte) (pos : Nat) (eof : Bool) (k : Nat)
    (hfh : s.fh = ⟨d, pos, eof⟩) (hk : nlm = (k : Int)) (hk50 : k ≤ BUF_LEN)
    (hlen : pos + rec_size p k ≤ d.length) :
    read_record p nlm ion is ik ib s
      = record_store p ion is ik ib k (weight_at p d pos) (value_at p d pos)
          ⟨d, pos + rec_size p k, eof⟩ s := by
  have hsz : to_size_t nlm = k := by
    rw [hk]; exact to_size_t_nat k (by unfold BUF_LEN at hk50; omega)
  unfold BUF_LEN at hk50
  by_cases hd : p.isdouble ≠ 0
  · rw [rec_size_double p hd] at hlen ⊢
    have r1 := fread_one_ok 8 ⟨d, pos, eof⟩ (by decide) (by simp only []; omega)
    have r2 := fread_full 16 k ⟨d, pos + 8, eof⟩ (by decide) (by simp only []; omega)
    simp only [] at r1 r2
    have hvals : (List.range k).map (cdouble_at ((d.drop (pos + 8)).take (16 * k)))
        = (List.range k).map (value_at p d pos) := by
      apply List.map_congr_left
      intro m hm
      rw [cdouble_at_buf d (pos + 8) k m (List.mem_range.mp hm)]
      simp [value_at, hd]
    have hlen2 : ¬ (BUF_LEN * 16 < (List.take (16 * k) (List.drop (pos + 8) d)).length) := by
      rw [List.length_take, List.length_drop]; unfold BUF_LEN; omega
    simp only [read_record, record_store, hd, if_true, hfh, r1, hsz, r2, hvals, hlen2, if_false,
      Nat.lt_irrefl, weight_at, not_false_eq_true, lt_self_iff_false, ne_eq]
    have e : pos + 8 + 16 * k = pos + (8 + 16 * k) := by omega
    rw [e]
  · rw [rec_size_float p hd] at hlen ⊢
    have r1 := fread_one_ok 4 ⟨d, pos, eof⟩ (by decide) (by simp only []; omega)
    have r2 := fread_full 8 k ⟨d, pos + 4, eof⟩ (by decide) (by simp only []; omega)
    simp only [] at r1 r2
    have hlen2 : ¬ (BUF_LEN * 8 < (List.take (8 * k) (List.drop (pos + 4) d)).length) := by
      rw [List.length_take, List.length_drop]; unfold BUF_LEN; omega
    have hloop : ∀ (fw : FerwArray) (off : Nat),
        for_loop nlm (fun ilm (t : Arrays) =>
          match store t.py_plo (off + ilm)
              (cfloat_to_cdouble (cfloat_at ((d.drop (pos + 4)).take (8 * k)) ilm)) with
          | none => Res.undefined
          | some pl => Res.ok ⟨t.fh, pl, t.py_ferw⟩) ⟨⟨d, pos + 4 + 8 * k, eof⟩, s.py_plo, fw⟩
        = match store_many s.py_plo off (value_at p d pos) 0 k with
          | none => Res.undefined
          | some pl => Res.ok ⟨⟨d, pos + (4 + 8 * k), eof⟩, pl, fw⟩ := by
      intro fw off
      unfold for_loop
      have e : pos + (4 + 8 * k) = pos + 4 + 8 * k := by omega
      rw [hk, Int.toNat_ofNat, e]
      refine Eq.trans ?_ (store_loop_eq off (value_at p d pos) _ fw k 0 s.py_plo)
      apply for_from_congr
      intro j t _ hj
      rw [cfloat_at_buf d (pos + 4) k j (by omega)]
      have hv : cfloat_to_cdouble (le_nat (List.take 4 (List.drop (pos + 4 + 8 * j) d)),
          le_nat (List.take 4 (List.drop (pos + 4 + 8 * j + 4) d))) = value_at p d pos j := by
        simp [value_at, hd, cfloat_to_cdouble]
      rw [hv]
    simp only [read_record, record_store, hd, if_false, hfh, r1, hsz, r2, hlen2,
      Nat.lt_irrefl, weight_at, not_false_eq_true, lt_self_iff_false]
    generalize store s.py_ferw (PyArray_GetPtr s.py_ferw [ion, is, ik, ib])
      (float_to_double (le_nat (List.take 4 (List.drop pos d)))) = o
    cases o with
    | none => rfl
    | some fw =>
      exact hloop fw (PyArray_GetPtr s.py_plo [ion, is, ik, ib, 0])

theorem read_record_short (p : t_params) (nlm : Int) (ion is ik ib : Nat) (s : Arrays)
    (d : List Byte) (pos : Nat) (eof : Bool) (k : Nat)
    (hfh : s.fh = ⟨d, pos, eof⟩) (hk : nlm = (k : Int)) (hk50 : k ≤ BUF_LEN)
    (hpos : pos ≤ d.length) (hlen : d.length < pos + rec_size p k) :
    read_record p nlm ion is ik ib s = .error ⟨⟨d, d.length, true⟩, s.py_plo, s.py_ferw⟩ := by
  have hsz : to_size_t nlm = k := by
    rw [hk]; exact to_size_t_nat k (by unfold BUF_LEN at hk50; omega)
  unfold BUF_LEN at hk50
  by_cases hd : p.isdouble ≠ 0
  · rw [rec_size_double p hd] at hlen
    by_cases h1 : d.length < pos + 8
    · have r1 := fread_one_short 8 ⟨d, pos, eof⟩ hpos h1
      simp only [] at r1
      simp [read_record, hd, hfh, r1]
    · have r1 := fread_one_ok 8 ⟨d, pos, eof⟩ (by decide) (by simp only []; omega)
      have r2 := fread_short 16 k ⟨d, pos + 8, eof⟩ (by decide) (by simp only []; omega)
        (by simp only []; omega)
      simp only [] at r1 r2
      have hlen2 : ¬ (BUF_LEN * 16 < (List.drop (pos + 8) d).length) := by
        rw [List.length_drop]; unfold BUF_LEN; omega
      simp only [read_record, hd, if_true, hfh, r1, hsz, r2.1, hlen2, if_false, r2.2,
        Nat.lt_irrefl, not_false_eq_true, lt_self_iff_false, ne_eq]
  · rw [rec_size_float p hd] at hlen
    by_cases h1 : d.length < pos + 4
    · have r1 := fread_one_short 4 ⟨d, pos, eof⟩ hpos h1
      simp only [] at r1
      simp [read_record, hd, hfh, r1]
    · have r1 := fread_one_ok 4 ⟨d, pos, eof⟩ (by decide) (by simp only []; omega)
      have r2 := fread_short 8 k ⟨d, pos + 4, eof⟩ (by decide) (by simp only []; omega)
        (by simp only []; omega)
      simp only [] at r1 r2
      have hlen2 : ¬ (BUF_LEN * 8 < (List.drop (pos + 4) d).length) := by
        rw [List.length_drop]; unfold BUF_LEN; omega
      simp only [read_record, hd, if_false, hfh, r1, hsz, r2.1, hlen2, r2.2,
        Nat.lt_irrefl, not_false_eq_true, lt_self_iff_false, if_true]

theorem read_record_ok_bounds (p : t_params) (nlm : Int) (ion is ik ib : Nat) (s t : Arrays)
    (d : List Byte) (pos : Nat) (eof : Bool)
    (hfh : s.fh = ⟨d, pos, eof⟩) (hpos : pos ≤ d.length)
    (hr1 : -(2 ^ 31) ≤ nlm) (hr2 : nlm < 2 ^ 31)
    (h : read_record p nlm ion is ik ib s = .ok t) :
    ∃ k : Nat, nlm = (k : Int) ∧ k ≤ BUF_LEN ∧ pos + rec_size p k ≤ d.length := by
  by_cases hd : p.isdouble ≠ 0
  · by_cases h1 : d.length < pos + 8
    · have r1 := fread_one_short 8 ⟨d, pos, eof⟩ hpos h1
      simp only [] at r1
      simp [read_record, hd, hfh, r1] at h
    · have r1 := fread_one_ok 8 ⟨d, pos, eof⟩ (by decide) (by simp only []; omega)
      simp only [] at r1
      by_cases h2 : d.length < pos + 8 + 16 * to_size_t nlm
      · have r2 := fread_short 16 (to_size_t nlm) ⟨d, pos + 8, eof⟩ (by decide)
          (by simp only []; omega) (by simp only []; omega)
        simp only [] at r2
        simp only [read_record, hd, if_true, hfh, r1, r2.1, r2.2, Nat.lt_irrefl, if_false,
          not_false_eq_true, lt_self_iff_false, ne_eq] at h
        split at h <;> simp at h
      · have r2 := fread_full 16 (to_size_t nlm) ⟨d, pos + 8, eof⟩ (by decide)
          (by simp only []; omega)
        simp only [] at r2
        have hk : to_size_t nlm ≤ BUF_LEN := by
          by_contra hc
          have hlen2 : BUF_LEN * 16 < (List.take (16 * to_size_t nlm) (List.drop (pos + 8) d)).length := by
            rw [List.length_take, List.length_drop]; unfold BUF_LEN at hc ⊢; omega
          simp only [read_record, hd, if_true, hfh, r1, r2, hlen2, Nat.lt_irrefl, if_false,
            not_false_eq_true, lt_self_iff_false, ne_eq] at h
          simp at h
        refine ⟨to_size_t nlm, to_size_t_small nlm hr1 hr2 _ rfl ?_, hk, ?_⟩
        · unfold BUF_LEN at hk; omega
        · rw [rec_size_double p hd]; omega
  · by_cases h1 : d.length < pos + 4
    · have r1 := fread_one_short 4 ⟨d, pos, eof⟩ hpos h1
      simp only [] at r1
      simp [read_record, hd, hfh, r1] at h
    · have r1 := fread_one_ok 4 ⟨d, pos, eof⟩ (by decide) (by simp only []; omega)
      simp only [] at r1
      by_cases h2 : d.length < pos + 4 + 8 * to_size_t nlm
      · have r2 := fread_short 8 (to_size_t nlm) ⟨d, pos + 4, eof⟩ (by decide)
          (by simp only []; omega) (by simp only []; omega)
        simp only [] at r2
        simp only [read_record, hd, if_true, hfh, r1, r2.1, r2.2, Nat.lt_irrefl, if_false,
          not_false_eq_true, lt_self_iff_false, ne_eq] at h
        split at h <;> simp at h
      · have r2 := fread_full 8 (to_size_t nlm) ⟨d, pos + 4, eof⟩ (by decide)
          (by simp only []; omega)
        simp only [] at r2
        have hk : to_size_t nlm ≤ BUF_LEN := by
          by_contra hc
          have hlen2 : BUF_LEN * 8 < (List.take (8 * to_size_t nlm) (List.drop (pos + 4) d)).length := by
            rw [List.length_take, List.length_drop]; unfold BUF_LEN at hc ⊢; omega
          simp only [read_record, hd, if_true, hfh, r1, r2, hlen2, Nat.lt_irrefl, if_false,
            not_false_eq_true, lt_self_iff_false, ne_eq] at h
          simp at h
        refine ⟨to_size_t nlm, to_size_t_small nlm hr1 hr2 _ rfl ?_, hk, ?_⟩
        · unfold BUF_LEN at hk; omega
        · rw [rec_size_float p hd]; omega

theorem record_store_ok (p : t_params) (ion is ik ib k wt : Nat) (f : Nat → Nat × Nat)
    (fh1 : FILE) (s t : Arrays)
    (h : record_store p ion is ik ib k wt f fh1 s = .ok t) :
    t.fh = fh1 ∧ store s.py_ferw (PyArray_GetPtr s.py_ferw [ion, is, ik, ib]) wt = some t.py_ferw ∧
      (0 < k → PyArray_GetPtr s.py_plo [ion, is, ik, ib, 0] + k ≤ s.py_plo.data.length) ∧
      t.py_plo.dims = s.py_plo.dims ∧ t.py_plo.data.length = s.py_plo.data.length ∧
      ∀ q, t.py_plo.data[q]? =
        if PyArray_GetPtr s.py_plo [ion, is, ik, ib, 0] ≤ q ∧
            q < PyArray_GetPtr s.py_plo [ion, is, ik, ib, 0] + k
        then some (f (q - PyArray_GetPtr s.py_plo [ion, is, ik, ib, 0])) else s.py_plo.data[q]? := by
  unfold record_store at h
  cases hs : store s.py_ferw (PyArray_GetPtr s.py_ferw [ion, is, ik, ib]) wt with
  | none => rw [hs] at h; simp at h
  | some fw =>
    rw [hs] at h
    simp only at h
    by_cases hd : p.isdouble ≠ 0
    · rw [if_pos hd] at h
      cases hm : memcpy s.py_plo (PyArray_GetPtr s.py_plo [ion, is, ik, ib, 0])
          ((List.range k).map f) with
      | none => rw [hm] at h; simp at h
      | some pl =>
        rw [hm] at h
        simp only [Res.ok.injEq] at h
        subst h
        obtain ⟨a1, a2, a3, a4⟩ := memcpy_some _ _ _ _ hm
        simp only [List.length_map, List.length_range] at a1 a4
        refine ⟨rfl, rfl, fun _ => a1, a2, a3, ?_⟩
        intro q
        rw [a4 q]
        split
        · rename_i hq
          rw [List.getElem?_map, List.getElem?_range (by omega)]
          rfl
        · rfl
    · rw [if_neg hd] at h
      cases hm : store_many s.py_plo (PyArray_GetPtr s.py_plo [ion, is, ik, ib, 0]) f 0 k with
      | none => rw [hm] at h; simp at h
      | some pl =>
        rw [hm] at h
        simp only [Res.ok.injEq] at h
        subst h
        obtain ⟨a1, a2, a3, a4⟩ := store_many_some _ _ _ _ _ _ hm
        simp only [Nat.add_zero] at a1 a4
        exact ⟨rfl, rfl, a1, a2, a3, a4⟩

theorem record_store_of_le (p : t_params) (ion is ik ib k wt : Nat) (f : Nat → Nat × Nat)
    (fh1 : FILE) (s : Arrays)
    (h4 : PyArray_GetPtr s.py_ferw [ion, is, ik, ib] < s.py_ferw.data.length)
    (h5 : PyArray_GetPtr s.py_plo [ion, is, ik, ib, 0] + k ≤ s.py_plo.data.length) :
    ∃ t, record_store p ion is ik ib k wt f fh1 s = .ok t := by
  obtain ⟨fw, hs⟩ := store_of_lt s.py_ferw _ wt h4
  unfold record_store
  rw [hs]
  by_cases hd : p.isdouble ≠ 0
  · obtain ⟨pl, hm⟩ := memcpy_of_le s.py_plo (PyArray_GetPtr s.py_plo [ion, is, ik, ib, 0])
      ((List.range k).map f) (by simpa using h5)
    simp only [if_pos hd, hm]
    exact ⟨_, rfl⟩
  · obtain ⟨pl, hm⟩ := store_many_of_le (PyArray_GetPtr s.py_plo [ion, is, ik, ib, 0]) f k 0
      s.py_plo (by simpa using h5)
    simp only [if_neg hd, hm]
    exact ⟨_, rfl⟩

/-- The stores of a record depend on the state through the two arrays only, and on the
values through the first `k` only. -/
theorem record_store_transfer (p : t_params) (ion is ik ib k wt : Nat) (f g : Nat → Nat × Nat)
    (fh1 fh2 : FILE) (s s2 t : Arrays) (hpl : s2.py_plo = s.py_plo) (hfw : s2.py_ferw = s.py_ferw)
    (hfg : ∀ m, m < k → g m = f m)
    (h : record_store p ion is ik ib k wt f fh1 s = .ok t) :
    record_store p ion is ik ib k wt g fh2 s2 = .ok ⟨fh2, t.py_plo, t.py_ferw⟩ := by
  unfold record_store at h ⊢
  rw [hpl, hfw]
  cases hs : store s.py_ferw (PyArray_GetPtr s.py_ferw [ion, is, ik, ib]) wt with
  | none => rw [hs] at h; simp at h
  | some fw =>
    rw [hs] at h
    simp only at h ⊢
    by_cases hd : p.isdouble ≠ 0
    · rw [if_pos hd] at h ⊢
      have hv : (List.range k).map g = (List.range k).map f :=
        List.map_congr_left (fun m hm => hfg m (List.mem_range.mp hm))
      rw [hv]
      cases hm : memcpy s.py_plo (PyArray_GetPtr s.py_plo [ion, is, ik, ib, 0])
          ((List.range k).map f) with
      | none => rw [hm] at h; simp at h
      | some pl =>
        rw [hm] at h
        simp only [Res.ok.injEq] at h
        subst h
        rfl
    · rw [if_neg hd] at h ⊢
      rw [store_many_congr _ g f k 0 s.py_plo (fun j _ hj => hfg j (by omega))]
      cases hm : store_many s.py_plo (PyArray_GetPtr s.py_plo [ion, is, ik, ib, 0]) f 0 k with
      | none => rw [hm] at h; simp at h
      | some pl =>
        rw [hm] at h
        simp only [Res.ok.injEq] at h
        subst h
        rfl

theorem getptr4 {α : Type} (arr : PyArrayObject α) (a b c e i j k l : Nat)
    (h : arr.dims = [a, b, c, e]) :
    PyArray_GetPtr arr [i, j, k, l] = i * (b * c * e) + ((j * c + k) * e + l) := by
  simp only [PyArray_GetPtr, h, strides, List.zipWith, List.prod_cons, List.prod_nil,
    List.sum_cons, List.sum_nil]
  ring

theorem getptr5 {α : Type} (arr : PyArrayObject α) (a b c e M i j k l : Nat)
    (h : arr.dims = [a, b, c, e, M]) :
    PyArray_GetPtr arr [i, j, k, l, 0] = (i * (b * c * e) + ((j * c + k) * e + l)) * M := by
  simp only [PyArray_GetPtr, h, strides, List.zipWith, List.prod_cons, List.prod_nil,
    List.sum_cons, List.sum_nil]
  ring

theorem lin_lt (a b M m : Nat) (hab : a < b) (hm : m < M) : a * M + m < b * M := by
  have h1 : (a + 1) * M ≤ b * M := Nat.mul_le_mul_right M hab
  have h2 : (a + 1) * M = a * M + M := by ring
  omega

theorem rec_step (p : t_params) (d : List Byte) (ion base : Nat) (s0 : Arrays)
    (nlm : Int) (is ik ib : Nat) (s : Arrays)
    (hd5 : s0.py_plo.dims = [p.nion.toNat, p.ns.toNat, p.nk.toNat, p.nb.toNat, p.nlmmax.toNat])
    (hd4 : s0.py_ferw.dims = [p.nion.toNat, p.ns.toNat, p.nk.toNat, p.nb.toNat])
    (hr1 : -(2 ^ 31) ≤ nlm) (hr2 : nlm < 2 ^ 31)
    (hinv : RecInv p d ion base nlm s0 ((is * p.nk.toNat + ik) * p.nb.toNat + ib) s) :
    (read_record p nlm ion is ik ib s).holds
      (RecInv p d ion base nlm s0 ((is * p.nk.toNat + ik) * p.nb.toNat + ib + 1))
      (fun _ => True) := by
  cases h : read_record p nlm ion is ik ib s with
  | error e => trivial
  | undefined => trivial
  | ok t =>
    simp only [Res.holds]
    generalize hr : (is * p.nk.toNat + ik) * p.nb.toNat + ib = r at hinv ⊢
    obtain ⟨k, hk1, hk50, hlen⟩ := read_record_ok_bounds p nlm ion is ik ib s t d _ false
      hinv.fh hinv.pos_le hr1 hr2 h
    subst hk1
    have ek : ((k : Int)).toNat = k := Int.toNat_ofNat k
    obtain ⟨i1, i2, _, i4, i5, i6, i7, i8, i9, i10, i11, i12⟩ := hinv
    rw [ek] at i1 i2 i9 i11 i12
    simp only [ek] at i8
    rw [ek] at hlen
    rw [read_record_full p (k : Int) ion is ik ib s d _ false k i1 rfl hk50 hlen] at h
    obtain ⟨b1, b2, b3, b4, b5, b6⟩ := record_store_ok _ _ _ _ _ _ _ _ _ _ _ h
    have o4 : PyArray_GetPtr s.py_ferw [ion, is, ik, ib] = ion * nrec p + r := by
      rw [getptr4 s.py_ferw _ _ _ _ _ _ _ _ (i6.trans hd4), ← hr]; rfl
    have o5 : PyArray_GetPtr s.py_plo [ion, is, ik, ib, 0] = (ion * nrec p + r) * p.nlmmax.toNat := by
      rw [getptr5 s.py_plo _ _ _ _ _ _ _ _ _ (i4.trans hd5), ← hr]; rfl
    rw [o4] at b2
    rw [o5] at b3 b6
    obtain ⟨c1, c2, c3, c4⟩ := store_some _ _ _ _ b2
    have eR : (r + 1) * rec_size p k = r * rec_size p k + rec_size p k := by ring
    have eM : (ion * nrec p + (r + 1)) * p.nlmmax.toNat
        = (ion * nrec p + r) * p.nlmmax.toNat + p.nlmmax.toNat := by ring
    have eA : ion * nrec p * p.nlmmax.toNat ≤ (ion * nrec p + r) * p.nlmmax.toNat :=
      Nat.mul_le_mul_right _ (Nat.le_add_right _ _)
    refine ⟨?_, ?_, ?_, ?_, ?_, ?_, ?_, ?_, ?_, ?_, ?_, ?_⟩
    · rw [ek, b1, eR, Nat.add_assoc]
    · rw [ek, eR]; omega
    · intro _
      unfold BUF_LEN at hk50 ⊢
      omega
    · rw [b4, i4]
    · rw [b5, i5]
    · rw [c2, i6]
    · rw [c3, i7]
    · intro q
      rw [ek, c4 q, i8 q]
      by_cases hq : q = ion * nrec p + r
      · subst hq
        have : ion * nrec p ≤ ion * nrec p + r ∧ ion * nrec p + r < ion * nrec p + (r + 1) := by
          omega
        rw [if_pos rfl, if_pos this, Nat.add_sub_cancel_left]
      · rw [if_neg hq]
        by_cases hq2 : ion * nrec p ≤ q ∧ q < ion * nrec p + r
        · have : ion * nrec p ≤ q ∧ q < ion * nrec p + (r + 1) := by omega
          rw [if_pos hq2, if_pos this]
        · have : ¬ (ion * nrec p ≤ q ∧ q < ion * nrec p + (r + 1)) := by omega
          rw [if_neg hq2, if_neg this]
    · rw [ek]
      intro r1 m hr1' hm hmM
      rw [b6]
      by_cases hrr : r1 = r
      · subst hrr
        rw [if_pos (by omega)]
        congr 2
        omega
      · have hlt := lin_lt (ion * nrec p + r1) (ion * nrec p + r) _ m (by omega) hmM
        rw [if_neg (by omega)]
        exact i9 r1 m (by omega) hm hmM
    · intro q hq
      rw [b6, if_neg (by omega)]
      exact i10 q hq
    · rw [ek]
      intro hkM r1 m hr1' hkm hmM
      rw [b6]
      by_cases hrr : r1 = r
      · subst hrr
        rw [if_neg (by omega)]
        exact i12 hkM _ (by omega)
      · have hlt := lin_lt (ion * nrec p + r1) (ion * nrec p + r) _ m (by omega) hmM
        rw [if_neg (by omega)]
        exact i11 hkM r1 m (by omega) hkm hmM
    · rw [ek]
      intro hkM q hq
      rw [b6, if_neg (by omega)]
      exact i12 hkM q (by omega)

theorem holds_cast {σ : Type} (r : Res σ) (P : Nat → σ → Prop) (Q : σ → Prop) (a b : Nat)
    (e : a = b) (h : r.holds (P a) Q) : r.holds (P b) Q := by
  subst e; exact h

theorem for_from_nest3_holds {σ : Type} (body : Nat → Nat → Nat → σ → Res σ)
    (P : Nat → σ → Prop) (Q : σ → Prop) (n1 n2 n3 : Nat) (s : σ) (h0 : P 0 s)
    (hstep : ∀ i j k s, i < n1 → j < n2 → k < n3 → P ((i * n2 + j) * n3 + k) s →
      (body i j k s).holds (P ((i * n2 + j) * n3 + k + 1)) Q) :
    (for_from (fun i => for_from (fun j => for_from (body i j) 0 n3) 0 n2) 0 n1 s).holds
      (P (n1 * n2 * n3)) Q := by
  have h := for_from_holds (fun i => for_from (fun j => for_from (body i j) 0 n3) 0 n2)
    (fun i s => P (i * n2 * n3) s) Q n1 0 s (by simpa using h0) (by
      intro i s _ hi hP
      have h2 := for_from_holds (fun j => for_from (body i j) 0 n3)
        (fun j s => P ((i * n2 + j) * n3) s) Q n2 0 s (by simpa using hP) (by
          intro j s _ hj hP
          have h3 := for_from_holds (body i j) (fun k s => P ((i * n2 + j) * n3 + k) s) Q n3 0 s
            (by simpa using hP) (by
              intro k s _ hk hP
              exact hstep i j k s (by omega) (by omega) (by omega) hP)
          exact holds_cast _ P Q _ _ (by ring) h3)
      exact holds_cast _ P Q _ _ (by ring) h2)
  exact holds_cast _ P Q _ _ (by ring) h

/-! ## One ion, all ions -/

theorem rec_inv_zero (p : t_params) (d : List Byte) (ion base : Nat) (nlm : Int) (s1 : Arrays)
    (hfh : s1.fh = ⟨d, base, false⟩) (hpos : base ≤ d.length) :
    RecInv p d ion base nlm s1 0 s1 := by
  refine ⟨by simpa using hfh, by simpa using hpos, fun h => absurd h (by omega), rfl, rfl, rfl,
    rfl, ?_, ?_, fun _ _ => rfl, fun _ _ _ h => absurd h (by omega), fun _ _ _ => rfl⟩
  · intro q
    rw [if_neg (by omega)]
  · intro r1 m h
    omega

theorem ion_after (p : t_params) (d : List Byte) (b0 : Nat) (sI : Arrays) (i : Nat)
    (s t : Arrays) (hinv : IonInv p d b0 sI i s)
    (hrec : RecInv p d i (ion_start p d b0 i + 4) (nlm_at d (ion_start p d b0 i))
      ⟨⟨d, ion_start p d b0 i + 4, false⟩, s.py_plo, s.py_ferw⟩ (nrec p) t) :
    IonInv p d b0 sI (i + 1) t := by
  obtain ⟨i1, i2, i3, i4, i5, i6, i7, i8, i9, i10, i11, i12⟩ := hinv
  obtain ⟨r1, r2, r3, r4, r5, r6, r7, r8, r9, r10, r11, r12⟩ := hrec
  simp only [] at r4 r5 r6 r7 r8 r10 r11 r12
  have eS : ion_start p d b0 (i + 1)
      = ion_start p d b0 i + 4 + nrec p * rec_size p (nlm_at d (ion_start p d b0 i)).toNat := rfl
  have eN : (i + 1) * nrec p = i * nrec p + nrec p := by ring
  have ek : ion_nlm p d b0 i = (nlm_at d (ion_start p d b0 i)).toNat := rfl
  refine ⟨?_, ?_, ?_, ?_, ?_, ?_, ?_, ?_, ?_, ?_, ?_, ?_⟩
  · rw [r1, eS]
  · rw [eS]; exact r2
  · intro j hj hN
    by_cases hji : j = i
    · subst hji; exact r3 hN
    · exact i3 j (by omega) hN
  · rw [r4, i4]
  · rw [r5, i5]
  · rw [r6, i6]
  · rw [r7, i7]
  · intro j r hj hr
    rw [r8]
    by_cases hji : j = i
    · subst hji
      rw [if_pos (by omega), Nat.add_sub_cancel_left]
      rfl
    · have := lin_lt j i (nrec p) r (by omega) hr
      rw [if_neg (by omega)]
      exact i8 j r (by omega) hr
  · intro q hq
    rw [r8, if_neg (by omega)]
    exact i9 q (by omega)
  · intro j r m hj hr hm hmM
    by_cases hji : j = i
    · subst hji
      rw [ek] at hm
      exact r9 r m hr hm hmM
    · have h1 := lin_lt j i (nrec p) r (by omega) hr
      have h2 := lin_lt (j * nrec p + r) (i * nrec p) _ m h1 hmM
      rw [r10 _ h2]
      exact i10 j r m (by omega) hr hm hmM
  · intro hall j r m hj hr hm hmM
    by_cases hji : j = i
    · subst hji
      have hk := hall j (by omega)
      rw [ek] at hk hm
      rw [r11 hk r m hr hm hmM]
      have : j * nrec p * p.nlmmax.toNat ≤ (j * nrec p + r) * p.nlmmax.toNat + m :=
        Nat.le_trans (Nat.mul_le_mul_right _ (Nat.le_add_right _ _)) (Nat.le_add_right _ _)
      exact i12 (fun j' hj' => hall j' (by omega)) _ this
    · have h1 := lin_lt j i (nrec p) r (by omega) hr
      have h2 := lin_lt (j * nrec p + r) (i * nrec p) _ m h1 hmM
      rw [r10 _ h2]
      exact i11 (fun j' hj' => hall j' (by omega)) j r m (by omega) hr hm hmM
  · intro hall q hq
    have hk := hall i (by omega)
    rw [ek] at hk
    rw [eN] at hq
    rw [r12 hk q hq]
    have : i * nrec p * p.nlmmax.toNat ≤ (i * nrec p + nrec p) * p.nlmmax.toNat :=
      Nat.mul_le_mul_right _ (Nat.le_add_right _ _)
    exact i12 (fun j' hj' => hall j' (by omega)) q (by omega)

theorem read_ion_ok_eq (p : t_params) (ion : Nat) (s : Arrays) (d : List Byte) (pos : Nat)
    (eof : Bool) (hfh : s.fh = ⟨d, pos, eof⟩) (hlen : pos + 4 ≤ d.length) :
    read_ion p ion s
      = for_from (fun is => for_from (fun ik => for_from
          (fun ib => read_record p (nlm_at d pos) ion is ik ib) 0 p.nb.toNat) 0 p.nk.toNat)
          0 p.ns.toNat ⟨⟨d, pos + 4, eof⟩, s.py_plo, s.py_ferw⟩ := by
  have r1 := fread_one_ok 4 ⟨d, pos, eof⟩ (by decide) hlen
  simp only [] at r1
  simp only [read_ion, hfh, r1, Nat.lt_irrefl, if_false, nlm_at, lt_self_iff_false]
  rfl

theorem read_ion_short (p : t_params) (ion : Nat) (s : Arrays) (d : List Byte) (pos : Nat)
    (eof : Bool) (hfh : s.fh = ⟨d, pos, eof⟩) (hpos : pos ≤ d.length)
    (hlen : d.length < pos + 4) :
    read_ion p ion s = .error ⟨⟨d, d.length, true⟩, s.py_plo, s.py_ferw⟩ := by
  have r1 := fread_one_short 4 ⟨d, pos, eof⟩ hpos hlen
  simp only [] at r1
  simp [read_ion, hfh, r1]

theorem ion_step (p : t_params) (d : List Byte) (b0 : Nat) (sI : Arrays) (i : Nat) (s : Arrays)
    (hd5 : sI.py_plo.dims = [p.nion.toNat, p.ns.toNat, p.nk.toNat, p.nb.toNat, p.nlmmax.toNat])
    (hd4 : sI.py_ferw.dims = [p.nion.toNat, p.ns.toNat, p.nk.toNat, p.nb.toNat])
    (hinv : IonInv p d b0 sI i s) :
    (read_ion p i s).holds (IonInv p d b0 sI (i + 1)) (fun _ => True) := by
  by_cases hshort : d.length < ion_start p d b0 i + 4
  · rw [read_ion_short p i s d _ false hinv.fh hinv.pos_le hshort]
    trivial
  · rw [read_ion_ok_eq p i s d _ false hinv.fh (by omega)]
    have hr := to_int32_range (le_nat ((d.drop (ion_start p d b0 i)).take 4))
    have hrec := for_from_nest3_holds
      (fun is ik ib => read_record p (nlm_at d (ion_start p d b0 i)) i is ik ib)
      (fun r s1 => RecInv p d i (ion_start p d b0 i + 4) (nlm_at d (ion_start p d b0 i))
        ⟨⟨d, ion_start p d b0 i + 4, false⟩, s.py_plo, s.py_ferw⟩ r s1)
      (fun _ => True) p.ns.toNat p.nk.toNat p.nb.toNat
      ⟨⟨d, ion_start p d b0 i + 4, false⟩, s.py_plo, s.py_ferw⟩
      (rec_inv_zero p d i _ _ _ rfl (by omega))
      (fun is ik ib s1 _ _ _ hP => rec_step p d i _ _ _ is ik ib s1
        (hinv.plo_dims.trans hd5) (hinv.ferw_dims.trans hd4) hr.1 hr.2 hP)
    revert hrec
    cases for_from (fun is => for_from (fun ik => for_from
          (fun ib => read_record p (nlm_at d (ion_start p d b0 i)) i is ik ib) 0 p.nb.toNat)
          0 p.nk.toNat) 0 p.ns.toNat ⟨⟨d, ion_start p d b0 i + 4, false⟩, s.py_plo, s.py_ferw⟩ with
    | ok t => intro hrec; exact ion_after p d b0 sI i s t hinv hrec
    | error e => intro _; trivial
    | undefined => intro _; trivial

theorem ion_inv_zero (p : t_params) (d : List Byte) (b0 : Nat) (sI : Arrays)
    (hfh : sI.fh = ⟨d, b0, false⟩) (hpos : b0 ≤ d.length) : IonInv p d b0 sI 0 sI := by
  refine ⟨hfh, hpos, fun j h => absurd h (by omega), rfl, rfl, rfl, rfl,
    fun j r h => absurd h (by omega), fun _ _ => rfl, fun j r m h => absurd h (by omega),
    fun _ j r m h => absurd h (by omega), fun _ _ _ => rfl⟩

theorem read_arrays_holds (p : t_params) (d : List Byte) (b0 : Nat) (sI : Arrays)
    (hd5 : sI.py_plo.dims = [p.nion.toNat, p.ns.toNat, p.nk.toNat, p.nb.toNat, p.nlmmax.toNat])
    (hd4 : sI.py_ferw.dims = [p.nion.toNat, p.ns.toNat, p.nk.toNat, p.nb.toNat])
    (hfh : sI.fh = ⟨d, b0, false⟩) (hpos : b0 ≤ d.length) :
    (read_arrays p sI).holds (IonInv p d b0 sI p.nion.toNat) (fun _ => True) := by
  have h := for_from_holds (read_ion p) (fun i s => IonInv p d b0 sI i s) (fun _ => True)
    p.nion.toNat 0 sI (ion_inv_zero p d b0 sI hfh hpos)
    (fun j s _ _ hP => ion_step p d b0 sI j s hd5 hd4 hP)
  rw [Nat.zero_add] at h
  exact h

/-! ## The entry point -/

theorem io_read_plocar_params (h : Host) (d : List Byte) (hf : h.file = some d)
    (hlen : 28 ≤ d.length) (hprec : hdr_field d 0 = 8 ∨ hdr_field d 0 = 4) :
    io_read_plocar h = read_body h (hdr_params d) ⟨d, 28, false⟩ := by
  rw [io_read_plocar_header h d hf hlen]
  rcases hprec with h8 | h4
  · simp [hdr_params, h8]
  · simp [hdr_params, h4]

theorem io_read_plocar_badprec (h : Host) (d : List Byte) (hf : h.file = some d)
    (hlen : 28 ≤ d.length) (h8 : hdr_field d 0 ≠ 8) (h4 : hdr_field d 0 ≠ 4) :
    io_read_plocar h
      = .returned none ⟨⟨d, 28, false⟩, none, none, none, some .ValueError_prec, 1⟩ := by
  rw [io_read_plocar_header h d hf hlen]
  simp [h8, h4, label_error]

theorem toNat_mul_nonneg (a b : Int) (ha : 0 ≤ a) (hb : 0 ≤ b) :
    (a * b).toNat = a.toNat * b.toNat := by
  obtain ⟨n, rfl⟩ := Int.eq_ofNat_of_zero_le ha
  obtain ⟨m, rfl⟩ := Int.eq_ofNat_of_zero_le hb
  rw [← Nat.cast_mul, Int.toNat_ofNat, Int.toNat_ofNat, Int.toNat_ofNat]

theorem int_mul_some (a b c : Int) (h : int_mul a b = some c) :
    c = a * b ∧ -(2 ^ 31) ≤ a * b ∧ a * b < 2 ^ 31 := by
  unfold int_mul at h
  split at h
  · rename_i hc
    simp only [Option.some.injEq] at h
    exact ⟨h.symm, hc.1, hc.2⟩
  · simp at h

theorem int_mul_of (a b : Int) (h1 : -(2 ^ 31) ≤ a * b) (h2 : a * b < 2 ^ 31) :
    int_mul a b = some (a * b) := by
  unfold int_mul
  rw [if_pos ⟨h1, h2⟩]

theorem create_plo_array_some (p : t_params) (a : PloArray) (h : create_plo_array p = some a) :
    (0 ≤ p.nion ∧ 0 ≤ p.ns ∧ 0 ≤ p.nk ∧ 0 ≤ p.nb ∧ 0 ≤ p.nlmmax) ∧
      p.nion * p.ns * p.nk * p.nb * p.nlmmax < 2 ^ 31 ∧
      a = ⟨[p.nion.toNat, p.ns.toNat, p.nk.toNat, p.nb.toNat, p.nlmmax.toNat],
        List.replicate (p.nion.toNat * nrec p * p.nlmmax.toNat) (0, 0)⟩ := by
  unfold create_plo_array at h
  simp only [bind, Option.bind] at h
  cases h1 : int_mul p.nion p.ns with
  | none => rw [h1] at h; simp at h
  | some x1 =>
    rw [h1] at h; simp only at h
    cases h2 : int_mul x1 p.nk with
    | none => rw [h2] at h; simp at h
    | some x2 =>
      rw [h2] at h; simp only at h
      cases h3 : int_mul x2 p.nb with
      | none => rw [h3] at h; simp at h
      | some x3 =>
        rw [h3] at h; simp only at h
        cases h4 : int_mul x3 p.nlmmax with
        | none => rw [h4] at h; simp at h
        | some x4 =>
          rw [h4] at h; simp only at h
          split at h
          · simp at h
          · rename_i hc
            split at h
            · simp at h
            simp only [not_or, not_lt] at hc
            obtain ⟨c0, c1, c2, c3, c4, c5⟩ := hc
            obtain ⟨e1, _, _⟩ := int_mul_some _ _ _ h1
            obtain ⟨e2, _, _⟩ := int_mul_some _ _ _ h2
            obtain ⟨e3, _, _⟩ := int_mul_some _ _ _ h3
            obtain ⟨e4, _, e5⟩ := int_mul_some _ _ _ h4
            subst e1 e2 e3
            refine ⟨⟨c1, c2, c3, c4, c5⟩, e5, ?_⟩
            simp only [Option.some.injEq] at h
            rw [← h, e4]
            congr 2
            unfold nrec
            rw [toNat_mul_nonneg _ _ (by positivity) c5, toNat_mul_nonneg _ _ (by positivity) c4,
              toNat_mul_nonneg _ _ (by positivity) c3, toNat_mul_nonneg _ _ c1 c2]
            ring

theorem create_ferw_array_some (p : t_params) (a : FerwArray) (h : create_ferw_array p = some a) :
    (0 ≤ p.nion ∧ 0 ≤ p.ns ∧ 0 ≤ p.nk ∧ 0 ≤ p.nb) ∧
      p.nion * p.ns * p.nk * p.nb < 2 ^ 31 ∧
      a = ⟨[p.nion.toNat, p.ns.toNat, p.nk.toNat, p.nb.toNat],
        List.replicate (p.nion.toNat * nrec p) 0⟩ := by
  unfold create_ferw_array at h
  simp only [bind, Option.bind] at h
  cases h1 : int_mul p.nion p.ns with
  | none => rw [h1] at h; simp at h
  | some x1 =>
    rw [h1] at h; simp only at h
    cases h2 : int_mul x1 p.nk with
    | none => rw [h2] at h; simp at h
    | some x2 =>
      rw [h2] at h; simp only at h
      cases h3 : int_mul x2 p.nb with
      | none => rw [h3] at h; simp at h
      | some x3 =>
        rw [h3] at h; simp only at h
        split at h
        · simp at h
        · rename_i hc
          split at h
          · simp at h
          simp only [not_or, not_lt] at hc
          obtain ⟨c0, c1, c2, c3, c4⟩ := hc
          obtain ⟨e1, _, _⟩ := int_mul_some _ _ _ h1
          obtain ⟨e2, _, _⟩ := int_mul_some _ _ _ h2
          obtain ⟨e3, _, e5⟩ := int_mul_some _ _ _ h3
          subst e1 e2
          refine ⟨⟨c1, c2, c3, c4⟩, e5, ?_⟩
          simp only [Option.some.injEq] at h
          rw [← h, e3]
          congr 2
          unfold nrec
          rw [toNat_mul_nonneg _ _ (by positivity) c4,
            toNat_mul_nonneg _ _ (by positivity) c3, toNat_mul_nonneg _ _ c1 c2]
          ring

theorem read_body_ok (h : Host) (p : t_params) (fh : FILE) (ret : PyDict × PloArray × FerwArray)
    (fr : Frame) (hok : read_body h p fh = .returned (some ret) fr) :
    ∃ plo0 ferw0 s, create_plo_array p = some plo0 ∧ create_ferw_array p = some ferw0 ∧
      read_arrays p ⟨fh, plo0, ferw0⟩ = .ok s ∧
      ret = (create_par_dictionary p, s.py_plo, s.py_ferw) ∧
      fr = ⟨s.fh, some (create_par_dictionary p), some s.py_plo, some s.py_ferw, none, 1⟩ := by
  unfold read_body at hok
  cases h1 : create_plo_array p with
  | none => rw [h1] at hok; simp at hok
  | some plo0 =>
    cases h2 : create_ferw_array p with
    | none => rw [h1, h2] at hok; simp at hok
    | some ferw0 =>
      rw [h1, h2] at hok
      simp only at hok
      cases h3 : read_arrays p ⟨fh, plo0, ferw0⟩ with
      | undefined => rw [h3] at hok; simp at hok
      | error e =>
        rw [h3] at hok
        simp only [label_ioerror, label_error] at hok
        split at hok <;> simp at hok
      | ok s =>
        rw [h3] at hok
        simp only [label_error] at hok
        refine ⟨plo0, ferw0, s, rfl, rfl, h3, ?_⟩
        split at hok
        · simp at hok
        · split at hok
          · simp at hok
          · split at hok
            · simp at hok
            · simp only [Outcome.returned.injEq, Option.some.injEq] at hok
              exact ⟨hok.1.symm, hok.2.symm⟩

theorem read_body_of_ok (h : Host) (p : t_params) (fh : FILE) (plo0 : PloArray)
    (ferw0 : FerwArray) (s : Arrays) (hset : ∀ i, h.setitem_fails i = false)
    (h1 : create_plo_array p = some plo0) (h2 : create_ferw_array p = some ferw0)
    (h3 : read_arrays p ⟨fh, plo0, ferw0⟩ = .ok s) :
    read_body h p fh = .returned (some (create_par_dictionary p, s.py_plo, s.py_ferw))
      ⟨s.fh, some (create_par_dictionary p), some s.py_plo, some s.py_ferw, none, 1⟩ := by
  unfold read_body
  rw [h1, h2]
  simp only [h3, hset]
  rfl

theorem read_body_of_error (h : Host) (p : t_params) (fh : FILE) (plo0 : PloArray)
    (ferw0 : FerwArray) (e : Arrays)
    (h1 : create_plo_array p = some plo0) (h2 : create_ferw_array p = some ferw0)
    (h3 : read_arrays p ⟨fh, plo0, ferw0⟩ = .error e) (heof : e.fh.eof = true) :
    read_body h p fh = .returned none
      ⟨e.fh, some (create_par_dictionary p), some e.py_plo, some e.py_ferw,
        some .IOError_eof, 1⟩ := by
  unfold read_body
  rw [h1, h2]
  simp only [h3, label_ioerror, heof, if_true, label_error]

theorem io_read_plocar_some_len (h : Host) (d : List Byte) (ret : PyDict × PloArray × FerwArray)
    (fr : Frame) (hf : h.file = some d) (hok : io_read_plocar h = .returned (some ret) fr) :
    28 ≤ d.length ∧ (hdr_field d 0 = 8 ∨ hdr_field d 0 = 4) := by
  by_cases hlen : d.length < 28
  · rw [io_read_plocar_short h d hf hlen] at hok
    simp at hok
  · refine ⟨by omega, ?_⟩
    by_contra hc
    simp only [not_or] at hc
    rw [io_read_plocar_badprec h d hf (by omega) hc.1 hc.2] at hok
    simp at hok

/-- What a successful call went through. -/
theorem io_read_plocar_ok (h : Host) (d : List Byte) (ret : PyDict × PloArray × FerwArray)
    (fr : Frame) (hf : h.file = some d) (hok : io_read_plocar h = .returned (some ret) fr) :
    ∃ plo0 ferw0 s, create_plo_array (hdr_params d) = some plo0 ∧
      create_ferw_array (hdr_params d) = some ferw0 ∧
      read_arrays (hdr_params d) ⟨⟨d, 28, false⟩, plo0, ferw0⟩ = .ok s ∧
      ret = (create_par_dictionary (hdr_params d), s.py_plo, s.py_ferw) ∧
      fr = ⟨s.fh, some (create_par_dictionary (hdr_params d)), some s.py_plo, some s.py_ferw,
        none, 1⟩ := by
  obtain ⟨hlen, hprec⟩ := io_read_plocar_some_len h d ret fr hf hok
  rw [io_read_plocar_params h d hf hlen hprec] at hok
  exact read_body_ok h _ _ ret fr hok

/-- The state of the arrays after a successful call. -/
theorem io_read_plocar_inv (h : Host) (d : List Byte) (ret : PyDict × PloArray × FerwArray)
    (fr : Frame) (hf : h.file = some d) (hok : io_read_plocar h = .returned (some ret) fr) :
    ∃ sI s : Arrays,
      sI = ⟨⟨d, 28, false⟩,
        ⟨[(hdr_params d).nion.toNat, (hdr_params d).ns.toNat, (hdr_params d).nk.toNat,
            (hdr_params d).nb.toNat, (hdr_params d).nlmmax.toNat],
          List.replicate ((hdr_params d).nion.toNat * nrec (hdr_params d)
            * (hdr_params d).nlmmax.toNat) (0, 0)⟩,
        ⟨[(hdr_params d).nion.toNat, (hdr_params d).ns.toNat, (hdr_params d).nk.toNat,
            (hdr_params d).nb.toNat],
          List.replicate ((hdr_params d).nion.toNat * nrec (hdr_params d)) 0⟩⟩ ∧
      ret = (create_par_dictionary (hdr_params d), s.py_plo, s.py_ferw) ∧
      fr.fh = s.fh ∧
      IonInv (hdr_params d) d 28 sI (hdr_params d).nion.toNat s := by
  obtain ⟨hlen, _⟩ := io_read_plocar_some_len h d ret fr hf hok
  obtain ⟨plo0, ferw0, s, h1, h2, h3, h4, h5⟩ := io_read_plocar_ok h d ret fr hf hok
  obtain ⟨_, _, e1⟩ := create_plo_array_some _ _ h1
  obtain ⟨_, _, e2⟩ := create_ferw_array_some _ _ h2
  subst e1 e2
  refine ⟨_, s, rfl, h4, by rw [h5], ?_⟩
  generalize hsI : (⟨⟨d, 28, false⟩,
      ⟨[(hdr_params d).nion.toNat, (hdr_params d).ns.toNat, (hdr_params d).nk.toNat,
          (hdr_params d).nb.toNat, (hdr_params d).nlmmax.toNat],
        List.replicate ((hdr_params d).nion.toNat * nrec (hdr_params d)
          * (hdr_params d).nlmmax.toNat) (0, 0)⟩,
      ⟨[(hdr_params d).nion.toNat, (hdr_params d).ns.toNat, (hdr_params d).nk.toNat,
          (hdr_params d).nb.toNat],
        List.replicate ((hdr_params d).nion.toNat * nrec (hdr_params d)) 0⟩⟩ : Arrays) = sI at h3 ⊢
  have := read_arrays_holds (hdr_params d) d 28 sI (by rw [← hsI]) (by rw [← hsI])
    (by rw [← hsI]) hlen
  rw [h3] at this
  exact this

/-! ## Runs that go through -/

theorem for_from_nest3_ok {σ : Type} (body : Nat → Nat → Nat → σ → Res σ)
    (P : Nat → σ → Prop) (n1 n2 n3 : Nat) (s : σ) (h0 : P 0 s)
    (hstep : ∀ i j k s, i < n1 → j < n2 → k < n3 → P ((i * n2 + j) * n3 + k) s →
      ∃ t, body i j k s = .ok t ∧ P ((i * n2 + j) * n3 + k + 1) t) :
    ∃ t, for_from (fun i => for_from (fun j => for_from (body i j) 0 n3) 0 n2) 0 n1 s = .ok t ∧
      P (n1 * n2 * n3) t := by
  have h := for_from_ok (fun i => for_from (fun j => for_from (body i j) 0 n3) 0 n2)
    (fun i s => P (i * n2 * n3) s) n1 0 s (by simpa using h0) (by
      intro i s _ hi hP
      have h2 := for_from_ok (fun j => for_from (body i j) 0 n3)
        (fun j s => P ((i * n2 + j) * n3) s) n2 0 s (by simpa using hP) (by
          intro j s _ hj hP
          have h3 := for_from_ok (body i j) (fun k s => P ((i * n2 + j) * n3 + k) s) n3 0 s
            (by simpa using hP) (by
              intro k s _ hk hP
              exact hstep i j k s (by omega) (by omega) (by omega) hP)
          obtain ⟨t, ht, hPt⟩ := h3
          refine ⟨t, ht, ?_⟩
          have e : (i * n2 + j) * n3 + (0 + n3) = (i * n2 + (j + 1)) * n3 := by ring
          simp only [] at hPt ⊢
          rw [← e]; exact hPt)
      obtain ⟨t, ht, hPt⟩ := h2
      refine ⟨t, ht, ?_⟩
      have e : (i * n2 + (0 + n2)) * n3 = (i + 1) * n2 * n3 := by ring
      simp only [] at hPt ⊢
      rw [← e]; exact hPt)
  obtain ⟨t, ht, hPt⟩ := h
  refine ⟨t, ht, ?_⟩
  simp only [Nat.zero_add] at hPt
  exact hPt

theorem lin3_lt (i j k n1 n2 n3 : Nat) (hi : i < n1) (hj : j < n2) (hk : k < n3) :
    (i * n2 + j) * n3 + k < n1 * n2 * n3 := by
  have h1 := lin_lt i n1 n2 j hi hj
  exact lin_lt (i * n2 + j) (n1 * n2) n3 k h1 hk

theorem rec_succeeds (p : t_params) (d : List Byte) (ion base : Nat) (s0 : Arrays)
    (nlm : Int) (is ik ib : Nat) (s : Arrays)
    (hd5 : s0.py_plo.dims = [p.nion.toNat, p.ns.toNat, p.nk.toNat, p.nb.toNat, p.nlmmax.toNat])
    (hd4 : s0.py_ferw.dims = [p.nion.toNat, p.ns.toNat, p.nk.toNat, p.nb.toNat])
    (hl5 : s0.py_plo.data.length = p.nion.toNat * nrec p * p.nlmmax.toNat)
    (hl4 : s0.py_ferw.data.length = p.nion.toNat * nrec p)
    (hion : ion < p.nion.toNat) (his : is < p.ns.toNat) (hik : ik < p.nk.toNat)
    (hib : ib < p.nb.toNat)
    (hn0 : 0 ≤ nlm) (hn50 : nlm ≤ (BUF_LEN : Int)) (hnM : nlm.toNat ≤ p.nlmmax.toNat)
    (hlen : base + nrec p * rec_size p nlm.toNat ≤ d.length)
    (hinv : RecInv p d ion base nlm s0 ((is * p.nk.toNat + ik) * p.nb.toNat + ib) s) :
    ∃ t, read_record p nlm ion is ik ib s = .ok t ∧
      RecInv p d ion base nlm s0 ((is * p.nk.toNat + ik) * p.nb.toNat + ib + 1) t := by
  have hstep := rec_step p d ion base s0 nlm is ik ib s hd5 hd4
    (by unfold BUF_LEN at hn50; omega) (by unfold BUF_LEN at hn50; omega) hinv
  have hr : (is * p.nk.toNat + ik) * p.nb.toNat + ib < nrec p :=
    lin3_lt is ik ib _ _ _ his hik hib
  generalize (is * p.nk.toNat + ik) * p.nb.toNat + ib = r at hinv hstep hr
  have hk : nlm = ((nlm.toNat : Nat) : Int) := (Int.toNat_of_nonneg hn0).symm
  have hk50 : nlm.toNat ≤ BUF_LEN := by omega
  have h1 : (r + 1) * rec_size p nlm.toNat ≤ nrec p * rec_size p nlm.toNat :=
    Nat.mul_le_mul_right _ hr
  have h2 : (r + 1) * rec_size p nlm.toNat = r * rec_size p nlm.toNat + rec_size p nlm.toNat := by
    ring
  have hfull := read_record_full p nlm ion is ik ib s d _ false nlm.toNat hinv.fh hk hk50
    (by omega)
  have o4 : PyArray_GetPtr s.py_ferw [ion, is, ik, ib]
      = ion * nrec p + ((is * p.nk.toNat + ik) * p.nb.toNat + ib) := by
    rw [getptr4 s.py_ferw _ _ _ _ _ _ _ _ (hinv.ferw_dims.trans hd4)]; rfl
  have o5 : PyArray_GetPtr s.py_plo [ion, is, ik, ib, 0]
      = (ion * nrec p + ((is * p.nk.toNat + ik) * p.nb.toNat + ib)) * p.nlmmax.toNat := by
    rw [getptr5 s.py_plo _ _ _ _ _ _ _ _ _ (hinv.plo_dims.trans hd5)]; rfl
  have hr' : (is * p.nk.toNat + ik) * p.nb.toNat + ib < nrec p :=
    lin3_lt is ik ib _ _ _ his hik hib
  have b4 : ion * nrec p + ((is * p.nk.toNat + ik) * p.nb.toNat + ib) < p.nion.toNat * nrec p :=
    lin_lt ion _ _ _ hion hr'
  have b5 : (ion * nrec p + ((is * p.nk.toNat + ik) * p.nb.toNat + ib)) * p.nlmmax.toNat
      + nlm.toNat ≤ p.nion.toNat * nrec p * p.nlmmax.toNat := by
    have := Nat.mul_le_mul_right p.nlmmax.toNat (Nat.succ_le_of_lt b4)
    have e : (ion * nrec p + ((is * p.nk.toNat + ik) * p.nb.toNat + ib)).succ * p.nlmmax.toNat
      = (ion * nrec p + ((is * p.nk.toNat + ik) * p.nb.toNat + ib)) * p.nlmmax.toNat
        + p.nlmmax.toNat := by rw [Nat.succ_mul]
    omega
  obtain ⟨t, ht⟩ := record_store_of_le p ion is ik ib nlm.toNat
    (weight_at p d (base + r * rec_size p nlm.toNat))
    (value_at p d (base + r * rec_size p nlm.toNat))
    ⟨d, base + r * rec_size p nlm.toNat + rec_size p nlm.toNat, false⟩ s
    (by rw [o4, hinv.ferw_len, hl4]; exact b4) (by rw [o5, hinv.plo_len, hl5]; exact b5)
  rw [← hfull] at ht
  rw [ht] at hstep
  exact ⟨t, ht, hstep⟩


theorem ion_succeeds (p : t_params) (d : List Byte) (b0 : Nat) (sI : Arrays) (i : Nat) (s : Arrays)
    (hd5 : sI.py_plo.dims = [p.nion.toNat, p.ns.toNat, p.nk.toNat, p.nb.toNat, p.nlmmax.toNat])
    (hd4 : sI.py_ferw.dims = [p.nion.toNat, p.ns.toNat, p.nk.toNat, p.nb.toNat])
    (hl5 : sI.py_plo.data.length = p.nion.toNat * nrec p * p.nlmmax.toNat)
    (hl4 : sI.py_ferw.data.length = p.nion.toNat * nrec p)
    (hi : i < p.nion.toNat)
    (hn0 : 0 ≤ nlm_at d (ion_start p d b0 i))
    (hn50 : nlm_at d (ion_start p d b0 i) ≤ (BUF_LEN : Int))
    (hnM : ion_nlm p d b0 i ≤ p.nlmmax.toNat)
    (hlen : ion_start p d b0 (i + 1) ≤ d.length)
    (hinv : IonInv p d b0 sI i s) :
    ∃ t, read_ion p i s = .ok t ∧ IonInv p d b0 sI (i + 1) t := by
  have eS : ion_start p d b0 (i + 1)
      = ion_start p d b0 i + 4 + nrec p * rec_size p (nlm_at d (ion_start p d b0 i)).toNat := rfl
  rw [eS] at hlen
  have hstep := ion_step p d b0 sI i s hd5 hd4 hinv
  rw [read_ion_ok_eq p i s d _ false hinv.fh (by omega)] at hstep ⊢
  obtain ⟨t, ht, _⟩ := for_from_nest3_ok
    (fun is ik ib => read_record p (nlm_at d (ion_start p d b0 i)) i is ik ib)
    (fun r s1 => RecInv p d i (ion_start p d b0 i + 4) (nlm_at d (ion_start p d b0 i))
      ⟨⟨d, ion_start p d b0 i + 4, false⟩, s.py_plo, s.py_ferw⟩ r s1)
    p.ns.toNat p.nk.toNat p.nb.toNat
    ⟨⟨d, ion_start p d b0 i + 4, false⟩, s.py_plo, s.py_ferw⟩
    (rec_inv_zero p d i _ _ _ rfl (by omega))
    (fun is ik ib s1 his hik hib hP => rec_succeeds p d i _ _ _ is ik ib s1
      (hinv.plo_dims.trans hd5) (hinv.ferw_dims.trans hd4) (hinv.plo_len.trans hl5)
      (hinv.ferw_len.trans hl4) hi his hik hib hn0 hn50 hnM hlen hP)
  rw [ht] at hstep ⊢
  exact ⟨t, rfl, hstep⟩

theorem ion_start_mono (p : t_params) (d : List Byte) (b0 : Nat) (i j : Nat) (h : i ≤ j) :
    ion_start p d b0 i ≤ ion_start p d b0 j := by
  induction j with
  | zero =>
    have : i = 0 := by omega
    subst this; exact Nat.le_refl _
  | succ j ih =>
    by_cases hij : i = j + 1
    · subst hij; exact Nat.le_refl _
    · have := ih (by omega)
      have eS : ion_start p d b0 (j + 1)
        = ion_start p d b0 j + 4 + nrec p * rec_size p (nlm_at d (ion_start p d b0 j)).toNat := rfl
      omega

/-- When every ion's `nlm` lies in `[0, 50]` and below `nlmmax` and the file holds all the
blocks, `read_arrays` runs through. -/
theorem read_arrays_succeeds (p : t_params) (d : List Byte) (b0 : Nat) (sI : Arrays)
    (hd5 : sI.py_plo.dims = [p.nion.toNat, p.ns.toNat, p.nk.toNat, p.nb.toNat, p.nlmmax.toNat])
    (hd4 : sI.py_ferw.dims = [p.nion.toNat, p.ns.toNat, p.nk.toNat, p.nb.toNat])
    (hl5 : sI.py_plo.data.length = p.nion.toNat * nrec p * p.nlmmax.toNat)
    (hl4 : sI.py_ferw.data.length = p.nion.toNat * nrec p)
    (hfh : sI.fh = ⟨d, b0, false⟩)
    (hnlm : ∀ i, i < p.nion.toNat → 0 ≤ nlm_at d (ion_start p d b0 i) ∧
      nlm_at d (ion_start p d b0 i) ≤ (BUF_LEN : Int) ∧ ion_nlm p d b0 i ≤ p.nlmmax.toNat)
    (hlen : ion_start p d b0 p.nion.toNat ≤ d.length) :
    ∃ t, read_arrays p sI = .ok t ∧ IonInv p d b0 sI p.nion.toNat t := by
  have hpos : b0 ≤ d.length :=
    Nat.le_trans (ion_start_mono p d b0 0 p.nion.toNat (Nat.zero_le _)) hlen
  have h := for_from_ok (read_ion p) (fun i s => IonInv p d b0 sI i s)
    p.nion.toNat 0 sI (ion_inv_zero p d b0 sI hfh hpos)
    (fun j s _ hj hP => ion_succeeds p d b0 sI j s hd5 hd4 hl5 hl4 (by omega)
      (hnlm j (by omega)).1 (hnlm j (by omega)).2.1 (hnlm j (by omega)).2.2
      (Nat.le_trans (ion_start_mono p d b0 (j + 1) p.nion.toNat (by omega)) hlen) hP)
  rw [Nat.zero_add] at h
  exact h

/-! ## Cutting the file short -/

theorem take_drop_take {α : Type} (l : List α) (c a n : Nat) (h : a + n ≤ c) :
    ((l.take c).drop a).take n = (l.drop a).take n := by
  rw [List.drop_take, List.take_take, Nat.min_eq_left (by omega)]

theorem weight_at_take (p : t_params) (d : List Byte) (c pos : Nat) (h : pos + wsize p ≤ c) :
    weight_at p (d.take c) pos = weight_at p d pos := by
  unfold weight_at
  unfold wsize at h
  by_cases hd : p.isdouble ≠ 0
  · rw [if_pos hd] at h
    rw [if_pos hd, if_pos hd, take_drop_take d c pos 8 h]
  · rw [if_neg hd] at h
    rw [if_neg hd, if_neg hd, take_drop_take d c pos 4 h]

theorem value_at_take (p : t_params) (d : List Byte) (c pos k m : Nat) (hm : m < k)
    (h : pos + rec_size p k ≤ c) :
    value_at p (d.take c) pos m = value_at p d pos m := by
  unfold value_at
  by_cases hd : p.isdouble ≠ 0
  · rw [rec_size_double p hd] at h
    rw [if_pos hd, if_pos hd, take_drop_take d c _ 8 (by omega), take_drop_take d c _ 8 (by omega)]
  · rw [rec_size_float p hd] at h
    rw [if_neg hd, if_neg hd, take_drop_take d c _ 4 (by omega), take_drop_take d c _ 4 (by omega)]

theorem nlm_at_take (d : List Byte) (c pos : Nat) (h : pos + 4 ≤ c) :
    nlm_at (d.take c) pos = nlm_at d pos := by
  unfold nlm_at
  rw [take_drop_take d c pos 4 h]

theorem cut_for_from (d : List Byte) (c : Nat) (body : Nat → Arrays → Res Arrays)
    (h : ∀ j, CutStep d c (body j)) (n i : Nat) : CutStep d c (for_from body i n) := by
  intro s t hI hok
  exact for_from_cut body (fun s => s.fh.data = d ∧ s.fh.eof = false ∧ s.fh.pos ≤ d.length)
    (fun s => s.fh.pos) (cut_state c) (fun e => e.fh.eof = true) c
    (fun j s t hI hb => h j s t hI hb) n i s t hI hok

theorem wsize_le_rec_size (p : t_params) (k : Nat) : wsize p ≤ rec_size p k := by
  unfold rec_size; omega

theorem cut_read_record (p : t_params) (d : List Byte) (c : Nat) (hc : c ≤ d.length)
    (nlm : Int) (hr1 : -(2 ^ 31) ≤ nlm) (hr2 : nlm < 2 ^ 31) (ion is ik ib : Nat) :
    CutStep d c (read_record p nlm ion is ik ib) := by
  intro s t hI hok
  obtain ⟨hdat, heof, hpos⟩ := hI
  have hfh : s.fh = ⟨d, s.fh.pos, false⟩ := by
    rw [← hdat, ← heof]
  obtain ⟨k, hk, hk50, hlen⟩ := read_record_ok_bounds p nlm ion is ik ib s t d _ false hfh hpos
    hr1 hr2 hok
  rw [read_record_full p nlm ion is ik ib s d _ false k hfh hk hk50 hlen] at hok
  obtain ⟨b1, _, _, _, _, _⟩ := record_store_ok _ _ _ _ _ _ _ _ _ _ _ hok
  have hlc : (d.take c).length = c := by rw [List.length_take]; omega
  have hcfh : (cut_state c s).fh = ⟨d.take c, s.fh.pos, false⟩ := by
    simp only [cut_state, hdat, heof]
  refine ⟨by rw [b1]; exact ⟨rfl, rfl, hlen⟩, by rw [b1]; simp, ?_, ?_⟩
  · intro htc
    rw [b1] at htc
    simp only [] at htc
    rw [read_record_full p nlm ion is ik ib (cut_state c s) (d.take c) _ false k hcfh hk hk50
      (by rw [hlc]; exact htc)]
    rw [weight_at_take p d c _ (Nat.le_trans (Nat.add_le_add_left (wsize_le_rec_size p k) _) htc)]
    have := record_store_transfer p ion is ik ib k _ (value_at p d s.fh.pos)
      (value_at p (d.take c) s.fh.pos) _ ⟨d.take c, s.fh.pos + rec_size p k, false⟩ s
      (cut_state c s) t rfl rfl (fun m hm => value_at_take p d c _ k m hm htc) hok
    rw [this]
    simp only [cut_state, b1]
  · intro htc hsc
    rw [b1] at htc
    simp only [] at htc
    refine ⟨_, read_record_short p nlm ion is ik ib (cut_state c s) (d.take c) _ false k hcfh hk
      hk50 (by rw [hlc]; exact hsc) (by rw [hlc]; exact htc), rfl⟩

theorem cut_read_ion (p : t_params) (d : List Byte) (c : Nat) (hc : c ≤ d.length) (ion : Nat) :
    CutStep d c (read_ion p ion) := by
  intro s t hI hok
  obtain ⟨hdat, heof, hpos⟩ := hI
  have hfh : s.fh = ⟨d, s.fh.pos, false⟩ := by
    rw [← hdat, ← heof]
  have hlc : (d.take c).length = c := by rw [List.length_take]; omega
  have hcfh : (cut_state c s).fh = ⟨d.take c, s.fh.pos, false⟩ := by
    simp only [cut_state, hdat, heof]
  by_cases hshort : d.length < s.fh.pos + 4
  · rw [read_ion_short p ion s d _ false hfh hpos hshort] at hok
    simp at hok
  · rw [read_ion_ok_eq p ion s d _ false hfh (by omega)] at hok
    have hr := to_int32_range (le_nat ((d.drop s.fh.pos).take 4))
    have hloops : CutStep d c (for_from (fun is => for_from (fun ik => for_from
        (fun ib => read_record p (nlm_at d s.fh.pos) ion is ik ib) 0 p.nb.toNat) 0 p.nk.toNat)
        0 p.ns.toNat) :=
      cut_for_from d c _ (fun is => cut_for_from d c _ (fun ik => cut_for_from d c _
        (fun ib => cut_read_record p d c hc _ hr.1 hr.2 ion is ik ib) _ _) _ _) _ _
    obtain ⟨a1, a2, a3, a4⟩ := hloops ⟨⟨d, s.fh.pos + 4, false⟩, s.py_plo, s.py_ferw⟩ t
      ⟨rfl, rfl, by simp only []; omega⟩ hok
    simp only [] at a2
    have hcs : cut_state c ⟨⟨d, s.fh.pos + 4, false⟩, s.py_plo, s.py_ferw⟩
        = ⟨⟨d.take c, s.fh.pos + 4, false⟩, (cut_state c s).py_plo, (cut_state c s).py_ferw⟩ := rfl
    refine ⟨a1, by omega, ?_, ?_⟩
    · intro htc
      rw [read_ion_ok_eq p ion (cut_state c s) (d.take c) _ false hcfh (by rw [hlc]; omega),
        nlm_at_take d c _ (by omega), ← hcs]
      exact a3 htc
    · intro htc hsc
      by_cases h4 : s.fh.pos + 4 ≤ c
      · rw [read_ion_ok_eq p ion (cut_state c s) (d.take c) _ false hcfh (by rw [hlc]; omega),
          nlm_at_take d c _ (by omega), ← hcs]
        exact a4 htc h4
      · exact ⟨_, read_ion_short p ion (cut_state c s) (d.take c) _ false hcfh
          (by rw [hlc]; exact hsc) (by rw [hlc]; omega), rfl⟩

theorem cut_read_arrays (p : t_params) (d : List Byte) (c : Nat) (hc : c ≤ d.length) :
    CutStep d c (read_arrays p) := by
  unfold read_arrays for_loop
  exact cut_for_from d c _ (fun ion => cut_read_ion p d c hc ion) _ _

theorem hdr_field_take (d : List Byte) (c k : Nat) (hc : 28 ≤ c) (hk : k < 7) :
    hdr_field (d.take c) k = hdr_field d k := by
  unfold hdr_field
  rw [take_drop_take d c (4 * k) 4 (by omega)]

theorem hdr_params_take (d : List Byte) (c : Nat) (hc : 28 ≤ c) :
    hdr_params (d.take c) = hdr_params d := by
  unfold hdr_params
  rw [hdr_field_take d c 0 hc (by omega), hdr_field_take d c 1 hc (by omega),
    hdr_field_take d c 2 hc (by omega), hdr_field_take d c 3 hc (by omega),
    hdr_field_take d c 4 hc (by omega), hdr_field_take d c 5 hc (by omega),
    hdr_field_take d c 6 hc (by omega)]

/-- A successful run, cut short: the run on the first `n` bytes ends at `ioerror` with the
end-of-file indicator set. -/
theorem io_read_plocar_cut (h h1 : Host) (d : List Byte) (ret : PyDict × PloArray × FerwArray)
    (fr : Frame) (n : Nat) (hf : h.file = some d)
    (hok : io_read_plocar h = .returned (some ret) fr)
    (hn1 : 28 ≤ n) (hn2 : n < fr.fh.pos) (hf1 : h1.file = some (d.take n)) :
    ∃ e : Arrays, io_read_plocar h1 = .returned none
      ⟨e.fh, some (create_par_dictionary (hdr_params d)), some e.py_plo, some e.py_ferw,
        some .IOError_eof, 1⟩ ∧ e.fh.eof = true := by
  obtain ⟨hlen, hprec⟩ := io_read_plocar_some_len h d ret fr hf hok
  obtain ⟨plo0, ferw0, s, c1, c2, c3, c4, c5⟩ := io_read_plocar_ok h d ret fr hf hok
  have hpos : fr.fh.pos = s.fh.pos := by rw [c5]
  rw [hpos] at hn2
  by_cases hnl : n ≤ d.length
  · obtain ⟨a1, _, _, a4⟩ := cut_read_arrays (hdr_params d) d n hnl
      ⟨⟨d, 28, false⟩, plo0, ferw0⟩ s ⟨rfl, rfl, hlen⟩ c3
    obtain ⟨e, he, heof⟩ := a4 hn2 hn1
    have hlc : (d.take n).length = n := by rw [List.length_take]; omega
    refine ⟨e, ?_, heof⟩
    rw [io_read_plocar_params h1 (d.take n) hf1 (by rw [hlc]; exact hn1)
      (by rw [hdr_field_take d n 0 hn1 (by omega)]; exact hprec), hdr_params_take d n hn1]
    exact read_body_of_error h1 _ _ plo0 ferw0 e c1 c2 he heof
  · obtain ⟨a1, _, _, _⟩ := cut_read_arrays (hdr_params d) d d.length (Nat.le_refl _)
      ⟨⟨d, 28, false⟩, plo0, ferw0⟩ s ⟨rfl, rfl, hlen⟩ c3
    omega

/-! ## Widening a `float` -/

theorem lead_shift_spec : ∀ (f m : Nat), 0 < m → m < 2 ^ 24 → 2 ^ 23 ≤ m * 2 ^ f →
    lead_shift f m ≤ f ∧ 2 ^ 23 ≤ m * 2 ^ lead_shift f m ∧ m * 2 ^ lead_shift f m < 2 ^ 24 ∧
      (m < 2 ^ 23 → 1 ≤ lead_shift f m) := by
  intro f
  induction f with
  | zero =>
    intro m _ h2 h3
    simp only [lead_shift, pow_zero, Nat.mul_one] at h3 ⊢
    exact ⟨Nat.le_refl _, h3, h2, fun h => by omega⟩
  | succ f ih =>
    intro m h1 h2 h3
    unfold lead_shift
    by_cases hm : 2 ^ 23 ≤ m
    · rw [if_pos hm]
      simp only [pow_zero, Nat.mul_one]
      exact ⟨Nat.zero_le _, hm, h2, fun h => by omega⟩
    · rw [if_neg hm]
      have e : m * 2 ^ (f + 1) = 2 * m * 2 ^ f := by ring
      obtain ⟨a1, a2, a3, _⟩ := ih (2 * m) (by omega) (by omega) (by rw [← e]; exact h3)
      have e2 : m * 2 ^ (1 + lead_shift f (2 * m)) = 2 * m * 2 ^ lead_shift f (2 * m) := by ring
      exact ⟨by omega, by rw [e2]; exact a2, by rw [e2]; exact a3, fun _ => by omega⟩

theorem double_val_mk (s E M : Nat) (hs : s < 2) (hE : E < 2048) (hM : M < 2 ^ 52) :
    double_val (s * 2 ^ 63 + E * 2 ^ 52 + M)
      = if E = 2047 then (if M = 0 then .inf (decide (s = 1)) else .nan)
        else if E = 0 then .fin (decide (s = 1)) ((M : ℚ) * (2 : ℚ) ^ (-1074 : ℤ))
        else .fin (decide (s = 1)) ((2 ^ 52 + (M : ℚ)) * (2 : ℚ) ^ ((E : ℤ) - 1075)) := by
  have h1 : (s * 2 ^ 63 + E * 2 ^ 52 + M) / 2 ^ 63 % 2 = s := by
    norm_num at hM ⊢; omega
  have h2 : (s * 2 ^ 63 + E * 2 ^ 52 + M) / 2 ^ 52 % 2 ^ 11 = E := by
    norm_num at hM ⊢; omega
  have h3 : (s * 2 ^ 63 + E * 2 ^ 52 + M) % 2 ^ 52 = M := by
    norm_num at hM ⊢; omega
  simp only [double_val, h1, h2, h3]

/-- The conversion of a `float` to `double` keeps the value. -/
theorem float_to_double_val (b : Nat) : double_val (float_to_double b) = float_val b := by
  have hs : b / 2 ^ 31 % 2 < 2 := Nat.mod_lt _ (by norm_num)
  have he : b / 2 ^ 23 % 2 ^ 8 < 256 := Nat.mod_lt _ (by norm_num)
  have hm : b % 2 ^ 23 < 2 ^ 23 := Nat.mod_lt _ (by norm_num)
  unfold float_to_double float_val
  simp only []
  generalize b / 2 ^ 31 % 2 = s at hs
  generalize b / 2 ^ 23 % 2 ^ 8 = e at he
  generalize b % 2 ^ 23 = m at hm
  by_cases he255 : e = 255
  · rw [if_pos he255, if_pos he255]
    by_cases hm0 : m = 0
    · rw [if_pos hm0, if_pos hm0]
      have := double_val_mk s 2047 0 hs (by norm_num) (by norm_num)
      rw [Nat.add_zero] at this
      rw [this]; simp
    · rw [if_neg hm0, if_neg hm0]
      have hM : 2 ^ 51 + m % 2 ^ 22 * 2 ^ 29 < 2 ^ 52 := by
        have : m % 2 ^ 22 < 2 ^ 22 := Nat.mod_lt _ (by norm_num)
        norm_num at this ⊢; omega
      have := double_val_mk s 2047 (2 ^ 51 + m % 2 ^ 22 * 2 ^ 29) hs (by norm_num) hM
      rw [← Nat.add_assoc] at this
      rw [this]
      have hne : 2 ^ 51 + m % 2 ^ 22 * 2 ^ 29 ≠ 0 := by positivity
      simp [hne]
  · rw [if_neg he255, if_neg he255]
    by_cases he0 : e = 0
    · rw [if_pos he0, if_pos he0]
      by_cases hm0 : m = 0
      · rw [if_pos hm0]
        have := double_val_mk s 0 0 hs (by norm_num) (by norm_num)
        rw [Nat.add_zero, Nat.zero_mul, Nat.add_zero] at this
        rw [this, hm0]; simp
      · rw [if_neg hm0]
        obtain ⟨a1, a2, a3, a4⟩ := lead_shift_spec 23 m (by omega) (by omega)
          (Nat.le_mul_of_pos_left _ (by omega))
        have a5 := a4 hm
        generalize lead_shift 23 m = t at a1 a2 a3 a5
        have hM : (m * 2 ^ t - 2 ^ 23) * 2 ^ 29 < 2 ^ 52 := by
          have : m * 2 ^ t - 2 ^ 23 < 2 ^ 23 := by omega
          have := Nat.mul_lt_mul_of_pos_right this (show 0 < 2 ^ 29 by positivity)
          norm_num at this ⊢; omega
        rw [double_val_mk s (897 - t) _ hs (by omega) hM]
        rw [if_neg (by omega), if_neg (by omega)]
        congr 1
        have c1 : (((m * 2 ^ t - 2 ^ 23) * 2 ^ 29 : Nat) : ℚ)
            = ((m : ℚ) * 2 ^ t - 2 ^ 23) * 2 ^ 29 := by
          rw [Nat.cast_mul, Nat.cast_sub a2]; push_cast; ring
        have c2 : ((897 - t : Nat) : ℤ) = 897 - (t : ℤ) := by omega
        rw [c1, c2]
        have c3 : (2 : ℚ) ^ (897 - (t : ℤ) - 1075) = 2 ^ (-149 : ℤ) * 2 ^ (-(29 : ℤ)) * 2 ^ (-(t : ℤ)) := by
          rw [← zpow_add₀ (by norm_num : (2 : ℚ) ≠ 0), ← zpow_add₀ (by norm_num : (2 : ℚ) ≠ 0)]
          congr 1; omega
        rw [c3]
        have c4 : (2 : ℚ) ^ (-(t : ℤ)) * 2 ^ t = 1 := by
          rw [zpow_neg, zpow_natCast]; field_simp
        have c5 : (2 : ℚ) ^ (-(29 : ℤ)) * 2 ^ 29 = 1 := by norm_num
        calc (2 ^ 52 + ((m : ℚ) * 2 ^ t - 2 ^ 23) * 2 ^ 29)
              * (2 ^ (-149 : ℤ) * 2 ^ (-(29 : ℤ)) * 2 ^ (-(t : ℤ)))
            = (m : ℚ) * 2 ^ (-149 : ℤ) * ((2 : ℚ) ^ (-(29 : ℤ)) * 2 ^ 29)
                * ((2 : ℚ) ^ (-(t : ℤ)) * 2 ^ t) := by ring
          _ = (m : ℚ) * 2 ^ (-149 : ℤ) := by rw [c4, c5]; ring
    · rw [if_neg he0, if_neg he0]
      have hM : m * 2 ^ 29 < 2 ^ 52 := by
        have := Nat.mul_lt_mul_of_pos_right hm (show 0 < 2 ^ 29 by positivity)
        norm_num at this ⊢; omega
      rw [double_val_mk s (e + 896) _ hs (by omega) hM]
      rw [if_neg (by omega), if_neg (by omega)]
      congr 1
      have c3 : (2 : ℚ) ^ (((e + 896 : Nat) : ℤ) - 1075)
          = 2 ^ ((e : ℤ) - 150) * 2 ^ (-(29 : ℤ)) := by
        have e1 : ((e + 896 : Nat) : ℤ) - 1075 = ((e : ℤ) - 150) + (-(29 : ℤ)) := by
          push_cast; ring
        rw [e1, zpow_add₀ (by norm_num : (2 : ℚ) ≠ 0)]
      rw [c3]
      have c5 : (2 : ℚ) ^ (-(29 : ℤ)) * 2 ^ 29 = 1 := by norm_num
      push_cast
      calc (2 ^ 52 + (m : ℚ) * 2 ^ 29) * (2 ^ ((e : ℤ) - 150) * 2 ^ (-(29 : ℤ)))
            = (2 ^ 23 + (m : ℚ)) * 2 ^ ((e : ℤ) - 150) * ((2 : ℚ) ^ (-(29 : ℤ)) * 2 ^ 29) := by ring
        _ = (2 ^ 23 + (m : ℚ)) * 2 ^ ((e : ℤ) - 150) := by rw [c5]; ring

/-! ## Offsets and byte strings -/

theorem getptr5m {α : Type} (arr : PyArrayObject α) (a b c e M i j k l m : Nat)
    (h : arr.dims = [a, b, c, e, M]) :
    PyArray_GetPtr arr [i, j, k, l, m] = (i * (b * c * e) + ((j * c + k) * e + l)) * M + m := by
  simp only [PyArray_GetPtr, h, strides, List.zipWith, List.prod_cons, List.prod_nil,
    List.sum_cons, List.sum_nil]
  ring

theorem ion_start_sum (p : t_params) (d : List Byte) (b0 i : Nat) :
    ion_start p d b0 i
      = b0 + ∑ j in Finset.range i, (4 + nrec p * rec_size p (ion_nlm p d b0 j)) := by
  induction i with
  | zero => simp [ion_start]
  | succ i ih =>
    rw [Finset.sum_range_succ, ← Nat.add_assoc, ← ih]
    simp only [ion_start, ion_nlm]
    omega

theorem rec_pos_le (p : t_params) (d : List Byte) (b0 i r n : Nat) (hi : i < n) (hr : r < nrec p)
    (hlen : ion_start p d b0 n ≤ d.length) :
    rec_pos p d b0 i r + rec_size p (ion_nlm p d b0 i) ≤ d.length := by
  have h1 := ion_start_mono p d b0 (i + 1) n (by omega)
  have eS : ion_start p d b0 (i + 1)
      = ion_start p d b0 i + 4 + nrec p * rec_size p (ion_nlm p d b0 i) := rfl
  have h2 : (r + 1) * rec_size p (ion_nlm p d b0 i) ≤ nrec p * rec_size p (ion_nlm p d b0 i) :=
    Nat.mul_le_mul_right _ hr
  have h3 : (r + 1) * rec_size p (ion_nlm p d b0 i)
      = r * rec_size p (ion_nlm p d b0 i) + rec_size p (ion_nlm p d b0 i) := by ring
  unfold rec_pos
  omega

theorem le_nat_lt (bs : List Byte) : le_nat bs < 256 ^ bs.length := by
  induction bs with
  | nil => simp [le_nat]
  | cons b bs ih =>
    simp only [le_nat, List.length_cons, pow_succ]
    have := b.isLt
    omega

theorem le_bytes_le_nat (bs : List Byte) : le_bytes bs.length (le_nat bs) = bs := by
  induction bs with
  | nil => rfl
  | cons b bs ih =>
    simp only [le_nat, List.length_cons, le_bytes]
    have hb := b.isLt
    have h1 : (b.val + 256 * le_nat bs) % 256 = b.val := by omega
    have h2 : (b.val + 256 * le_nat bs) / 256 = le_nat bs := by omega
    rw [h2, ih]
    congr 1
    exact Fin.ext h1

theorem le_bytes_length (n x : Nat) : (le_bytes n x).length = n := by
  induction n generalizing x with
  | zero => rfl
  | succ n ih => simp [le_bytes, ih]

theorem le_nat_le_bytes (n x : Nat) (h : x < 256 ^ n) : le_nat (le_bytes n x) = x := by
  induction n generalizing x with
  | zero => simp at h; subst h; rfl
  | succ n ih =>
    simp only [le_bytes, le_nat]
    rw [ih (x / 256) (by rw [pow_succ] at h; exact Nat.div_lt_of_lt_mul (by omega))]
    omega

/-! ## What a successful call stored -/

/-- After a successful call, every record of the file sits in the arrays. -/
theorem io_read_plocar_values (h : Host) (d : List Byte) (pd : PyDict) (plo : PloArray)
    (ferw : FerwArray) (fr : Frame) (hf : h.file = some d)
    (hok : io_read_plocar h = .returned (some (pd, plo, ferw)) fr)
    (ion is ik ib : Nat) (hion : ion < (hdr_params d).nion.toNat)
    (his : is < (hdr_params d).ns.toNat) (hik : ik < (hdr_params d).nk.toNat)
    (hib : ib < (hdr_params d).nb.toNat) :
    nlm_at d (ion_start (hdr_params d) d 28 ion) = (ion_nlm (hdr_params d) d 28 ion : Int) ∧
    ion_nlm (hdr_params d) d 28 ion ≤ BUF_LEN ∧
    rec_pos (hdr_params d) d 28 ion (((is * (hdr_params d).nk.toNat + ik)
        * (hdr_params d).nb.toNat + ib))
      + rec_size (hdr_params d) (ion_nlm (hdr_params d) d 28 ion) ≤ d.length ∧
    ferw.data[PyArray_GetPtr ferw [ion, is, ik, ib]]?
      = some (weight_at (hdr_params d) d (rec_pos (hdr_params d) d 28 ion
          ((is * (hdr_params d).nk.toNat + ik) * (hdr_params d).nb.toNat + ib))) ∧
    ∀ m, m < ion_nlm (hdr_params d) d 28 ion → m < (hdr_params d).nlmmax.toNat →
      plo.data[PyArray_GetPtr plo [ion, is, ik, ib, m]]?
        = some (value_at (hdr_params d) d (rec_pos (hdr_params d) d 28 ion
            ((is * (hdr_params d).nk.toNat + ik) * (hdr_params d).nb.toNat + ib)) m) := by
  obtain ⟨sI, s, hsI, hret, _, hinv⟩ := io_read_plocar_inv h d _ fr hf hok
  simp only [Prod.mk.injEq] at hret
  obtain ⟨_, e1, e2⟩ := hret
  subst e1 e2
  have hr : (is * (hdr_params d).nk.toNat + ik) * (hdr_params d).nb.toNat + ib
      < nrec (hdr_params d) := lin3_lt is ik ib _ _ _ his hik hib
  have hN : 0 < nrec (hdr_params d) := by omega
  have hd5 : s.py_plo.dims = [(hdr_params d).nion.toNat, (hdr_params d).ns.toNat,
      (hdr_params d).nk.toNat, (hdr_params d).nb.toNat, (hdr_params d).nlmmax.toNat] := by
    rw [hinv.plo_dims, hsI]
  have hd4 : s.py_ferw.dims = [(hdr_params d).nion.toNat, (hdr_params d).ns.toNat,
      (hdr_params d).nk.toNat, (hdr_params d).nb.toNat] := by
    rw [hinv.ferw_dims, hsI]
  obtain ⟨n1, n2⟩ := hinv.nlm_ok ion hion hN
  refine ⟨?_, ?_, ?_, ?_, ?_⟩
  · unfold ion_nlm
    rw [Int.toNat_of_nonneg n1]
  · unfold ion_nlm
    omega
  · exact rec_pos_le _ d 28 ion _ _ hion hr hinv.pos_le
  · rw [getptr4 s.py_ferw _ _ _ _ _ _ _ _ hd4]
    exact hinv.ferw_new ion _ hion hr
  · intro m hm hmM
    rw [getptr5m s.py_plo _ _ _ _ _ _ _ _ _ _ hd5]
    exact hinv.plo_new ion _ m hion hr hm hmM

theorem take_16_split (l : List Byte) (o : Nat) :
    (l.drop o).take 16 = (l.drop o).take 8 ++ (l.drop (o + 8)).take 8 := by
  rw [show (16 : Nat) = 8 + 8 from rfl, List.take_add, List.drop_drop]

theorem le_bytes_take (n : Nat) (l : List Byte) (o : Nat) (h : o + n ≤ l.length) :
    le_bytes n (le_nat ((l.drop o).take n)) = (l.drop o).take n := by
  have hl : ((l.drop o).take n).length = n := by
    rw [List.length_take, List.length_drop]; omega
  have := le_bytes_le_nat ((l.drop o).take n)
  rw [hl] at this
  exact this

/-! ## Sample runs -/

set_option maxRecDepth 100000 in
theorem scenario_run : io_read_plocar (host_of (encode_plocar scenario))
    = .returned (some scenario_out) (frame_ok (encode_plocar scenario) 72 scenario_out) := by
  decide

set_option maxRecDepth 100000 in
theorem scenario4_run : io_read_plocar (host_of (encode_plocar scenario4))
    = .returned (some scenario_out) (frame_ok (encode_plocar scenario4) 52 scenario_out) := by
  decide

/-! ## The header, the dictionary, truncation -/

theorem take4_eq (d : List Byte) (o : Nat) (h : o + 4 ≤ d.length) :
    ∃ b0 b1 b2 b3 : Byte, (d.drop o).take 4 = [b0, b1, b2, b3] := by
  have hl : ((d.drop o).take 4).length = 4 := by
    rw [List.length_take, List.length_drop]; omega
  match hm : (d.drop o).take 4, hl with
  | [b0, b1, b2, b3], _ => exact ⟨b0, b1, b2, b3, rfl⟩

/-- Claim C9. Header parsing. On a file of at least 28 bytes, `io_read_plocar` takes the
seven fields from the first 28 bytes, field `k` being the little-endian two's-complement
`int` of the four bytes at offset `4*k`, and goes on with them in the order `precision`
(switched on), `nion`, `ns`, `nk`, `nb`, `nlmmax`, `nc_flag`: with `isdouble = 1` when the
precision is 8, with `isdouble = 0` when it is 4, and to the `ValueError` otherwise; in
each case the stream stands at offset 28 with no end-of-file. -/
theorem header_parse (h : Host) (d : List Byte) (hf : h.file = some d)
    (hlen : 28 ≤ d.length) :
    (∀ k, k < 7 → ∃ b0 b1 b2 b3 : Byte, (d.drop (4 * k)).take 4 = [b0, b1, b2, b3] ∧
      hdr_field d k
        = to_int32 (b0.val + 256 * b1.val + 65536 * b2.val + 16777216 * b3.val)) ∧
    io_read_plocar h
      = if hdr_field d 0 = 8 then
          read_body h ⟨hdr_field d 1, hdr_field d 2, hdr_field d 3, hdr_field d 4,
            hdr_field d 5, hdr_field d 6, 1⟩ ⟨d, 28, false⟩
        else if hdr_field d 0 = 4 then
          read_body h ⟨hdr_field d 1, hdr_field d 2, hdr_field d 3, hdr_field d 4,
            hdr_field d 5, hdr_field d 6, 0⟩ ⟨d, 28, false⟩
        else label_error ⟨⟨d, 28, false⟩, none, none, none, some .ValueError_prec, 0⟩ := by
  refine ⟨?_, io_read_plocar_header h d hf hlen⟩
  intro k hk
  obtain ⟨b0, b1, b2, b3, hb⟩ := take4_eq d (4 * k) (by omega)
  refine ⟨b0, b1, b2, b3, hb, ?_⟩
  unfold hdr_field
  rw [hb]
  simp only [le_nat]
  congr 1
  omega

set_option maxRecDepth 100000 in
theorem header_parse_witness :
    (host_of (encode_plocar scenario)).file = some (encode_plocar scenario) ∧
    28 ≤ (encode_plocar scenario).length ∧
    io_read_plocar (host_of (encode_plocar scenario))
      = read_body (host_of (encode_plocar scenario)) ⟨1, 1, 1, 1, 3, 0, 1⟩
          ⟨encode_plocar scenario, 28, false⟩ := by
  refine ⟨rfl, by decide, ?_⟩
  have h := (header_parse (host_of (encode_plocar scenario)) (encode_plocar scenario) rfl
    (by decide)).2
  have e0 : hdr_field (encode_plocar scenario) 0 = 8 := by decide
  have e1 : hdr_field (encode_plocar scenario) 1 = 1 := by decide
  have e2 : hdr_field (encode_plocar scenario) 2 = 1 := by decide
  have e3 : hdr_field (encode_plocar scenario) 3 = 1 := by decide
  have e4 : hdr_field (encode_plocar scenario) 4 = 1 := by decide
  have e5 : hdr_field (encode_plocar scenario) 5 = 3 := by decide
  have e6 : hdr_field (encode_plocar scenario) 6 = 0 := by decide
  rw [e0, e1, e2, e3, e4, e5, e6] at h
  simpa using h

/-- Claim C4. An unsupported precision. On a file of at least 28 bytes whose precision code
is neither 4 nor 8, `io_read_plocar` returns `NULL` with the `ValueError` for the
precision raised; the dictionary and the two arrays were never created, the stream still
stands at offset 28, right after the header, and the file was closed once. -/
theorem unsupported_precision (h : Host) (d : List Byte) (hf : h.file = some d)
    (hlen : 28 ≤ d.length) (h8 : hdr_field d 0 ≠ 8) (h4 : hdr_field d 0 ≠ 4) :
    io_read_plocar h
      = .returned none ⟨⟨d, 28, false⟩, none, none, none, some .ValueError_prec, 1⟩ :=
  io_read_plocar_badprec h d hf hlen h8 h4

set_option maxRecDepth 100000 in
theorem unsupported_precision_witness :
    hdr_field (encode_plocar scenario_prec2) 0 = 2 ∧
    28 ≤ (encode_plocar scenario_prec2).length ∧
    io_read_plocar (host_of (encode_plocar scenario_prec2))
      = .returned none ⟨⟨encode_plocar scenario_prec2, 28, false⟩, none, none, none,
          some .ValueError_prec, 1⟩ :=
  ⟨by decide, by decide,
    unsupported_precision (host_of (encode_plocar scenario_prec2)) _ rfl (by decide) (by decide)
      (by decide)⟩

/-- Claim C10. A short header. On a file of fewer than 28 bytes, whatever the bytes are,
`io_read_plocar` returns `NULL` with the end-of-file `IOError` raised; the stream is at
the end of the file with the end-of-file indicator set, the dictionary and the two arrays
were never created, and the file was closed once. -/
theorem short_header_eof (h : Host) (d : List Byte) (hf : h.file = some d)
    (hlen : d.length < 28) :
    io_read_plocar h
      = .returned none ⟨⟨d, d.length, true⟩, none, none, none, some .IOError_eof, 1⟩ :=
  io_read_plocar_short h d hf hlen

set_option maxRecDepth 100000 in
theorem short_header_eof_witness :
    hdr_field ((encode_plocar scenario_prec2).take 27) 0 = 2 ∧
    ((encode_plocar scenario_prec2).take 27).length < 28 ∧
    io_read_plocar (host_of ((encode_plocar scenario_prec2).take 27))
      = .returned none ⟨⟨(encode_plocar scenario_prec2).take 27, 27, true⟩, none, none, none,
          some .IOError_eof, 1⟩ :=
  ⟨by decide, by decide,
    short_header_eof (host_of ((encode_plocar scenario_prec2).take 27)) _ rfl (by decide)⟩

/-- Claim C8. The parameter dictionary. `create_par_dictionary` is total and returns the
dictionary with exactly the five keys `nion`, `ns`, `nk`, `nb`, `nc_flag`, each bound to
the field of that name; `nlmmax`, `isdouble` and the precision have no entry. -/
theorem par_dictionary_keys (p : t_params) :
    create_par_dictionary p
      = [("nion", p.nion), ("ns", p.ns), ("nk", p.nk), ("nb", p.nb), ("nc_flag", p.nc_flag)] ∧
    (create_par_dictionary p).map Prod.fst = ["nion", "ns", "nk", "nb", "nc_flag"] ∧
    (create_par_dictionary p).lookup "nion" = some p.nion ∧
    (create_par_dictionary p).lookup "ns" = some p.ns ∧
    (create_par_dictionary p).lookup "nk" = some p.nk ∧
    (create_par_dictionary p).lookup "nb" = some p.nb ∧
    (create_par_dictionary p).lookup "nc_flag" = some p.nc_flag ∧
    (create_par_dictionary p).lookup "nlmmax" = none ∧
    (create_par_dictionary p).lookup "isdouble" = none ∧
    (create_par_dictionary p).lookup "prec" = none ∧
    (create_par_dictionary p).lookup "precision" = none := by
  rw [create_par_dictionary_eq]
  refine ⟨rfl, rfl, ?_, ?_, ?_, ?_, ?_, ?_, ?_, ?_, ?_⟩ <;> simp [List.lookup]

/-- Claim C5. Truncation. When `io_read_plocar` returns the tuple on the file `d`, having
consumed `L` bytes, and `28 ≤ n < L`, the call on the first `n` bytes of `d` returns
`NULL` with the end-of-file `IOError` raised, the end-of-file indicator set, and the file
closed once. -/
theorem truncated_decode_eof (h h1 : Host) (d : List Byte) (pd : PyDict) (plo : PloArray)
    (ferw : FerwArray) (fr : Frame) (L n : Nat) (hf : h.file = some d)
    (hok : io_read_plocar h = .returned (some (pd, plo, ferw)) fr) (hL : fr.fh.pos = L)
    (hn1 : 28 ≤ n) (hn2 : n < L) (hf1 : h1.file = some (d.take n)) :
    ∃ fr1, io_read_plocar h1 = .returned none fr1 ∧ fr1.exc = some .IOError_eof ∧
      fr1.fh.eof = true ∧ fr1.nclose = 1 := by
  obtain ⟨e, he, heof⟩ := io_read_plocar_cut h h1 d _ fr n hf hok hn1 (by omega) hf1
  exact ⟨_, he, rfl, heof, rfl⟩

theorem truncated_decode_eof_witness :
    io_read_plocar (host_of (encode_plocar scenario))
      = .returned (some scenario_out) (frame_ok (encode_plocar scenario) 72 scenario_out) ∧
    ∃ fr1, io_read_plocar (host_of ((encode_plocar scenario).take 50)) = .returned none fr1 ∧
      fr1.exc = some .IOError_eof ∧ fr1.fh.eof = true ∧ fr1.nclose = 1 :=
  ⟨scenario_run,
    truncated_decode_eof (host_of (encode_plocar scenario))
      (host_of ((encode_plocar scenario).take 50)) (encode_plocar scenario) _ _ _ _ 72 50 rfl
      scenario_run rfl (by decide) (by decide) rfl⟩

/-! ## Decoded values -/

/-- Claim C2, amended. Double-precision decode is lossless and position-exact. For a file
whose header has precision 8 and on which `io_read_plocar` returns the tuple, and for every
record index `(ion, is, ik, ib)` inside the header's dimensions, with
`r = (is*nk + ik)*nb + ib`: the block of the ion starts at
`28 + Σ_{j < ion} (4 + ns*nk*nb*(8 + 16*nlm j))`; the `int32` at that offset is the ion's
`nlm`, one value for all its records; the record lies inside the file; the eight bytes of
`Ferw[ion,is,ik,ib]` are the eight bytes of the file at `start + 4 + r*(8 + 16*nlm)`; and
for every `m < nlm` with `m < nlmmax`, the sixteen bytes of `Plo[ion,is,ik,ib,m]` are the
sixteen bytes of the file at that offset `+ 8 + 16*m`. -/
theorem double_decode_exact (h : Host) (d : List Byte) (pd : PyDict) (plo : PloArray)
    (ferw : FerwArray) (fr : Frame) (hf : h.file = some d) (hprec : hdr_field d 0 = 8)
    (hok : io_read_plocar h = .returned (some (pd, plo, ferw)) fr)
    (ion is ik ib : Nat) (hion : (ion : Int) < hdr_field d 1) (his : (is : Int) < hdr_field d 2)
    (hik : (ik : Int) < hdr_field d 3) (hib : (ib : Int) < hdr_field d 4) :
    ion_start (hdr_params d) d 28 ion
      = 28 + ∑ j in Finset.range ion,
          (4 + nrec (hdr_params d) * (8 + 16 * ion_nlm (hdr_params d) d 28 j)) ∧
    nlm_at d (ion_start (hdr_params d) d 28 ion) = (ion_nlm (hdr_params d) d 28 ion : Int) ∧
    ion_start (hdr_params d) d 28 ion + 4
      + ((is * (hdr_field d 3).toNat + ik) * (hdr_field d 4).toNat + ib + 1)
        * (8 + 16 * ion_nlm (hdr_params d) d 28 ion) ≤ d.length ∧
    (ferw.data[PyArray_GetPtr ferw [ion, is, ik, ib]]?).map (le_bytes 8)
      = some ((d.drop (ion_start (hdr_params d) d 28 ion + 4
          + ((is * (hdr_field d 3).toNat + ik) * (hdr_field d 4).toNat + ib)
            * (8 + 16 * ion_nlm (hdr_params d) d 28 ion))).take 8) ∧
    ∀ m, m < ion_nlm (hdr_params d) d 28 ion → (m : Int) < hdr_field d 5 →
      (plo.data[PyArray_GetPtr plo [ion, is, ik, ib, m]]?).map
          (fun z => le_bytes 8 z.1 ++ le_bytes 8 z.2)
        = some ((d.drop (ion_start (hdr_params d) d 28 ion + 4
            + ((is * (hdr_field d 3).toNat + ik) * (hdr_field d 4).toNat + ib)
              * (8 + 16 * ion_nlm (hdr_params d) d 28 ion) + 8 + 16 * m)).take 16) := by
  have hd : (hdr_params d).isdouble ≠ 0 := by simp [hdr_params, hprec]
  have hrs : ∀ k, rec_size (hdr_params d) k = 8 + 16 * k := rec_size_double _ hd
  have e1 : (hdr_params d).nion = hdr_field d 1 := rfl
  have e2 : (hdr_params d).ns = hdr_field d 2 := rfl
  have e3 : (hdr_params d).nk = hdr_field d 3 := rfl
  have e4 : (hdr_params d).nb = hdr_field d 4 := rfl
  have e5 : (hdr_params d).nlmmax = hdr_field d 5 := rfl
  obtain ⟨a1, a2, a3, a4, a5⟩ := io_read_plocar_values h d pd plo ferw fr hf hok ion is ik ib
    (by rw [e1]; omega) (by rw [e2]; omega) (by rw [e3]; omega) (by rw [e4]; omega)
  rw [e3, e4] at a3 a4 a5
  simp only [rec_pos, hrs] at a3 a4 a5
  generalize (is * (hdr_field d 3).toNat + ik) * (hdr_field d 4).toNat + ib = r at a3 a4 a5 ⊢
  have eR : (r + 1) * (8 + 16 * ion_nlm (hdr_params d) d 28 ion)
      = r * (8 + 16 * ion_nlm (hdr_params d) d 28 ion)
        + (8 + 16 * ion_nlm (hdr_params d) d 28 ion) := by ring
  refine ⟨?_, a1, by rw [eR]; omega, ?_, ?_⟩
  · rw [ion_start_sum]
    simp only [hrs]
  · rw [a4]
    simp only [weight_at, if_pos hd, Option.map_some']
    rw [le_bytes_take 8 d _ (by omega)]
  · intro m hm hmM
    rw [a5 m hm (by rw [e5]; omega)]
    simp only [value_at, if_pos hd, Option.map_some']
    rw [take_16_split, le_bytes_take 8 d _ (by omega), le_bytes_take 8 d _ (by omega)]
set_option maxRecDepth 100000 in
theorem double_decode_exact_witness :
    hdr_field (encode_plocar scenario) 0 = 8 ∧
    io_read_plocar (host_of (encode_plocar scenario))
      = .returned (some scenario_out) (frame_ok (encode_plocar scenario) 72 scenario_out) ∧
    (scenario_out.2.2.data[0]?).map (le_bytes 8)
      = some (((encode_plocar scenario).drop 32).take 8) ∧
    ∀ m, m < 2 → (scenario_out.2.1.data[m]?).map (fun z => le_bytes 8 z.1 ++ le_bytes 8 z.2)
      = some (((encode_plocar scenario).drop (40 + 16 * m)).take 16) := by
  have T := double_decode_exact (host_of (encode_plocar scenario)) (encode_plocar scenario)
    scenario_out.1 scenario_out.2.1 scenario_out.2.2 _ rfl (by decide) scenario_run 0 0 0 0
    (by decide) (by decide) (by decide) (by decide)
  have k2 : ion_nlm (hdr_params (encode_plocar scenario)) (encode_plocar scenario) 28 0 = 2 := by
    decide
  have s0 : ion_start (hdr_params (encode_plocar scenario)) (encode_plocar scenario) 28 0 = 28 :=
    rfl
  have g4 : PyArray_GetPtr scenario_out.2.2 [0, 0, 0, 0] = 0 := by decide
  have g5 : ∀ m, PyArray_GetPtr scenario_out.2.1 [0, 0, 0, 0, m] = m := by
    intro m; simp [PyArray_GetPtr, strides, scenario_out]
  have e5 : hdr_field (encode_plocar scenario) 5 = 3 := by decide
  rw [k2, s0, g4] at T
  simp only [Nat.zero_mul, Nat.zero_add, Nat.add_zero, g5, e5] at T
  refine ⟨by decide, scenario_run, T.2.2.2.1, ?_⟩
  intro m hm
  exact T.2.2.2.2 m hm (by omega)

/-- Claim C3, amended. Single-precision decode is a lossless widening. For a file whose
header has precision 4 and on which `io_read_plocar` returns the tuple, and for every
record index `(ion, is, ik, ib)` inside the header's dimensions, with
`r = (is*nk + ik)*nb + ib`: the block of the ion starts at
`28 + Σ_{j < ion} (4 + ns*nk*nb*(4 + 8*nlm j))`, its records are `4 + 8*nlm` bytes long and
lie inside the file; `Ferw[ion,is,ik,ib]` is the conversion to `double` of the `float` at
`start + 4 + r*(4 + 8*nlm)` and stands for the same number; and for every `m < nlm` with
`m < nlmmax`, the real and imaginary parts of `Plo[ion,is,ik,ib,m]` are the conversions of
the two `float`s at that offset `+ 4 + 8*m` and `+ 4 + 8*m + 4`, and stand for the same
numbers. -/
theorem single_decode_widening (h : Host) (d : List Byte) (pd : PyDict) (plo : PloArray)
    (ferw : FerwArray) (fr : Frame) (hf : h.file = some d) (hprec : hdr_field d 0 = 4)
    (hok : io_read_plocar h = .returned (some (pd, plo, ferw)) fr)
    (ion is ik ib : Nat) (hion : (ion : Int) < hdr_field d 1) (his : (is : Int) < hdr_field d 2)
    (hik : (ik : Int) < hdr_field d 3) (hib : (ib : Int) < hdr_field d 4) :
    ion_start (hdr_params d) d 28 ion
      = 28 + ∑ j in Finset.range ion,
          (4 + nrec (hdr_params d) * (4 + 8 * ion_nlm (hdr_params d) d 28 j)) ∧
    nlm_at d (ion_start (hdr_params d) d 28 ion) = (ion_nlm (hdr_params d) d 28 ion : Int) ∧
    ion_start (hdr_params d) d 28 ion + 4
      + ((is * (hdr_field d 3).toNat + ik) * (hdr_field d 4).toNat + ib + 1)
        * (4 + 8 * ion_nlm (hdr_params d) d 28 ion) ≤ d.length ∧
    ferw.data[PyArray_GetPtr ferw [ion, is, ik, ib]]?
      = some (float_to_double (le_nat ((d.drop (ion_start (hdr_params d) d 28 ion + 4
          + ((is * (hdr_field d 3).toNat + ik) * (hdr_field d 4).toNat + ib)
            * (4 + 8 * ion_nlm (hdr_params d) d 28 ion))).take 4))) ∧
    (ferw.data[PyArray_GetPtr ferw [ion, is, ik, ib]]?).map double_val
      = some (float_val (le_nat ((d.drop (ion_start (hdr_params d) d 28 ion + 4
          + ((is * (hdr_field d 3).toNat + ik) * (hdr_field d 4).toNat + ib)
            * (4 + 8 * ion_nlm (hdr_params d) d 28 ion))).take 4))) ∧
    ∀ m, m < ion_nlm (hdr_params d) d 28 ion → (m : Int) < hdr_field d 5 →
      plo.data[PyArray_GetPtr plo [ion, is, ik, ib, m]]?
        = some (float_to_double (le_nat ((d.drop (ion_start (hdr_params d) d 28 ion + 4
              + ((is * (hdr_field d 3).toNat + ik) * (hdr_field d 4).toNat + ib)
                * (4 + 8 * ion_nlm (hdr_params d) d 28 ion) + 4 + 8 * m)).take 4)),
            float_to_double (le_nat ((d.drop (ion_start (hdr_params d) d 28 ion + 4
              + ((is * (hdr_field d 3).toNat + ik) * (hdr_field d 4).toNat + ib)
                * (4 + 8 * ion_nlm (hdr_params d) d 28 ion) + 4 + 8 * m + 4)).take 4))) ∧
      (plo.data[PyArray_GetPtr plo [ion, is, ik, ib, m]]?).map
          (fun z => (double_val z.1, double_val z.2))
        = some (float_val (le_nat ((d.drop (ion_start (hdr_params d) d 28 ion + 4
              + ((is * (hdr_field d 3).toNat + ik) * (hdr_field d 4).toNat + ib)
                * (4 + 8 * ion_nlm (hdr_params d) d 28 ion) + 4 + 8 * m)).take 4)),
            float_val (le_nat ((d.drop (ion_start (hdr_params d) d 28 ion + 4
              + ((is * (hdr_field d 3).toNat + ik) * (hdr_field d 4).toNat + ib)
                * (4 + 8 * ion_nlm (hdr_params d) d 28 ion) + 4 + 8 * m + 4)).take 4))) := by
  have h8 : hdr_field d 0 ≠ 8 := by rw [hprec]; decide
  have hd : ¬ (hdr_params d).isdouble ≠ 0 := by simp [hdr_params, h8]
  have hrs : ∀ k, rec_size (hdr_params d) k = 4 + 8 * k := rec_size_float _ hd
  have e1 : (hdr_params d).nion = hdr_field d 1 := rfl
  have e2 : (hdr_params d).ns = hdr_field d 2 := rfl
  have e3 : (hdr_params d).nk = hdr_field d 3 := rfl
  have e4 : (hdr_params d).nb = hdr_field d 4 := rfl
  have e5 : (hdr_params d).nlmmax = hdr_field d 5 := rfl
  obtain ⟨a1, a2, a3, a4, a5⟩ := io_read_plocar_values h d pd plo ferw fr hf hok ion is ik ib
    (by rw [e1]; omega) (by rw [e2]; omega) (by rw [e3]; omega) (by rw [e4]; omega)
  rw [e3, e4] at a3 a4 a5
  simp only [rec_pos, hrs] at a3 a4 a5
  generalize (is * (hdr_field d 3).toNat + ik) * (hdr_field d 4).toNat + ib = r at a3 a4 a5 ⊢
  have eR : (r + 1) * (4 + 8 * ion_nlm (hdr_params d) d 28 ion)
      = r * (4 + 8 * ion_nlm (hdr_params d) d 28 ion)
        + (4 + 8 * ion_nlm (hdr_params d) d 28 ion) := by ring
  simp only [weight_at, if_neg hd] at a4
  refine ⟨?_, a1, by rw [eR]; omega, a4, ?_, ?_⟩
  · rw [ion_start_sum]
    simp only [hrs]
  · rw [a4]
    simp only [Option.map_some', float_to_double_val]
  · intro m hm hmM
    have := a5 m hm (by rw [e5]; omega)
    simp only [value_at, if_neg hd] at this
    refine ⟨this, ?_⟩
    rw [this]
    simp only [Option.map_some', float_to_double_val]

set_option maxRecDepth 100000 in
theorem single_decode_widening_witness :
    hdr_field (encode_plocar scenario4) 0 = 4 ∧
    io_read_plocar (host_of (encode_plocar scenario4))
      = .returned (some scenario_out) (frame_ok (encode_plocar scenario4) 52 scenario_out) ∧
    scenario_out.2.2.data[0]?
      = some (float_to_double (le_nat (((encode_plocar scenario4).drop 32).take 4))) ∧
    (scenario_out.2.2.data[0]?).map double_val
      = some (float_val (le_nat (((encode_plocar scenario4).drop 32).take 4))) := by
  have T := single_decode_widening (host_of (encode_plocar scenario4)) (encode_plocar scenario4)
    scenario_out.1 scenario_out.2.1 scenario_out.2.2 _ rfl (by decide) scenario4_run 0 0 0 0
    (by decide) (by decide) (by decide) (by decide)
  have s0 : ion_start (hdr_params (encode_plocar scenario4)) (encode_plocar scenario4) 28 0
      = 28 := rfl
  have g4 : PyArray_GetPtr scenario_out.2.2 [0, 0, 0, 0] = 0 := by decide
  rw [s0, g4] at T
  simp only [Nat.zero_mul, Nat.zero_add, Nat.add_zero] at T
  exact ⟨by decide, scenario4_run, T.2.2.2.1, T.2.2.2.2.1⟩

/-! ## Segments of a list -/

theorem seg_refl {α : Type} (l : List α) : Seg l 0 l := ⟨[], [], by simp, rfl⟩

theorem seg_left {α : Type} (a b : List α) : Seg (a ++ b) 0 a := ⟨[], b, by simp, rfl⟩

theorem seg_right {α : Type} (a b : List α) : Seg (a ++ b) a.length b := ⟨a, [], by simp, rfl⟩

theorem seg_trans {α : Type} (l x y : List α) (o o1 : Nat) (h1 : Seg l o x) (h2 : Seg x o1 y) :
    Seg l (o + o1) y := by
  obtain ⟨p1, q1, e1, l1⟩ := h1
  obtain ⟨p2, q2, e2, l2⟩ := h2
  refine ⟨p1 ++ p2, q2 ++ q1, ?_, by simp [l1, l2]⟩
  rw [e1, e2]
  simp [List.append_assoc]

theorem seg_in_left {α : Type} (a b x : List α) (o : Nat) (h : Seg a o x) : Seg (a ++ b) o x := by
  have := seg_trans (a ++ b) a x 0 o (seg_left a b) h
  rwa [Nat.zero_add] at this

theorem seg_in_right {α : Type} (a b x : List α) (o : Nat) (h : Seg b o x) :
    Seg (a ++ b) (a.length + o) x :=
  seg_trans (a ++ b) b x a.length o (seg_right a b) h

theorem seg_take {α : Type} (l x : List α) (o : Nat) (h : Seg l o x) :
    (l.drop o).take x.length = x ∧ o + x.length ≤ l.length := by
  obtain ⟨p, q, e, hl⟩ := h
  subst hl
  subst e
  refine ⟨?_, by simp⟩
  rw [List.append_assoc, List.drop_left, List.take_left]

theorem seg_take_sub {α : Type} (l x : List α) (o a c : Nat) (h : Seg l o x)
    (hac : a + c ≤ x.length) : (l.drop (o + a)).take c = (x.drop a).take c := by
  have h2 : Seg x a ((x.drop a).take c) := by
    refine ⟨x.take a, (x.drop a).drop c, ?_, by rw [List.length_take]; omega⟩
    rw [List.append_assoc, List.take_append_drop, List.take_append_drop]
  have h3 := seg_take l _ (o + a) (seg_trans l x _ o a h h2)
  have hl : ((x.drop a).take c).length = c := by
    rw [List.length_take, List.length_drop]; omega
  rw [hl] at h3
  exact h3.1

theorem flatMap_range_succ {α : Type} (f : Nat → List α) (n : Nat) :
    (List.range (n + 1)).flatMap f = (List.range n).flatMap f ++ f n := by
  rw [List.range_succ, List.flatMap_append]; simp

theorem seg_flatMap_range {α : Type} (f : Nat → List α) (n i : Nat) (hi : i < n) :
    Seg ((List.range n).flatMap f) ((List.range i).flatMap f).length (f i) := by
  induction n with
  | zero => omega
  | succ n ih =>
    rw [flatMap_range_succ]
    by_cases h : i = n
    · subst h
      exact seg_right _ _
    · exact seg_in_left _ _ _ _ (ih (by omega))

theorem length_flatMap_range_const {α : Type} (f : Nat → List α) (n c : Nat)
    (h : ∀ j, j < n → (f j).length = c) : ((List.range n).flatMap f).length = n * c := by
  induction n with
  | zero => simp
  | succ n ih =>
    rw [flatMap_range_succ, List.length_append, ih (fun j hj => h j (by omega)), h n (by omega)]
    ring

theorem length_flatMap_range_sum {α : Type} (f : Nat → List α) (n : Nat) :
    ((List.range n).flatMap f).length = ∑ j in Finset.range n, (f j).length := by
  induction n with
  | zero => simp
  | succ n ih =>
    rw [flatMap_range_succ, List.length_append, ih, Finset.sum_range_succ]

theorem seg_flatMap_const {α : Type} (f : Nat → List α) (n c i : Nat) (hi : i < n)
    (h : ∀ j, j < n → (f j).length = c) : Seg ((List.range n).flatMap f) (i * c) (f i) := by
  have := seg_flatMap_range f n i hi
  rwa [length_flatMap_range_const f i c (fun j hj => h j (by omega))] at this

/-! ## The layout of an encoded file -/

theorem to_int32_enc (v : Int) (h1 : -(2 ^ 31) ≤ v) (h2 : v < 2 ^ 31) :
    to_int32 (le_nat (enc_int32 v)) = v := by
  unfold enc_int32
  rw [le_nat_le_bytes 4 _ (by norm_num; omega)]
  unfold to_int32
  split <;> omega

theorem enc_int32_length (v : Int) : (enc_int32 v).length = 4 := le_bytes_length 4 _

theorem nlm_at_of_seg (d : List Byte) (o : Nat) (v : Int) (h : Seg d o (enc_int32 v))
    (h1 : -(2 ^ 31) ≤ v) (h2 : v < 2 ^ 31) : nlm_at d o = v := by
  have := (seg_take d _ o h).1
  rw [enc_int32_length] at this
  unfold nlm_at
  rw [this, to_int32_enc v h1 h2]

theorem hdr_field_of_seg (d : List Byte) (k : Nat) (v : Int) (h : Seg d (4 * k) (enc_int32 v))
    (h1 : -(2 ^ 31) ≤ v) (h2 : v < 2 ^ 31) : hdr_field d k = v :=
  nlm_at_of_seg d (4 * k) v h h1 h2

theorem wsize_params_of (x : PlocarData) :
    wsize (params_of x) = if x.precision = 8 then 8 else 4 := by
  unfold wsize params_of
  by_cases h : x.precision = 8 <;> simp [h]

theorem encode_record_eq (x : PlocarData) (hprec : x.precision = 8 ∨ x.precision = 4)
    (ion is ik ib : Nat) :
    encode_record x ion is ik ib
      = le_bytes (wsize (params_of x)) (x.weight ion is ik ib) ++
        (List.range (x.nlm ion).toNat).flatMap (fun m =>
          le_bytes (wsize (params_of x)) (x.value ion is ik ib m).1 ++
            le_bytes (wsize (params_of x)) (x.value ion is ik ib m).2) := by
  rw [wsize_params_of]
  unfold encode_record
  rcases hprec with h | h
  · rw [if_pos h, if_pos h]
  · have h8 : x.precision ≠ 8 := by rw [h]; decide
    rw [if_neg h8, if_pos h, if_neg h8]

theorem encode_record_length (x : PlocarData) (hprec : x.precision = 8 ∨ x.precision = 4)
    (ion is ik ib : Nat) :
    (encode_record x ion is ik ib).length = rec_size (params_of x) (x.nlm ion).toNat := by
  rw [encode_record_eq x hprec, List.length_append, le_bytes_length,
    length_flatMap_range_const _ _ (wsize (params_of x) + wsize (params_of x))
      (fun j _ => by rw [List.length_append, le_bytes_length, le_bytes_length])]
  unfold rec_size
  ring

theorem encode_ion_length (x : PlocarData) (hprec : x.precision = 8 ∨ x.precision = 4)
    (ion : Nat) :
    (encode_ion x ion).length
      = 4 + nrec (params_of x) * rec_size (params_of x) (x.nlm ion).toNat := by
  unfold encode_ion
  rw [List.length_append, enc_int32_length,
    length_flatMap_range_const _ _
      (x.nk.toNat * (x.nb.toNat * rec_size (params_of x) (x.nlm ion).toNat))
      (fun is _ => length_flatMap_range_const _ _
        (x.nb.toNat * rec_size (params_of x) (x.nlm ion).toNat)
        (fun ik _ => length_flatMap_range_const _ _ _
          (fun ib _ => encode_record_length x hprec ion is ik ib)))]
  unfold nrec params_of
  simp only []
  ring

theorem seg_encode_record (x : PlocarData) (hprec : x.precision = 8 ∨ x.precision = 4)
    (ion is ik ib : Nat) (his : is < x.ns.toNat) (hik : ik < x.nk.toNat) (hib : ib < x.nb.toNat) :
    Seg (encode_ion x ion)
      (4 + ((is * x.nk.toNat + ik) * x.nb.toNat + ib) * rec_size (params_of x) (x.nlm ion).toNat)
      (encode_record x ion is ik ib) := by
  have h3 := seg_flatMap_const (fun ib => encode_record x ion is ik ib) x.nb.toNat _ ib hib
    (fun j _ => encode_record_length x hprec ion is ik j)
  have h2 := seg_flatMap_const (fun ik => (List.range x.nb.toNat).flatMap
      (fun ib => encode_record x ion is ik ib)) x.nk.toNat _ ik hik
    (fun j _ => length_flatMap_range_const _ _ _
      (fun ib _ => encode_record_length x hprec ion is j ib))
  have h1 := seg_flatMap_const (fun is => (List.range x.nk.toNat).flatMap (fun ik =>
      (List.range x.nb.toNat).flatMap (fun ib => encode_record x ion is ik ib))) x.ns.toNat _ is his
    (fun i _ => length_flatMap_range_const _ _
        (x.nb.toNat * rec_size (params_of x) (x.nlm ion).toNat)
        (fun ik _ => length_flatMap_range_const _ _ _
          (fun ib _ => encode_record_length x hprec ion i ik ib)))
  have h := seg_in_right (enc_int32 (x.nlm ion)) _ _ _
    (seg_trans _ _ _ _ _ (seg_trans _ _ _ _ _ h1 h2) h3)
  rw [enc_int32_length] at h
  unfold encode_ion
  have e : 4 + (is * (x.nk.toNat * (x.nb.toNat * rec_size (params_of x) (x.nlm ion).toNat))
      + ik * (x.nb.toNat * rec_size (params_of x) (x.nlm ion).toNat)
      + ib * rec_size (params_of x) (x.nlm ion).toNat)
      = 4 + ((is * x.nk.toNat + ik) * x.nb.toNat + ib)
        * rec_size (params_of x) (x.nlm ion).toNat := by ring
  rw [← e]
  exact h

theorem seg_after (a b x : List Byte) (o n : Nat) (ha : a.length = 4) (h : Seg b o x)
    (hn : n = 4 + o) : Seg (a ++ b) n x := by
  have := seg_in_right a b x o h
  rw [ha, ← hn] at this
  exact this

theorem encode_plocar_eq (x : PlocarData) :
    encode_plocar x = enc_int32 x.precision ++ (enc_int32 x.nion ++ (enc_int32 x.ns ++
      (enc_int32 x.nk ++ (enc_int32 x.nb ++ (enc_int32 x.nlmmax ++ (enc_int32 x.nc_flag ++
        (List.range x.nion.toNat).flatMap (encode_ion x))))))) := by
  unfold encode_plocar
  simp only [List.append_assoc]

theorem seg_encode_ion (x : PlocarData) (i : Nat) (hi : i < x.nion.toNat) :
    Seg (encode_plocar x) (28 + ((List.range i).flatMap (encode_ion x)).length)
      (encode_ion x i) := by
  rw [encode_plocar_eq]
  have h := seg_flatMap_range (encode_ion x) x.nion.toNat i hi
  have h6 := seg_in_right (enc_int32 x.nc_flag) _ _ _ h
  have h5 := seg_in_right (enc_int32 x.nlmmax) _ _ _ h6
  have h4 := seg_in_right (enc_int32 x.nb) _ _ _ h5
  have h3 := seg_in_right (enc_int32 x.nk) _ _ _ h4
  have h2 := seg_in_right (enc_int32 x.ns) _ _ _ h3
  have h1 := seg_in_right (enc_int32 x.nion) _ _ _ h2
  have h0 := seg_in_right (enc_int32 x.precision) _ _ _ h1
  simp only [enc_int32_length] at h0
  have e : 4 + (4 + (4 + (4 + (4 + (4 + (4 + ((List.range i).flatMap (encode_ion x)).length))))))
      = 28 + ((List.range i).flatMap (encode_ion x)).length := by omega
  rw [e] at h0
  exact h0

theorem encode_plocar_length (x : PlocarData) :
    (encode_plocar x).length
      = 28 + ((List.range x.nion.toNat).flatMap (encode_ion x)).length := by
  rw [encode_plocar_eq]
  simp only [List.length_append, enc_int32_length]
  omega

theorem hdr_params_encode (x : PlocarData)
    (r0 : -(2 ^ 31) ≤ x.precision ∧ x.precision < 2 ^ 31)
    (r1 : -(2 ^ 31) ≤ x.nion ∧ x.nion < 2 ^ 31) (r2 : -(2 ^ 31) ≤ x.ns ∧ x.ns < 2 ^ 31)
    (r3 : -(2 ^ 31) ≤ x.nk ∧ x.nk < 2 ^ 31) (r4 : -(2 ^ 31) ≤ x.nb ∧ x.nb < 2 ^ 31)
    (r5 : -(2 ^ 31) ≤ x.nlmmax ∧ x.nlmmax < 2 ^ 31)
    (r6 : -(2 ^ 31) ≤ x.nc_flag ∧ x.nc_flag < 2 ^ 31) :
    hdr_field (encode_plocar x) 0 = x.precision ∧ hdr_params (encode_plocar x) = params_of x := by
  have s0 : Seg (encode_plocar x) (4 * 0) (enc_int32 x.precision) := by
    rw [encode_plocar_eq]; exact seg_left _ _
  have s1 : Seg (encode_plocar x) (4 * 1) (enc_int32 x.nion) := by
    rw [encode_plocar_eq]
    exact seg_after _ _ _ _ _ (enc_int32_length _) (seg_left _ _) rfl
  have s2 : Seg (encode_plocar x) (4 * 2) (enc_int32 x.ns) := by
    rw [encode_plocar_eq]
    exact seg_after _ _ _ _ _ (enc_int32_length _)
      (seg_after _ _ _ _ 4 (enc_int32_length _) (seg_left _ _) rfl) rfl
  have s3 : Seg (encode_plocar x) (4 * 3) (enc_int32 x.nk) := by
    rw [encode_plocar_eq]
    exact seg_after _ _ _ _ _ (enc_int32_length _)
      (seg_after _ _ _ _ 8 (enc_int32_length _)
        (seg_after _ _ _ _ 4 (enc_int32_length _) (seg_left _ _) rfl) rfl) rfl
  have s4 : Seg (encode_plocar x) (4 * 4) (enc_int32 x.nb) := by
    rw [encode_plocar_eq]
    exact seg_after _ _ _ _ _ (enc_int32_length _)
      (seg_after _ _ _ _ 12 (enc_int32_length _)
        (seg_after _ _ _ _ 8 (enc_int32_length _)
          (seg_after _ _ _ _ 4 (enc_int32_length _) (seg_left _ _) rfl) rfl) rfl) rfl
  have s5 : Seg (encode_plocar x) (4 * 5) (enc_int32 x.nlmmax) := by
    rw [encode_plocar_eq]
    exact seg_after _ _ _ _ _ (enc_int32_length _)
      (seg_after _ _ _ _ 16 (enc_int32_length _)
        (seg_after _ _ _ _ 12 (enc_int32_length _)
          (seg_after _ _ _ _ 8 (enc_int32_length _)
            (seg_after _ _ _ _ 4 (enc_int32_length _) (seg_left _ _) rfl) rfl) rfl) rfl) rfl
  have s6 : Seg (encode_plocar x) (4 * 6) (enc_int32 x.nc_flag) := by
    rw [encode_plocar_eq]
    exact seg_after _ _ _ _ _ (enc_int32_length _)
      (seg_after _ _ _ _ 20 (enc_int32_length _)
        (seg_after _ _ _ _ 16 (enc_int32_length _)
          (seg_after _ _ _ _ 12 (enc_int32_length _)
            (seg_after _ _ _ _ 8 (enc_int32_length _)
              (seg_after _ _ _ _ 4 (enc_int32_length _) (seg_left _ _) rfl) rfl) rfl) rfl)
        rfl) rfl
  have f0 := hdr_field_of_seg _ 0 _ s0 r0.1 r0.2
  refine ⟨f0, ?_⟩
  unfold hdr_params params_of
  rw [f0, hdr_field_of_seg _ 1 _ s1 r1.1 r1.2, hdr_field_of_seg _ 2 _ s2 r2.1 r2.2,
    hdr_field_of_seg _ 3 _ s3 r3.1 r3.2, hdr_field_of_seg _ 4 _ s4 r4.1 r4.2,
    hdr_field_of_seg _ 5 _ s5 r5.1 r5.2, hdr_field_of_seg _ 6 _ s6 r6.1 r6.2]

theorem enc_ion_start (x : PlocarData) (hprec : x.precision = 8 ∨ x.precision = 4)
    (hnlm : ∀ j, j < x.nion.toNat → -(2 ^ 31) ≤ x.nlm j ∧ x.nlm j < 2 ^ 31) :
    ∀ i, i ≤ x.nion.toNat →
      ion_start (params_of x) (encode_plocar x) 28 i
        = 28 + ((List.range i).flatMap (encode_ion x)).length := by
  intro i
  induction i with
  | zero => intro _; simp [ion_start]
  | succ i ih =>
    intro hi
    have h1 := ih (by omega)
    have hseg : Seg (encode_plocar x) (28 + ((List.range i).flatMap (encode_ion x)).length)
        (enc_int32 (x.nlm i)) := by
      have := seg_trans _ _ _ _ 0 (seg_encode_ion x i (by omega))
        (show Seg (encode_ion x i) 0 (enc_int32 (x.nlm i)) from seg_left _ _)
      rwa [Nat.add_zero] at this
    have hn := nlm_at_of_seg _ _ _ hseg (hnlm i (by omega)).1 (hnlm i (by omega)).2
    simp only [ion_start]
    rw [h1, hn, flatMap_range_succ, List.length_append, encode_ion_length x hprec]
    omega

theorem enc_ion_nlm (x : PlocarData) (hprec : x.precision = 8 ∨ x.precision = 4)
    (hnlm : ∀ j, j < x.nion.toNat → -(2 ^ 31) ≤ x.nlm j ∧ x.nlm j < 2 ^ 31)
    (i : Nat) (hi : i < x.nion.toNat) :
    nlm_at (encode_plocar x) (ion_start (params_of x) (encode_plocar x) 28 i) = x.nlm i := by
  rw [enc_ion_start x hprec hnlm i (by omega)]
  have := seg_trans _ _ _ _ 0 (seg_encode_ion x i hi)
    (show Seg (encode_ion x i) 0 (enc_int32 (x.nlm i)) from seg_left _ _)
  rw [Nat.add_zero] at this
  exact nlm_at_of_seg _ _ _ this (hnlm i hi).1 (hnlm i hi).2

theorem enc_rec_seg (x : PlocarData) (hprec : x.precision = 8 ∨ x.precision = 4)
    (hnlm : ∀ j, j < x.nion.toNat → -(2 ^ 31) ≤ x.nlm j ∧ x.nlm j < 2 ^ 31)
    (ion is ik ib : Nat) (hion : ion < x.nion.toNat) (his : is < x.ns.toNat)
    (hik : ik < x.nk.toNat) (hib : ib < x.nb.toNat) :
    Seg (encode_plocar x)
      (rec_pos (params_of x) (encode_plocar x) 28 ion ((is * x.nk.toNat + ik) * x.nb.toNat + ib))
      (encode_record x ion is ik ib) := by
  have h := seg_trans _ _ _ _ _ (seg_encode_ion x ion hion)
    (seg_encode_record x hprec ion is ik ib his hik hib)
  unfold rec_pos ion_nlm
  rw [enc_ion_nlm x hprec hnlm ion hion, enc_ion_start x hprec hnlm ion (by omega)]
  rw [← Nat.add_assoc] at h
  exact h

theorem weight_at_enc (x : PlocarData) (hprec : x.precision = 8 ∨ x.precision = 4)
    (d : List Byte) (pos ion is ik ib : Nat) (hseg : Seg d pos (encode_record x ion is ik ib))
    (hw : x.weight ion is ik ib < 256 ^ wsize (params_of x)) :
    weight_at (params_of x) d pos = decoded_of x (x.weight ion is ik ib) := by
  rw [encode_record_eq x hprec] at hseg
  have h1 := seg_trans _ _ _ _ 0 hseg (seg_left _ _)
  rw [Nat.add_zero] at h1
  have h2 := (seg_take _ _ _ h1).1
  rw [le_bytes_length] at h2
  have h3 := le_nat_le_bytes _ _ hw
  rw [wsize_params_of] at h2 h3
  unfold weight_at decoded_of params_of
  rcases hprec with h | h
  · rw [if_pos h] at h2 h3
    simp only [h, if_true]
    rw [if_pos (by decide), h2, h3]
  · have h8 : x.precision ≠ 8 := by rw [h]; decide
    rw [if_neg h8] at h2 h3
    simp only [h8, if_false]
    rw [if_neg (by decide), h2, h3]

theorem value_at_enc (x : PlocarData) (hprec : x.precision = 8 ∨ x.precision = 4)
    (d : List Byte) (pos ion is ik ib m : Nat) (hseg : Seg d pos (encode_record x ion is ik ib))
    (hm : m < (x.nlm ion).toNat)
    (hv : (x.value ion is ik ib m).1 < 256 ^ wsize (params_of x) ∧
      (x.value ion is ik ib m).2 < 256 ^ wsize (params_of x)) :
    value_at (params_of x) d pos m
      = (decoded_of x (x.value ion is ik ib m).1, decoded_of x (x.value ion is ik ib m).2) := by
  rw [encode_record_eq x hprec] at hseg
  have hpair := seg_flatMap_const (fun m =>
      le_bytes (wsize (params_of x)) (x.value ion is ik ib m).1 ++
        le_bytes (wsize (params_of x)) (x.value ion is ik ib m).2) (x.nlm ion).toNat
    (wsize (params_of x) + wsize (params_of x)) m hm
    (fun j _ => by rw [List.length_append, le_bytes_length, le_bytes_length])
  have h0 := seg_trans _ _ _ _ _ hseg (seg_in_right _ _ _ _ hpair)
  rw [le_bytes_length] at h0
  have hre := seg_trans _ _ _ _ 0 h0 (seg_left _ _)
  have him := seg_trans _ _ _ _ _ h0 (seg_right _ _)
  rw [le_bytes_length] at him
  have h2 := (seg_take _ _ _ hre).1
  have h3 := (seg_take _ _ _ him).1
  rw [le_bytes_length] at h2 h3
  have v1 := le_nat_le_bytes _ _ hv.1
  have v2 := le_nat_le_bytes _ _ hv.2
  rw [wsize_params_of] at h2 h3 v1 v2
  unfold value_at decoded_of params_of
  rcases hprec with h | h
  · rw [if_pos h] at h2 h3 v1 v2
    simp only [h, if_true]
    rw [if_pos (by decide)]
    have e1 : pos + 8 + 16 * m = pos + (8 + m * (8 + 8)) + 0 := by omega
    have e2 : pos + 8 + 16 * m + 8 = pos + (8 + m * (8 + 8)) + 8 := by omega
    rw [e2, e1, h2, h3, v1, v2]
  · have h8 : x.precision ≠ 8 := by rw [h]; decide
    rw [if_neg h8] at h2 h3 v1 v2
    simp only [h8, if_false]
    rw [if_neg (by decide)]
    have e1 : pos + 4 + 8 * m = pos + (4 + m * (4 + 4)) + 0 := by omega
    have e2 : pos + 4 + 8 * m + 4 = pos + (4 + m * (4 + 4)) + 4 := by omega
    rw [e2, e1, h2, h3, v1, v2]

theorem decoded_val (x : PlocarData) (b : Nat) :
    double_val (decoded_of x b) = encoded_val x b := by
  unfold decoded_of encoded_val
  split
  · rfl
  · exact float_to_double_val b

theorem npy_nbytes_pos5 (a b c e f : Int) (ha : 0 < a) (hb : 0 < b) (hc : 0 < c) (he : 0 < e)
    (hf : 0 < f) (h : a * b * c * e * f < 2 ^ 31) :
    npy_nbytes 16 [a, b, c, e, f] ≤ NPY_MAX_INTP := by
  have e1 : npy_nbytes 16 [a, b, c, e, f] = 16 * (a * b * c * e * f).toNat := by
    simp only [npy_nbytes, List.foldl, if_neg (ne_of_gt ha), if_neg (ne_of_gt hb),
      if_neg (ne_of_gt hc), if_neg (ne_of_gt he), if_neg (ne_of_gt hf)]
    rw [toNat_mul_nonneg _ _ (by positivity) hf.le, toNat_mul_nonneg _ _ (by positivity) he.le,
      toNat_mul_nonneg _ _ (by positivity) hc.le, toNat_mul_nonneg _ _ ha.le hb.le]
    ring
  rw [e1]
  unfold NPY_MAX_INTP
  omega

theorem npy_nbytes_pos4 (a b c e : Int) (ha : 0 < a) (hb : 0 < b) (hc : 0 < c) (he : 0 < e)
    (h : a * b * c * e < 2 ^ 31) :
    npy_nbytes 8 [a, b, c, e] ≤ NPY_MAX_INTP := by
  have e1 : npy_nbytes 8 [a, b, c, e] = 8 * (a * b * c * e).toNat := by
    simp only [npy_nbytes, List.foldl, if_neg (ne_of_gt ha), if_neg (ne_of_gt hb),
      if_neg (ne_of_gt hc), if_neg (ne_of_gt he)]
    rw [toNat_mul_nonneg _ _ (by positivity) he.le,
      toNat_mul_nonneg _ _ (by positivity) hc.le, toNat_mul_nonneg _ _ ha.le hb.le]
    ring
  rw [e1]
  unfold NPY_MAX_INTP
  omega

theorem npy_step_mono (m n : Nat) (dim : Int) (h : m ≤ n) :
    (if dim = 0 then m else m * dim.toNat) ≤ (if dim = 0 then n else n * dim.toNat) := by
  split
  · exact h
  · exact Nat.mul_le_mul_right _ h

/-- The byte count of the four dimensions of `Ferw` is below that of the five of `Plo`. -/
theorem npy_nbytes_le (a b c e f : Int) (hf : 0 ≤ f) :
    npy_nbytes 8 [a, b, c, e] ≤ npy_nbytes 16 [a, b, c, e, f] := by
  simp only [npy_nbytes, List.foldl]
  have h0 : (8 : Nat) ≤ 16 := by decide
  have h1 := npy_step_mono 8 16 a h0
  have h2 := npy_step_mono _ _ b h1
  have h3 := npy_step_mono _ _ c h2
  have h4 := npy_step_mono _ _ e h3
  refine Nat.le_trans h4 ?_
  by_cases hf0 : f = 0
  · rw [if_pos hf0]
  · rw [if_neg hf0]
    have : 1 ≤ f.toNat := by omega
    exact Nat.le_mul_of_pos_right _ this

theorem create_plo_array_of (p : t_params) (h1 : 0 ≤ p.nion) (h2 : 0 ≤ p.ns) (h3 : 0 ≤ p.nk)
    (h4 : 0 ≤ p.nb) (h5 : 0 ≤ p.nlmmax) (f1 : p.nion * p.ns < 2 ^ 31)
    (f2 : p.nion * p.ns * p.nk < 2 ^ 31) (f3 : p.nion * p.ns * p.nk * p.nb < 2 ^ 31)
    (f4 : p.nion * p.ns * p.nk * p.nb * p.nlmmax < 2 ^ 31)
    (hn : npy_nbytes 16 [p.nion, p.ns, p.nk, p.nb, p.nlmmax] ≤ NPY_MAX_INTP) :
    create_plo_array p
      = some ⟨[p.nion.toNat, p.ns.toNat, p.nk.toNat, p.nb.toNat, p.nlmmax.toNat],
          List.replicate (p.nion.toNat * nrec p * p.nlmmax.toNat) (0, 0)⟩ := by
  have g1 : (0 : Int) ≤ p.nion * p.ns := by positivity
  have g2 : (0 : Int) ≤ p.nion * p.ns * p.nk := by positivity
  have g3 : (0 : Int) ≤ p.nion * p.ns * p.nk * p.nb := by positivity
  have g4 : (0 : Int) ≤ p.nion * p.ns * p.nk * p.nb * p.nlmmax := by positivity
  have hs : ∃ a, create_plo_array p = some a := by
    unfold create_plo_array
    simp only [bind, Option.bind, int_mul_of _ _ (by omega : -(2 ^ 31) ≤ p.nion * p.ns) f1,
      int_mul_of _ _ (by omega : -(2 ^ 31) ≤ p.nion * p.ns * p.nk) f2,
      int_mul_of _ _ (by omega : -(2 ^ 31) ≤ p.nion * p.ns * p.nk * p.nb) f3,
      int_mul_of _ _ (by omega : -(2 ^ 31) ≤ p.nion * p.ns * p.nk * p.nb * p.nlmmax) f4]
    rw [if_neg (by omega), if_neg (Nat.not_lt.mpr hn)]
    exact ⟨_, rfl⟩
  obtain ⟨a, ha⟩ := hs
  rw [ha, (create_plo_array_some p a ha).2.2]

theorem create_ferw_array_of (p : t_params) (h1 : 0 ≤ p.nion) (h2 : 0 ≤ p.ns) (h3 : 0 ≤ p.nk)
    (h4 : 0 ≤ p.nb) (f1 : p.nion * p.ns < 2 ^ 31)
    (f2 : p.nion * p.ns * p.nk < 2 ^ 31) (f3 : p.nion * p.ns * p.nk * p.nb < 2 ^ 31)
    (hn : npy_nbytes 8 [p.nion, p.ns, p.nk, p.nb] ≤ NPY_MAX_INTP) :
    create_ferw_array p
      = some ⟨[p.nion.toNat, p.ns.toNat, p.nk.toNat, p.nb.toNat],
          List.replicate (p.nion.toNat * nrec p) 0⟩ := by
  have g1 : (0 : Int) ≤ p.nion * p.ns := by positivity
  have g2 : (0 : Int) ≤ p.nion * p.ns * p.nk := by positivity
  have g3 : (0 : Int) ≤ p.nion * p.ns * p.nk * p.nb := by positivity
  have hs : ∃ a, create_ferw_array p = some a := by
    unfold create_ferw_array
    simp only [bind, Option.bind, int_mul_of _ _ (by omega : -(2 ^ 31) ≤ p.nion * p.ns) f1,
      int_mul_of _ _ (by omega : -(2 ^ 31) ≤ p.nion * p.ns * p.nk) f2,
      int_mul_of _ _ (by omega : -(2 ^ 31) ≤ p.nion * p.ns * p.nk * p.nb) f3]
    rw [if_neg (by omega), if_neg (Nat.not_lt.mpr hn)]
    exact ⟨_, rfl⟩
  obtain ⟨a, ha⟩ := hs
  rw [ha, (create_ferw_array_some p a ha).2.2]

theorem pos_products (a b c e f : Int) (ha : 0 < a) (hb : 0 < b) (hc : 0 < c) (he : 0 < e)
    (hf : 0 < f) (B : Int) (h : a * b * c * e * f < B) :
    a * b < B ∧ a * b * c < B ∧ a * b * c * e < B ∧
      a < B ∧ b < B ∧ c < B ∧ e < B ∧ f < B := by
  have p1 : 0 < a * b := by positivity
  have p2 : 0 < a * b * c := by positivity
  have p3 : 0 < a * b * c * e := by positivity
  have q4 : a * b * c * e ≤ a * b * c * e * f := le_mul_of_one_le_right (by omega) (by omega)
  have q3 : a * b * c ≤ a * b * c * e := le_mul_of_one_le_right (by omega) (by omega)
  have q2 : a * b ≤ a * b * c := le_mul_of_one_le_right (by omega) (by omega)
  have q1 : a ≤ a * b := le_mul_of_one_le_right (by omega) (by omega)
  have s1 : b ≤ a * b := le_mul_of_one_le_left (by omega) (by omega)
  have s2 : c ≤ a * b * c := le_mul_of_one_le_left (by omega) (by omega)
  have s3 : e ≤ a * b * c * e := le_mul_of_one_le_left (by omega) (by omega)
  have s4 : f ≤ a * b * c * e * f := le_mul_of_one_le_left (by omega) (by omega)
  refine ⟨?_, ?_, ?_, ?_, ?_, ?_, ?_, ?_⟩ <;> omega

set_option maxRecDepth 100000 in
theorem spill_run : io_read_plocar (host_of (encode_plocar spill_data))
    = .returned (some spill_out) (frame_ok (encode_plocar spill_data) 84 spill_out) := by
  decide

set_option maxRecDepth 100000 in
theorem zero_ion_run : io_read_plocar (host_of (encode_plocar zero_ion_data))
    = .returned (some ([("nion", 0), ("ns", 1), ("nk", 1), ("nb", 1), ("nc_flag", 0)],
        ⟨[0, 1, 1, 1, 1], []⟩, ⟨[0, 1, 1, 1], []⟩))
      (frame_ok (encode_plocar zero_ion_data) 28
        ([("nion", 0), ("ns", 1), ("nk", 1), ("nb", 1), ("nc_flag", 0)],
          ⟨[0, 1, 1, 1, 1], []⟩, ⟨[0, 1, 1, 1], []⟩)) := by
  decide

/-! ## Round trip -/

/-- Claim C1, amended. Round trip. For every content `x` with precision 8 or 4, positive
`nion`, `ns`, `nk`, `nb`, `nlmmax` whose product fits an `int`, an `nc_flag` that is an
`int`, every ion's `nlm` in `[0, nlmmax]` and at most 50, and weights and values that are
bit patterns of the file's precision: `io_read_plocar` on the encoding of `x` returns the
tuple, having read the whole file; `Ferw[ion,is,ik,ib]` is the encoded weight (widened to
`double` in single precision, standing for the same number), `Plo[ion,is,ik,ib,m]` is the
encoded value for `m < nlm ion` and zero for `nlm ion ≤ m < nlmmax`. -/
theorem encode_decode_roundtrip (x : PlocarData)
    (hprec : x.precision = 8 ∨ x.precision = 4)
    (hnion : 0 < x.nion) (hns : 0 < x.ns) (hnk : 0 < x.nk) (hnb : 0 < x.nb)
    (hnlmmax : 0 < x.nlmmax)
    (hfit : x.nion * x.ns * x.nk * x.nb * x.nlmmax < 2 ^ 31)
    (hnc : -(2 ^ 31) ≤ x.nc_flag ∧ x.nc_flag < 2 ^ 31)
    (hnlm : ∀ ion : Nat, (ion : Int) < x.nion →
      0 ≤ x.nlm ion ∧ x.nlm ion ≤ x.nlmmax ∧ x.nlm ion ≤ 50)
    (hw : ∀ ion is ik ib, x.weight ion is ik ib < 256 ^ wsize (params_of x))
    (hv : ∀ ion is ik ib m, (x.value ion is ik ib m).1 < 256 ^ wsize (params_of x) ∧
      (x.value ion is ik ib m).2 < 256 ^ wsize (params_of x)) :
    ∃ plo ferw fr,
      io_read_plocar (host_of (encode_plocar x))
        = .returned (some (create_par_dictionary (params_of x), plo, ferw)) fr ∧
      fr.fh.pos = (encode_plocar x).length ∧
      (∀ b, double_val (decoded_of x b) = encoded_val x b) ∧
      ∀ ion is ik ib : Nat, (ion : Int) < x.nion → (is : Int) < x.ns → (ik : Int) < x.nk →
        (ib : Int) < x.nb →
        ferw.data[PyArray_GetPtr ferw [ion, is, ik, ib]]?
          = some (decoded_of x (x.weight ion is ik ib)) ∧
        ∀ m : Nat, (m : Int) < x.nlmmax →
          plo.data[PyArray_GetPtr plo [ion, is, ik, ib, m]]?
            = some (if (m : Int) < x.nlm ion then
                (decoded_of x (x.value ion is ik ib m).1, decoded_of x (x.value ion is ik ib m).2)
              else (0, 0)) := by
  obtain ⟨f1, f2, f3, b1, b2, b3, b4, b5⟩ :=
    pos_products x.nion x.ns x.nk x.nb x.nlmmax hnion hns hnk hnb hnlmmax _ hfit
  have hp0 : -(2 ^ 31) ≤ x.precision ∧ x.precision < 2 ^ 31 := by
    rcases hprec with h | h <;> rw [h] <;> decide
  obtain ⟨hf0, hpar⟩ := hdr_params_encode x hp0 ⟨by omega, b1⟩ ⟨by omega, b2⟩ ⟨by omega, b3⟩
    ⟨by omega, b4⟩ ⟨by omega, b5⟩ hnc
  have hlen : 28 ≤ (encode_plocar x).length := by rw [encode_plocar_length]; omega
  have hrun := io_read_plocar_params (host_of (encode_plocar x)) (encode_plocar x) rfl hlen
    (by rw [hf0]; exact hprec)
  rw [hpar] at hrun
  have e1 : (params_of x).nion = x.nion := rfl
  have e2 : (params_of x).ns = x.ns := rfl
  have e3 : (params_of x).nk = x.nk := rfl
  have e4 : (params_of x).nb = x.nb := rfl
  have e5 : (params_of x).nlmmax = x.nlmmax := rfl
  have hc5 := create_plo_array_of (params_of x) (by rw [e1]; omega) (by rw [e2]; omega)
    (by rw [e3]; omega) (by rw [e4]; omega) (by rw [e5]; omega) f1 f2 f3 hfit
    (npy_nbytes_pos5 _ _ _ _ _ (by rw [e1]; omega) (by rw [e2]; omega) (by rw [e3]; omega)
      (by rw [e4]; omega) (by rw [e5]; omega) hfit)
  have hc4 := create_ferw_array_of (params_of x) (by rw [e1]; omega) (by rw [e2]; omega)
    (by rw [e3]; omega) (by rw [e4]; omega) f1 f2 f3
    (npy_nbytes_pos4 _ _ _ _ (by rw [e1]; omega) (by rw [e2]; omega) (by rw [e3]; omega)
      (by rw [e4]; omega) f3)
  have hr32 : ∀ j, j < x.nion.toNat → -(2 ^ 31) ≤ x.nlm j ∧ x.nlm j < 2 ^ 31 := by
    intro j hj
    have := hnlm j (by omega)
    omega
  have hstart := enc_ion_start x hprec hr32
  have hnlmat := enc_ion_nlm x hprec hr32
  have hk : ∀ j, j < x.nion.toNat →
      ion_nlm (params_of x) (encode_plocar x) 28 j = (x.nlm j).toNat := by
    intro j hj
    unfold ion_nlm
    rw [hnlmat j hj]
  obtain ⟨t, ht, hinv⟩ := read_arrays_succeeds (params_of x) (encode_plocar x) 28
    ⟨⟨encode_plocar x, 28, false⟩,
      ⟨[(params_of x).nion.toNat, (params_of x).ns.toNat, (params_of x).nk.toNat,
          (params_of x).nb.toNat, (params_of x).nlmmax.toNat],
        List.replicate ((params_of x).nion.toNat * nrec (params_of x)
          * (params_of x).nlmmax.toNat) (0, 0)⟩,
      ⟨[(params_of x).nion.toNat, (params_of x).ns.toNat, (params_of x).nk.toNat,
          (params_of x).nb.toNat],
        List.replicate ((params_of x).nion.toNat * nrec (params_of x)) 0⟩⟩
    rfl rfl (List.length_replicate _ _) (List.length_replicate _ _) rfl
    (by
      intro i hi
      rw [e1] at hi
      have := hnlm i (by omega)
      rw [hnlmat i hi, hk i hi, e5]
      unfold BUF_LEN
      omega)
    (by rw [e1, hstart _ (Nat.le_refl _), encode_plocar_length])
  have hbody := read_body_of_ok (host_of (encode_plocar x)) (params_of x)
    ⟨encode_plocar x, 28, false⟩ _ _ t (fun _ => rfl) hc5 hc4 ht
  rw [← hrun] at hbody
  refine ⟨t.py_plo, t.py_ferw, _, hbody, ?_, decoded_val x, ?_⟩
  · simp only []
    rw [hinv.fh]
    simp only []
    rw [e1, hstart _ (Nat.le_refl _), encode_plocar_length]
  · intro ion is ik ib hion his hik hib
    have hion' : ion < x.nion.toNat := by omega
    have his' : is < x.ns.toNat := by omega
    have hik' : ik < x.nk.toNat := by omega
    have hib' : ib < x.nb.toNat := by omega
    have hr : (is * x.nk.toNat + ik) * x.nb.toNat + ib < nrec (params_of x) :=
      lin3_lt is ik ib _ _ _ his' hik' hib'
    have hseg := enc_rec_seg x hprec hr32 ion is ik ib hion' his' hik' hib'
    have hd5 : t.py_plo.dims = [x.nion.toNat, x.ns.toNat, x.nk.toNat, x.nb.toNat,
        x.nlmmax.toNat] := hinv.plo_dims
    have hd4 : t.py_ferw.dims = [x.nion.toNat, x.ns.toNat, x.nk.toNat, x.nb.toNat] :=
      hinv.ferw_dims
    refine ⟨?_, ?_⟩
    · rw [getptr4 t.py_ferw _ _ _ _ _ _ _ _ hd4]
      have := hinv.ferw_new ion _ hion' hr
      rw [weight_at_enc x hprec _ _ ion is ik ib hseg (hw ion is ik ib)] at this
      exact this
    · intro m hm
      have hm' : m < x.nlmmax.toNat := by omega
      rw [getptr5m t.py_plo _ _ _ _ _ _ _ _ _ _ hd5]
      by_cases hmk : (m : Int) < x.nlm ion
      · rw [if_pos hmk]
        have hmk' : m < (x.nlm ion).toNat := by omega
        have := hinv.plo_new ion _ m hion' hr (by rw [hk ion hion']; exact hmk') hm'
        rw [value_at_enc x hprec _ _ ion is ik ib m hseg hmk' (hv ion is ik ib m)] at this
        exact this
      · rw [if_neg hmk]
        have hall : ∀ j, j < (params_of x).nion.toNat →
            ion_nlm (params_of x) (encode_plocar x) 28 j ≤ (params_of x).nlmmax.toNat := by
          intro j hj
          rw [e1] at hj
          have := hnlm j (by omega)
          rw [hk j hj, e5]
          omega
        have hpad := hinv.plo_pad hall ion _ m hion' hr
          (by rw [hk ion hion']; have := hnlm ion hion; omega) hm'
        have hq : (ion * nrec (params_of x) + ((is * x.nk.toNat + ik) * x.nb.toNat + ib))
            * x.nlmmax.toNat + m < x.nion.toNat * nrec (params_of x) * x.nlmmax.toNat :=
          lin_lt _ _ _ m (lin_lt ion _ _ _ hion' hr) hm'
        refine Eq.trans hpad ?_
        simp only []
        rw [List.getElem?_replicate]
        exact if_pos hq

set_option maxRecDepth 100000 in
theorem encode_decode_roundtrip_witness :
    ∃ plo ferw fr,
      io_read_plocar (host_of (encode_plocar scenario))
        = .returned (some (create_par_dictionary (params_of scenario), plo, ferw)) fr ∧
      fr.fh.pos = (encode_plocar scenario).length ∧
      ferw.data[PyArray_GetPtr ferw [0, 0, 0, 0]]? = some 0x3FE0000000000000 ∧
      plo.data[PyArray_GetPtr plo [0, 0, 0, 0, 0]]?
        = some (0x3FF0000000000000, 0x4000000000000000) ∧
      plo.data[PyArray_GetPtr plo [0, 0, 0, 0, 1]]?
        = some (0x4008000000000000, 0xBFF0000000000000) ∧
      plo.data[PyArray_GetPtr plo [0, 0, 0, 0, 2]]? = some (0, 0) := by
  obtain ⟨plo, ferw, fr, h1, h2, _, h4⟩ := encode_decode_roundtrip scenario (Or.inl rfl)
    (by decide) (by decide) (by decide) (by decide) (by decide) (by decide) (by decide)
    (fun ion _ => by simp [scenario])
    (fun ion is ik ib => by
      show (0x3FE0000000000000 : Nat) < 256 ^ 8
      norm_num)
    (fun ion is ik ib m => by
      show (scenario.value ion is ik ib m).1 < 256 ^ 8 ∧ (scenario.value ion is ik ib m).2 < 256 ^ 8
      by_cases hm : m = 0
      · simp only [scenario, hm, if_true]; norm_num
      · simp only [scenario, hm, if_false]; norm_num)
  obtain ⟨a1, a2⟩ := h4 0 0 0 0 (by decide) (by decide) (by decide) (by decide)
  refine ⟨plo, ferw, fr, h1, h2, a1, ?_, ?_, ?_⟩
  · exact a2 0 (by decide)
  · exact a2 1 (by decide)
  · exact a2 2 (by decide)

/-- The claim C1 as it is written fails: `overflow_data` has precision 8, positive
dimensions and `nlm = nlmmax = 1`, and on its encoding the element count `nion*ns`
overflows an `int`, so the run leaves defined behaviour instead of returning the tuple. -/
theorem roundtrip_overflow :
    overflow_data.precision = 8 ∧ 0 < overflow_data.nion ∧ 0 < overflow_data.ns ∧
    0 < overflow_data.nk ∧ 0 < overflow_data.nb ∧ 0 < overflow_data.nlmmax ∧
    overflow_data.nlm 0 = 1 ∧
    io_read_plocar (host_of (encode_plocar overflow_data)) = .undefined := by
  refine ⟨rfl, by decide, by decide, by decide, by decide, by decide, rfl, ?_⟩
  obtain ⟨hf0, hpar⟩ := hdr_params_encode overflow_data (by decide) (by decide) (by decide)
    (by decide) (by decide) (by decide) (by decide)
  have hlen : 28 ≤ (encode_plocar overflow_data).length := by
    rw [encode_plocar_length]; omega
  rw [io_read_plocar_params (host_of (encode_plocar overflow_data)) _ rfl hlen
    (by rw [hf0]; exact Or.inl rfl), hpar]
  have hc : create_plo_array (params_of overflow_data) = none := by decide
  unfold read_body
  rw [hc]

/-! ## The `nlm` of an ion is trusted -/

theorem read_body_opened (h : Host) (p : t_params) (fh : FILE) :
    read_body h p fh = .undefined ∨ ∃ ret fr, read_body h p fh = .returned ret fr := by
  unfold read_body
  cases create_plo_array p with
  | none => exact Or.inl rfl
  | some plo0 =>
    cases create_ferw_array p with
    | none => exact Or.inl rfl
    | some ferw0 =>
      simp only []
      cases read_arrays p ⟨fh, plo0, ferw0⟩ with
      | undefined => exact Or.inl rfl
      | error e =>
        simp only [label_ioerror, label_error]
        split <;> exact Or.inr ⟨_, _, rfl⟩
      | ok s =>
        simp only [label_error]
        split
        · exact Or.inr ⟨_, _, rfl⟩
        · split
          · exact Or.inr ⟨_, _, rfl⟩
          · split <;> exact Or.inr ⟨_, _, rfl⟩

/-- Once the file is open, a call ends in a `return` or leaves defined behaviour. -/
theorem io_read_plocar_opened (h : Host) (d : List Byte) (hf : h.file = some d) :
    io_read_plocar h = .undefined ∨ ∃ ret fr, io_read_plocar h = .returned ret fr := by
  by_cases hlen : d.length < 28
  · exact Or.inr ⟨_, _, io_read_plocar_short h d hf hlen⟩
  · rw [io_read_plocar_header h d hf (by omega)]
    split
    · exact read_body_opened _ _ _
    · split
      · exact read_body_opened _ _ _
      · exact Or.inr ⟨_, _, rfl⟩

/-- The claim C6 as it is written fails: in `spill_data` the first ion has
`nlm = 2 > nlmmax = 1`, and the call returns the tuple; the second value of that ion lies
in `Plo[1,0,0,0,0]`. -/
theorem nlm_above_nlmmax_accepted :
    hdr_field (encode_plocar spill_data) 5 = 1 ∧
    nlm_at (encode_plocar spill_data)
        (ion_start (hdr_params (encode_plocar spill_data)) (encode_plocar spill_data) 28 0) = 2 ∧
    io_read_plocar (host_of (encode_plocar spill_data))
      = .returned (some spill_out) (frame_ok (encode_plocar spill_data) 84 spill_out) ∧
    spill_out.2.1.data[PyArray_GetPtr spill_out.2.1 [1, 0, 0, 0, 0]]?
      = some (spill_data.value 0 0 0 0 1) := by
  refine ⟨by decide, by decide, spill_run, by decide⟩

/-! ## Dimensions are trusted -/

theorem read_arrays_zero (p : t_params) (s : Arrays) (h : p.nion = 0) :
    read_arrays p s = .ok s := by
  unfold read_arrays for_loop
  rw [h]
  rfl

/-- The claim C7 as it is written fails: the header of `zero_ion_data` has `nion = 0`,
and the call neither rejects it nor raises an error; it returns the tuple with two empty
arrays. -/
theorem zero_nion_returns_tuple :
    hdr_field (encode_plocar zero_ion_data) 0 = 8 ∧
    hdr_field (encode_plocar zero_ion_data) 1 = 0 ∧
    io_read_plocar (host_of (encode_plocar zero_ion_data))
      = .returned (some ([("nion", 0), ("ns", 1), ("nk", 1), ("nb", 1), ("nc_flag", 0)],
          ⟨[0, 1, 1, 1, 1], []⟩, ⟨[0, 1, 1, 1], []⟩))
        (frame_ok (encode_plocar zero_ion_data) 28
          ([("nion", 0), ("ns", 1), ("nk", 1), ("nb", 1), ("nc_flag", 0)],
            ⟨[0, 1, 1, 1, 1], []⟩, ⟨[0, 1, 1, 1], []⟩)) :=
  ⟨by decide, by decide, zero_ion_run⟩

/-! ## The file handle -/

/-- Claim C11, amended. For every header with positive `nion, ns, nk, nb, nlmmax` whose
product `nion*ns*nk*nb*nlmmax` fits a 32-bit `int`, `create_plo_array` returns an array of
shape `[nion, ns, nk, nb, nlmmax]` with exactly `nion*ns*nk*nb*nlmmax` elements and
`create_ferw_array` one of shape `[nion, ns, nk, nb]` with exactly `nion*ns*nk*nb`
elements, the counts being the products over the integers, every element of both is zero,
and these are the arrays that `read_arrays` starts from. -/
theorem arrays_allocated_zero (p : t_params) (h1 : 0 < p.nion) (h2 : 0 < p.ns) (h3 : 0 < p.nk)
    (h4 : 0 < p.nb) (h5 : 0 < p.nlmmax)
    (hfit : p.nion * p.ns * p.nk * p.nb * p.nlmmax < 2 ^ 31) :
    ∃ plo ferw, create_plo_array p = some plo ∧ create_ferw_array p = some ferw ∧
      plo.dims = [p.nion.toNat, p.ns.toNat, p.nk.toNat, p.nb.toNat, p.nlmmax.toNat] ∧
      (plo.data.length : Int) = p.nion * p.ns * p.nk * p.nb * p.nlmmax ∧
      (∀ q, q < plo.data.length → plo.data[q]? = some (0, 0)) ∧
      ferw.dims = [p.nion.toNat, p.ns.toNat, p.nk.toNat, p.nb.toNat] ∧
      (ferw.data.length : Int) = p.nion * p.ns * p.nk * p.nb ∧
      (∀ q, q < ferw.data.length → ferw.data[q]? = some 0) ∧
      ∀ (h : Host) (fh : FILE) (s : Arrays), (∀ i, h.setitem_fails i = false) →
        read_arrays p ⟨fh, plo, ferw⟩ = .ok s →
        read_body h p fh = .returned (some (create_par_dictionary p, s.py_plo, s.py_ferw))
          ⟨s.fh, some (create_par_dictionary p), some s.py_plo, some s.py_ferw, none, 1⟩ := by
  obtain ⟨f1, f2, f3, _⟩ := pos_products _ _ _ _ _ h1 h2 h3 h4 h5 _ hfit
  have e1 := create_plo_array_of p (by omega) (by omega) (by omega) (by omega) (by omega)
    f1 f2 f3 hfit (npy_nbytes_pos5 _ _ _ _ _ h1 h2 h3 h4 h5 hfit)
  have e2 := create_ferw_array_of p (by omega) (by omega) (by omega) (by omega) f1 f2 f3
    (npy_nbytes_pos4 _ _ _ _ h1 h2 h3 h4 f3)
  have n1 : ((p.nion.toNat : Nat) : Int) = p.nion := Int.toNat_of_nonneg (by omega)
  have n2 : ((p.ns.toNat : Nat) : Int) = p.ns := Int.toNat_of_nonneg (by omega)
  have n3 : ((p.nk.toNat : Nat) : Int) = p.nk := Int.toNat_of_nonneg (by omega)
  have n4 : ((p.nb.toNat : Nat) : Int) = p.nb := Int.toNat_of_nonneg (by omega)
  have n5 : ((p.nlmmax.toNat : Nat) : Int) = p.nlmmax := Int.toNat_of_nonneg (by omega)
  refine ⟨_, _, e1, e2, rfl, ?_, ?_, rfl, ?_, ?_, ?_⟩
  · simp only [List.length_replicate, nrec]
    push_cast
    rw [n1, n2, n3, n4, n5]
    ring
  · intro q hq
    simp only [List.length_replicate] at hq
    rw [List.getElem?_replicate, if_pos hq]
  · simp only [List.length_replicate, nrec]
    push_cast
    rw [n1, n2, n3, n4]
    ring
  · intro q hq
    simp only [List.length_replicate] at hq
    rw [List.getElem?_replicate, if_pos hq]
  · intro h fh s hset hs
    exact read_body_of_ok h p fh _ _ s hset e1 e2 hs

/-- The claim C11, amended, at the header of the scenario of the specification. -/
theorem arrays_allocated_zero_witness :
    (0 : Int) < 1 ∧ (0 : Int) < 3 ∧ (1 : Int) * 1 * 1 * 1 * 3 < 2 ^ 31 ∧
    ∃ plo ferw, create_plo_array ⟨1, 1, 1, 1, 3, 0, 1⟩ = some plo ∧
      create_ferw_array ⟨1, 1, 1, 1, 3, 0, 1⟩ = some ferw ∧
      plo.dims = [1, 1, 1, 1, 3] ∧ (plo.data.length : Int) = 1 * 1 * 1 * 1 * 3 ∧
      (∀ q, q < plo.data.length → plo.data[q]? = some (0, 0)) ∧
      ferw.dims = [1, 1, 1, 1] ∧ (ferw.data.length : Int) = 1 * 1 * 1 * 1 ∧
      (∀ q, q < ferw.data.length → ferw.data[q]? = some 0) ∧
      ∀ (h : Host) (fh : FILE) (s : Arrays), (∀ i, h.setitem_fails i = false) →
        read_arrays ⟨1, 1, 1, 1, 3, 0, 1⟩ ⟨fh, plo, ferw⟩ = .ok s →
        read_body h ⟨1, 1, 1, 1, 3, 0, 1⟩ fh
          = .returned (some (create_par_dictionary ⟨1, 1, 1, 1, 3, 0, 1⟩, s.py_plo, s.py_ferw))
            ⟨s.fh, some (create_par_dictionary ⟨1, 1, 1, 1, 3, 0, 1⟩), some s.py_plo,
              some s.py_ferw, none, 1⟩ :=
  ⟨by decide, by decide, by norm_num,
    arrays_allocated_zero ⟨1, 1, 1, 1, 3, 0, 1⟩ (by decide) (by decide) (by decide) (by decide)
      (by decide) (by norm_num)⟩

/-- The claim C11 as it is written fails: the header `(8, 65536, 65536, 1, 1, 1, 0)` passes
the only check there is, the one of the precision, and has positive dimensions, but the
`int` product `nion*ns` overflows, so neither allocator returns an array whose count is the
product `2^32`. -/
theorem allocator_overflow :
    hdr_field (encode_plocar overflow_data) 0 = 8 ∧
    hdr_params (encode_plocar overflow_data) = ⟨65536, 65536, 1, 1, 1, 0, 1⟩ ∧
    create_plo_array ⟨65536, 65536, 1, 1, 1, 0, 1⟩ = none ∧
    create_ferw_array ⟨65536, 65536, 1, 1, 1, 0, 1⟩ = none := by
  obtain ⟨hf0, hpar⟩ := hdr_params_encode overflow_data (by decide) (by decide) (by decide)
    (by decide) (by decide) (by decide) (by decide)
  refine ⟨hf0, ?_, by decide, by decide⟩
  rw [hpar]
  rfl

/-! ## The record buffers -/

set_option maxRecDepth 1000000 in
/-- Claim C13, the code at the failing input: the header announces `nlmmax = 51`, the ion
has `nlm = 51`, and the file holds the 51 values in full, but `dbuf` has room for
`BUF_LEN = 50`, so the `fread` of the values writes past its end. -/
theorem record_buffer_overrun :
    nlm51_data.nlm 0 = 51 ∧ nlm51_data.nlmmax = 51 ∧ BUF_LEN = 50 ∧
    (encode_plocar nlm51_data).length = 856 ∧
    io_read_plocar (host_of (encode_plocar nlm51_data)) = .undefined := by
  decide

set_option maxRecDepth 1000000 in
/-- Claim C17, the code at the failing input: the precision is 8, the dimensions are
positive, the `nlm` of the ion is `-1` and 801 bytes follow the weight of its record; the
`fread` that asks for `(size_t)-1` items stores all of them in `dbuf`, which holds 800
bytes, so the call leaves defined behaviour instead of returning `NULL`. -/
theorem negative_nlm_overrun :
    hdr_field neg_nlm_long_file 0 = 8 ∧
    hdr_params neg_nlm_long_file = ⟨1, 1, 1, 1, 3, 0, 1⟩ ∧
    nlm_at neg_nlm_long_file 28 = -1 ∧ neg_nlm_long_file.length = 841 ∧
    io_read_plocar (host_of neg_nlm_long_file) = .undefined := by
  decide

/-! ## Bytes after the last record -/

theorem for_from_ext {σ : Type} (body : Nat → σ → Res σ) (I : σ → Prop) (rt : σ → σ)
    (hstep : ∀ j s t, I s → body j s = .ok t → I t ∧ body j (rt s) = .ok (rt t)) :
    ∀ (n i : Nat) (s t : σ), I s → for_from body i n s = .ok t →
      I t ∧ for_from body i n (rt s) = .ok (rt t) := by
  intro n
  induction n with
  | zero =>
    intro i s t hI h
    simp only [for_from, Res.ok.injEq] at h
    subst h
    exact ⟨hI, rfl⟩
  | succ n ih =>
    intro i s t hI h
    unfold for_from at h
    cases hb : body i s with
    | ok u =>
      rw [hb] at h
      simp only at h
      obtain ⟨hIu, hok⟩ := hstep i s u hI hb
      obtain ⟨hIt, hok'⟩ := ih (i + 1) u t hIu h
      refine ⟨hIt, ?_⟩
      unfold for_from
      rw [hok]
      exact hok'
    | error e => rw [hb] at h; simp at h
    | undefined => rw [hb] at h; simp at h

theorem ext_for_from (d tl : List Byte) (body : Nat → Arrays → Res Arrays)
    (h : ∀ j, ExtStep d tl (body j)) (n i : Nat) : ExtStep d tl (for_from body i n) := by
  intro s t hI hok
  exact for_from_ext body (fun s => s.fh.data = d ∧ s.fh.eof = false ∧ s.fh.pos ≤ d.length)
    (ext_state tl) (fun j s t hI hb => h j s t hI hb) n i s t hI hok

theorem take_append_self (d tl : List Byte) : (d ++ tl).take d.length = d := by
  simp

theorem weight_at_append (p : t_params) (d tl : List Byte) (pos : Nat)
    (h : pos + wsize p ≤ d.length) : weight_at p (d ++ tl) pos = weight_at p d pos := by
  have := weight_at_take p (d ++ tl) d.length pos h
  rw [take_append_self] at this
  exact this.symm

theorem value_at_append (p : t_params) (d tl : List Byte) (pos k m : Nat) (hm : m < k)
    (h : pos + rec_size p k ≤ d.length) : value_at p (d ++ tl) pos m = value_at p d pos m := by
  have := value_at_take p (d ++ tl) d.length pos k m hm h
  rw [take_append_self] at this
  exact this.symm

theorem nlm_at_append (d tl : List Byte) (pos : Nat) (h : pos + 4 ≤ d.length) :
    nlm_at (d ++ tl) pos = nlm_at d pos := by
  have := nlm_at_take (d ++ tl) d.length pos h
  rw [take_append_self] at this
  exact this.symm

theorem hdr_field_append (d tl : List Byte) (k : Nat) (hd : 28 ≤ d.length) (hk : k < 7) :
    hdr_field (d ++ tl) k = hdr_field d k := by
  have := hdr_field_take (d ++ tl) d.length k hd hk
  rw [take_append_self] at this
  exact this.symm

theorem hdr_params_append (d tl : List Byte) (hd : 28 ≤ d.length) :
    hdr_params (d ++ tl) = hdr_params d := by
  have := hdr_params_take (d ++ tl) d.length hd
  rw [take_append_self] at this
  exact this.symm

theorem ext_read_record (p : t_params) (d tl : List Byte)
    (nlm : Int) (hr1 : -(2 ^ 31) ≤ nlm) (hr2 : nlm < 2 ^ 31) (ion is ik ib : Nat) :
    ExtStep d tl (read_record p nlm ion is ik ib) := by
  intro s t hI hok
  obtain ⟨hdat, heof, hpos⟩ := hI
  have hfh : s.fh = ⟨d, s.fh.pos, false⟩ := by
    rw [← hdat, ← heof]
  obtain ⟨k, hk, hk50, hlen⟩ := read_record_ok_bounds p nlm ion is ik ib s t d _ false hfh hpos
    hr1 hr2 hok
  rw [read_record_full p nlm ion is ik ib s d _ false k hfh hk hk50 hlen] at hok
  obtain ⟨b1, _, _, _, _, _⟩ := record_store_ok _ _ _ _ _ _ _ _ _ _ _ hok
  have hle : (d ++ tl).length = d.length + tl.length := List.length_append _ _
  have hcfh : (ext_state tl s).fh = ⟨d ++ tl, s.fh.pos, false⟩ := by
    simp only [ext_state, hdat, heof]
  refine ⟨by rw [b1]; exact ⟨rfl, rfl, hlen⟩, ?_⟩
  rw [read_record_full p nlm ion is ik ib (ext_state tl s) (d ++ tl) _ false k hcfh hk hk50
    (by rw [hle]; omega)]
  rw [weight_at_append p d tl _ (Nat.le_trans (Nat.add_le_add_left (wsize_le_rec_size p k) _) hlen)]
  have := record_store_transfer p ion is ik ib k _ (value_at p d s.fh.pos)
    (value_at p (d ++ tl) s.fh.pos) _ ⟨d ++ tl, s.fh.pos + rec_size p k, false⟩ s
    (ext_state tl s) t rfl rfl (fun m hm => value_at_append p d tl _ k m hm hlen) hok
  rw [this]
  simp only [ext_state, b1]

theorem ext_read_ion (p : t_params) (d tl : List Byte) (ion : Nat) :
    ExtStep d tl (read_ion p ion) := by
  intro s t hI hok
  obtain ⟨hdat, heof, hpos⟩ := hI
  have hfh : s.fh = ⟨d, s.fh.pos, false⟩ := by
    rw [← hdat, ← heof]
  have hle : (d ++ tl).length = d.length + tl.length := List.length_append _ _
  have hcfh : (ext_state tl s).fh = ⟨d ++ tl, s.fh.pos, false⟩ := by
    simp only [ext_state, hdat, heof]
  by_cases hshort : d.length < s.fh.pos + 4
  · rw [read_ion_short p ion s d _ false hfh hpos hshort] at hok
    simp at hok
  · rw [read_ion_ok_eq p ion s d _ false hfh (by omega)] at hok
    have hr := to_int32_range (le_nat ((d.drop s.fh.pos).take 4))
    have hloops : ExtStep d tl (for_from (fun is => for_from (fun ik => for_from
        (fun ib => read_record p (nlm_at d s.fh.pos) ion is ik ib) 0 p.nb.toNat) 0 p.nk.toNat)
        0 p.ns.toNat) :=
      ext_for_from d tl _ (fun is => ext_for_from d tl _ (fun ik => ext_for_from d tl _
        (fun ib => ext_read_record p d tl _ hr.1 hr.2 ion is ik ib) _ _) _ _) _ _
    obtain ⟨a1, a2⟩ := hloops ⟨⟨d, s.fh.pos + 4, false⟩, s.py_plo, s.py_ferw⟩ t
      ⟨rfl, rfl, by simp only []; omega⟩ hok
    have hcs : ext_state tl ⟨⟨d, s.fh.pos + 4, false⟩, s.py_plo, s.py_ferw⟩
        = ⟨⟨d ++ tl, s.fh.pos + 4, false⟩, (ext_state tl s).py_plo, (ext_state tl s).py_ferw⟩ := rfl
    refine ⟨a1, ?_⟩
    rw [read_ion_ok_eq p ion (ext_state tl s) (d ++ tl) _ false hcfh (by rw [hle]; omega),
      nlm_at_append d tl _ (by omega), ← hcs]
    exact a2

theorem ext_read_arrays (p : t_params) (d tl : List Byte) : ExtStep d tl (read_arrays p) := by
  unfold read_arrays for_loop
  exact ext_for_from d tl _ (fun ion => ext_read_ion p d tl ion) _ _

theorem read_body_ext (h : Host) (p : t_params) (fh fh1 : FILE)
    (ret : PyDict × PloArray × FerwArray) (fr : Frame) (plo0 : PloArray) (ferw0 : FerwArray)
    (s s1 : Arrays) (hok : read_body h p fh = .returned (some ret) fr)
    (h1 : create_plo_array p = some plo0) (h2 : create_ferw_array p = some ferw0)
    (h3 : read_arrays p ⟨fh, plo0, ferw0⟩ = .ok s)
    (h4 : read_arrays p ⟨fh1, plo0, ferw0⟩ = .ok s1)
    (e1 : s1.py_plo = s.py_plo) (e2 : s1.py_ferw = s.py_ferw) :
    read_body h p fh1 = .returned (some ret)
      ⟨s1.fh, some (create_par_dictionary p), some s.py_plo, some s.py_ferw, none, 1⟩ := by
  unfold read_body at hok ⊢
  rw [h1, h2] at hok ⊢
  simp only [h3, label_error] at hok
  simp only [h4, label_error]
  by_cases c0 : h.setitem_fails 0 = true
  · rw [if_pos c0] at hok; simp at hok
  rw [if_neg c0] at hok ⊢
  by_cases c1 : h.setitem_fails 1 = true
  · rw [if_pos c1] at hok; simp at hok
  rw [if_neg c1] at hok ⊢
  by_cases c2 : h.setitem_fails 2 = true
  · rw [if_pos c2] at hok; simp at hok
  rw [if_neg c2] at hok ⊢
  simp only [Outcome.returned.injEq, Option.some.injEq] at hok
  rw [← hok.1, e1, e2]

theorem int_sum_ion (p : t_params) (d : List Byte) (b0 n : Nat) (w : Int)
    (hw : (wsize p : Int) = w) (h2 : 0 ≤ p.ns) (h3 : 0 ≤ p.nk) (h4 : 0 ≤ p.nb)
    (hnlm : ∀ j, j < n → 0 < nrec p → 0 ≤ nlm_at d (ion_start p d b0 j)) :
    ((ion_start p d b0 n : Nat) : Int)
      = b0 + ∑ j in Finset.range n,
          (4 + p.ns * p.nk * p.nb * (w + 2 * w * nlm_at d (ion_start p d b0 j))) := by
  have n2 : ((p.ns.toNat : Nat) : Int) = p.ns := Int.toNat_of_nonneg h2
  have n3 : ((p.nk.toNat : Nat) : Int) = p.nk := Int.toNat_of_nonneg h3
  have n4 : ((p.nb.toNat : Nat) : Int) = p.nb := Int.toNat_of_nonneg h4
  have hN : ((nrec p : Nat) : Int) = p.ns * p.nk * p.nb := by
    unfold nrec; push_cast; rw [n2, n3, n4]
  induction n with
  | zero => simp [ion_start]
  | succ n ih =>
    rw [Finset.sum_range_succ, ← add_assoc, ← ih (fun j hj => hnlm j (by omega))]
    simp only [ion_start]
    push_cast
    rw [hN]
    unfold rec_size
    push_cast
    rw [hw]
    by_cases hz : nrec p = 0
    · have : p.ns * p.nk * p.nb = 0 := by rw [← hN, hz]; rfl
      rw [this]; simp
    · have := hnlm n (by omega) (by omega)
      rw [Int.toNat_of_nonneg this]
      ring

/-- Claim C16. Bytes after the last record are ignored: whenever the call on the file `b`
returns the tuple, the call on `b` followed by any bytes `tl` returns the same tuple (the
same dictionary, the same `Plo` and the same `Ferw`) with the stream at the same offset,
and the number of bytes consumed is `28` plus, for every ion, `4 + ns*nk*nb*(w + 2*w*nlm)`,
where `nlm` is the one read for the ion and `w` is 8 at precision 8 and 4 at precision
4. -/
theorem trailing_bytes_ignored (h : Host) (b tl : List Byte) (pd : PyDict) (plo : PloArray)
    (ferw : FerwArray) (fr : Frame) (hf : h.file = some b)
    (hok : io_read_plocar h = .returned (some (pd, plo, ferw)) fr) :
    io_read_plocar ⟨some (b ++ tl), h.setitem_fails⟩
      = .returned (some (pd, plo, ferw))
          ⟨⟨b ++ tl, fr.fh.pos, false⟩, some pd, some plo, some ferw, none, 1⟩ ∧
    (hdr_field b 0 = 8 ∨ hdr_field b 0 = 4) ∧
    (fr.fh.pos : Int) = 28 + ∑ ion in Finset.range (hdr_field b 1).toNat,
      (4 + hdr_field b 2 * hdr_field b 3 * hdr_field b 4
        * ((if hdr_field b 0 = 8 then 8 else 4)
          + 2 * (if hdr_field b 0 = 8 then 8 else 4)
            * nlm_at b (ion_start (hdr_params b) b 28 ion))) := by
  obtain ⟨hlen, hprec⟩ := io_read_plocar_some_len h b _ fr hf hok
  obtain ⟨plo0, ferw0, s, c1, c2, c3, c4, c5⟩ := io_read_plocar_ok h b _ fr hf hok
  obtain ⟨sI, s', _, c4', hfr, hinv⟩ := io_read_plocar_inv h b _ fr hf hok
  obtain ⟨⟨_, g2, g3, g4, _⟩, _, _⟩ := create_plo_array_some _ _ c1
  have hpos : fr.fh.pos = ion_start (hdr_params b) b 28 (hdr_params b).nion.toNat := by
    rw [hfr, hinv.fh]
  refine ⟨?_, hprec, ?_⟩
  · obtain ⟨a1, a2⟩ := ext_read_arrays (hdr_params b) b tl ⟨⟨b, 28, false⟩, plo0, ferw0⟩ s
      ⟨rfl, rfl, hlen⟩ c3
    have hle : (b ++ tl).length = b.length + tl.length := List.length_append _ _
    have hb := io_read_plocar_params h b hf hlen hprec
    rw [hb] at hok
    rw [io_read_plocar_params ⟨some (b ++ tl), h.setitem_fails⟩ (b ++ tl) rfl
      (by rw [hle]; omega) (by rw [hdr_field_append b tl 0 hlen (by omega)]; exact hprec),
      hdr_params_append b tl hlen]
    have hx := read_body_ext ⟨some (b ++ tl), h.setitem_fails⟩ (hdr_params b) ⟨b, 28, false⟩
      ⟨b ++ tl, 28, false⟩ (pd, plo, ferw) fr plo0 ferw0 s (ext_state tl s)
      (by
        unfold read_body at hok ⊢
        exact hok) c1 c2 c3 a2 rfl rfl
    rw [hx]
    simp only [Prod.mk.injEq] at c4
    have e5 : fr.fh = s.fh := by rw [c5]
    rw [c4.1, c4.2.1, c4.2.2, e5]
    simp only [ext_state, a1.1, a1.2.1]
  · rw [hpos]
    have hw : ((wsize (hdr_params b) : Nat) : Int) = if hdr_field b 0 = 8 then 8 else 4 := by
      unfold wsize hdr_params
      by_cases h8 : hdr_field b 0 = 8
      · simp [h8]
      · simp [h8]
    exact int_sum_ion (hdr_params b) b 28 _ _ hw g2 g3 g4
      (fun j hj hN => (hinv.nlm_ok j hj hN).1)

/-! ## What a record writes -/

/-- A record that is stored writes its weight and its `nlm` values and nothing else. -/
theorem read_record_frame (p : t_params) (nlm : Int) (ion is ik ib : Nat) (s t : Arrays)
    (hpos : s.fh.pos ≤ s.fh.data.length) (hr1 : -(2 ^ 31) ≤ nlm) (hr2 : nlm < 2 ^ 31)
    (hok : read_record p nlm ion is ik ib s = .ok t) :
    ∃ k : Nat, nlm = (k : Int) ∧ k ≤ BUF_LEN ∧
      t.fh = ⟨s.fh.data, s.fh.pos + rec_size p k, s.fh.eof⟩ ∧
      s.fh.pos + rec_size p k ≤ s.fh.data.length ∧
      t.py_plo.dims = s.py_plo.dims ∧ t.py_plo.data.length = s.py_plo.data.length ∧
      t.py_ferw.dims = s.py_ferw.dims ∧ t.py_ferw.data.length = s.py_ferw.data.length ∧
      (∀ q, t.py_ferw.data[q]? = if q = PyArray_GetPtr s.py_ferw [ion, is, ik, ib]
        then some (weight_at p s.fh.data s.fh.pos) else s.py_ferw.data[q]?) ∧
      (∀ q, t.py_plo.data[q]? =
        if PyArray_GetPtr s.py_plo [ion, is, ik, ib, 0] ≤ q ∧
            q < PyArray_GetPtr s.py_plo [ion, is, ik, ib, 0] + k
        then some (value_at p s.fh.data s.fh.pos (q - PyArray_GetPtr s.py_plo [ion, is, ik, ib, 0]))
        else s.py_plo.data[q]?) := by
  obtain ⟨k, hk, hk50, hlen⟩ := read_record_ok_bounds p nlm ion is ik ib s t s.fh.data s.fh.pos
    s.fh.eof rfl hpos hr1 hr2 hok
  rw [read_record_full p nlm ion is ik ib s s.fh.data s.fh.pos s.fh.eof k rfl hk hk50 hlen] at hok
  obtain ⟨b1, b2, _, b4, b5, b6⟩ := record_store_ok _ _ _ _ _ _ _ _ _ _ _ hok
  obtain ⟨_, c2, c3, c4⟩ := store_some _ _ _ _ b2
  exact ⟨k, hk, hk50, b1, hlen, b4, b5, c2, c3, c4, b6⟩

/-- Claim C12. Padding is never written. Take a call that returns the tuple on a file in
which the `nlm` of every ion lies in `0..nlmmax`. Decoding the record `(ion,is,ik,ib)`,
from any state whose `Plo` has the shape of the result, keeps the shapes and changes
nothing but `Ferw[ion,is,ik,ib]` and `Plo[ion,is,ik,ib,m]` for `m < nlm`; and in the
returned `Plo` every `Plo[ion,is,ik,ib,m]` with `nlm <= m < nlmmax` is zero. -/
theorem padding_never_written (h : Host) (d : List Byte) (pd : PyDict) (plo : PloArray)
    (ferw : FerwArray) (fr : Frame) (hf : h.file = some d)
    (hok : io_read_plocar h = .returned (some (pd, plo, ferw)) fr)
    (hall : ∀ ion : Nat, (ion : Int) < hdr_field d 1 →
      0 ≤ nlm_at d (ion_start (hdr_params d) d 28 ion) ∧
      nlm_at d (ion_start (hdr_params d) d 28 ion) ≤ hdr_field d 5) :
    (∀ (ion is ik ib : Nat) (s t : Arrays), (ion : Int) < hdr_field d 1 →
      s.fh.pos ≤ s.fh.data.length → s.py_plo.dims = plo.dims →
      read_record (hdr_params d) (nlm_at d (ion_start (hdr_params d) d 28 ion)) ion is ik ib s
        = .ok t →
      t.py_plo.dims = s.py_plo.dims ∧ t.py_ferw.dims = s.py_ferw.dims ∧
      t.py_plo.data.length = s.py_plo.data.length ∧
      t.py_ferw.data.length = s.py_ferw.data.length ∧
      (∀ q, q ≠ PyArray_GetPtr s.py_ferw [ion, is, ik, ib] →
        t.py_ferw.data[q]? = s.py_ferw.data[q]?) ∧
      (∀ q, (∀ m : Nat, (m : Int) < nlm_at d (ion_start (hdr_params d) d 28 ion) →
          q ≠ PyArray_GetPtr s.py_plo [ion, is, ik, ib, m]) →
        t.py_plo.data[q]? = s.py_plo.data[q]?)) ∧
    (∀ ion is ik ib m : Nat, (ion : Int) < hdr_field d 1 → (is : Int) < hdr_field d 2 →
      (ik : Int) < hdr_field d 3 → (ib : Int) < hdr_field d 4 →
      nlm_at d (ion_start (hdr_params d) d 28 ion) ≤ (m : Int) → (m : Int) < hdr_field d 5 →
      plo.data[PyArray_GetPtr plo [ion, is, ik, ib, m]]? = some (0, 0)) := by
  obtain ⟨sI, s, hsI, hret, _, hinv⟩ := io_read_plocar_inv h d _ fr hf hok
  simp only [Prod.mk.injEq] at hret
  obtain ⟨_, e1, e2⟩ := hret
  subst e1 e2
  have hd5 : s.py_plo.dims = [(hdr_params d).nion.toNat, (hdr_params d).ns.toNat,
      (hdr_params d).nk.toNat, (hdr_params d).nb.toNat, (hdr_params d).nlmmax.toNat] := by
    rw [hinv.plo_dims, hsI]
  have f1 : (hdr_params d).nion = hdr_field d 1 := rfl
  have f2 : (hdr_params d).ns = hdr_field d 2 := rfl
  have f3 : (hdr_params d).nk = hdr_field d 3 := rfl
  have f4 : (hdr_params d).nb = hdr_field d 4 := rfl
  have f5 : (hdr_params d).nlmmax = hdr_field d 5 := rfl
  constructor
  · intro ion is ik ib s0 t hion hpos hdims hrec
    have hr := to_int32_range (le_nat ((d.drop (ion_start (hdr_params d) d 28 ion)).take 4))
    obtain ⟨k, hk, _, _, _, a1, a2, a3, a4, a5, a6⟩ := read_record_frame _ _ ion is ik ib s0 t
      hpos hr.1 hr.2 hrec
    refine ⟨a1, a3, a2, a4, ?_, ?_⟩
    · intro q hq
      rw [a5 q, if_neg hq]
    · intro q hq
      rw [a6 q, if_neg]
      rintro ⟨q1, q2⟩
      have hk' : nlm_at d (ion_start (hdr_params d) d 28 ion) = (k : Int) := hk
      have e0 := getptr5 s0.py_plo _ _ _ _ _ ion is ik ib (hdims.trans hd5)
      have em := getptr5m s0.py_plo _ _ _ _ _ ion is ik ib
        (q - PyArray_GetPtr s0.py_plo [ion, is, ik, ib, 0]) (hdims.trans hd5)
      refine hq (q - PyArray_GetPtr s0.py_plo [ion, is, ik, ib, 0]) ?_ ?_
      · rw [hk']; omega
      · rw [em, ← e0]
        omega
  · intro ion is ik ib m hion his hik hib hm1 hm2
    have hion' : ion < (hdr_params d).nion.toNat := by rw [f1]; omega
    have his' : is < (hdr_params d).ns.toNat := by rw [f2]; omega
    have hik' : ik < (hdr_params d).nk.toNat := by rw [f3]; omega
    have hib' : ib < (hdr_params d).nb.toNat := by rw [f4]; omega
    have hm' : m < (hdr_params d).nlmmax.toNat := by rw [f5]; omega
    have hr : (is * (hdr_params d).nk.toNat + ik) * (hdr_params d).nb.toNat + ib
        < nrec (hdr_params d) := lin3_lt is ik ib _ _ _ his' hik' hib'
    have hallN : ∀ j, j < (hdr_params d).nion.toNat →
        ion_nlm (hdr_params d) d 28 j ≤ (hdr_params d).nlmmax.toNat := by
      intro j hj
      have := hall j (by rw [f1] at hj; omega)
      unfold ion_nlm
      rw [f5]; omega
    rw [getptr5m s.py_plo _ _ _ _ _ _ _ _ _ _ hd5]
    have := hinv.plo_pad hallN ion _ m hion' hr (by unfold ion_nlm; omega) hm'
    unfold nrec at this hr
    rw [this, hsI]
    simp only []
    rw [List.getElem?_replicate, if_pos]
    have h1 := lin_lt ion (hdr_params d).nion.toNat (nrec (hdr_params d)) _ hion' hr
    unfold nrec at h1 ⊢
    exact lin_lt _ _ _ m h1 hm'

/-! ## An ion without values -/

theorem rec_size_zero (p : t_params) : rec_size p 0 = wsize p := by
  unfold rec_size; omega

/-- Claim C18, amended. An ion with `nlm = 0` is decoded as weights only. In either
precision (`w = 8` when `isdouble` is set, `w = 4` otherwise), when `read_ion` is entered
for ion `ion` at offset `pos`, the `int` at `pos` is 0 and at least `ns*nk*nb*w` bytes
follow it, `read_ion` runs through, also when the file ends right after the last weight,
and leaves the stream at `pos + 4 + ns*nk*nb*w`; `Plo` is not written, it is the array it
was when the ion was entered; every `Ferw[ion,is,ik,ib]` holds the weight of its record,
and the other elements of `Ferw` are as they were. -/
theorem zero_nlm_weights_only (p : t_params) (d : List Byte) (ion pos : Nat) (s : Arrays)
    (hfh : s.fh = ⟨d, pos, false⟩)
    (hd5 : s.py_plo.dims = [p.nion.toNat, p.ns.toNat, p.nk.toNat, p.nb.toNat, p.nlmmax.toNat])
    (hd4 : s.py_ferw.dims = [p.nion.toNat, p.ns.toNat, p.nk.toNat, p.nb.toNat])
    (hl5 : s.py_plo.data.length
      = p.nion.toNat * (p.ns.toNat * p.nk.toNat * p.nb.toNat) * p.nlmmax.toNat)
    (hl4 : s.py_ferw.data.length = p.nion.toNat * (p.ns.toNat * p.nk.toNat * p.nb.toNat))
    (hion : ion < p.nion.toNat) (hnlm : nlm_at d pos = 0)
    (hlen : pos + 4 + p.ns.toNat * p.nk.toNat * p.nb.toNat * (if p.isdouble ≠ 0 then 8 else 4)
      ≤ d.length) :
    ∃ t, read_ion p ion s = .ok t ∧
      t.fh = ⟨d, pos + 4
        + p.ns.toNat * p.nk.toNat * p.nb.toNat * (if p.isdouble ≠ 0 then 8 else 4), false⟩ ∧
      t.py_plo = s.py_plo ∧
      t.py_ferw.dims = s.py_ferw.dims ∧ t.py_ferw.data.length = s.py_ferw.data.length ∧
      (∀ is ik ib, is < p.ns.toNat → ik < p.nk.toNat → ib < p.nb.toNat →
        t.py_ferw.data[PyArray_GetPtr t.py_ferw [ion, is, ik, ib]]?
          = some (weight_at p d (pos + 4
              + ((is * p.nk.toNat + ik) * p.nb.toNat + ib)
                * (if p.isdouble ≠ 0 then 8 else 4)))) ∧
      (∀ q, q < ion * (p.ns.toNat * p.nk.toNat * p.nb.toNat) ∨
          (ion + 1) * (p.ns.toNat * p.nk.toNat * p.nb.toNat) ≤ q →
        t.py_ferw.data[q]? = s.py_ferw.data[q]?) := by
  have hw : (if p.isdouble ≠ 0 then 8 else 4) = wsize p := rfl
  have hN : p.ns.toNat * p.nk.toNat * p.nb.toNat = nrec p := rfl
  rw [hw, hN] at hlen ⊢
  rw [hN] at hl5 hl4
  have hs0 : rec_size p (0 : Int).toNat = wsize p := rec_size_zero p
  rw [read_ion_ok_eq p ion s d pos false hfh (by omega), hnlm]
  obtain ⟨t, ht, hinv⟩ := for_from_nest3_ok
    (fun is ik ib => read_record p 0 ion is ik ib)
    (fun r s1 => RecInv p d ion (pos + 4) 0 ⟨⟨d, pos + 4, false⟩, s.py_plo, s.py_ferw⟩ r s1)
    p.ns.toNat p.nk.toNat p.nb.toNat ⟨⟨d, pos + 4, false⟩, s.py_plo, s.py_ferw⟩
    (rec_inv_zero p d ion _ _ _ rfl (by omega))
    (fun is ik ib s1 his hik hib hP => rec_succeeds p d ion _ _ _ is ik ib s1
      hd5 hd4 hl5 hl4 hion his hik hib (Int.le_refl 0) (by unfold BUF_LEN; decide)
      (Nat.zero_le _) (by rw [hs0]; exact hlen) hP)
  rw [hN] at hinv
  obtain ⟨r1, r2, r3, r4, r5, r6, r7, r8, r9, r10, r11, r12⟩ := hinv
  simp only [] at r4 r5 r6 r7 r8 r10 r11 r12
  rw [hs0] at r1 r8
  have hplo : t.py_plo = s.py_plo := by
    have hdata : t.py_plo.data = s.py_plo.data := by
      apply List.ext_getElem?
      intro q
      by_cases h1 : q < ion * nrec p * p.nlmmax.toNat
      · exact r10 q h1
      · by_cases h2 : (ion * nrec p + nrec p) * p.nlmmax.toNat ≤ q
        · exact r12 (Nat.zero_le _) q h2
        · have hM : 0 < p.nlmmax.toNat := by
            rcases Nat.eq_zero_or_pos p.nlmmax.toNat with h0 | h0
            · rw [h0] at h1 h2; simp at h1 h2
            · exact h0
          have hx1 : ion * nrec p ≤ q / p.nlmmax.toNat :=
            (Nat.le_div_iff_mul_le hM).mpr (by omega)
          have hx2 : q / p.nlmmax.toNat < ion * nrec p + nrec p :=
            (Nat.div_lt_iff_lt_mul hM).mpr (by omega)
          have hq : (ion * nrec p + (q / p.nlmmax.toNat - ion * nrec p)) * p.nlmmax.toNat
              + q % p.nlmmax.toNat = q := by
            have e : ion * nrec p + (q / p.nlmmax.toNat - ion * nrec p) = q / p.nlmmax.toNat := by
              omega
            rw [e, Nat.mul_comm]
            exact Nat.div_add_mod q _
          have := r11 (Nat.zero_le _) (q / p.nlmmax.toNat - ion * nrec p) (q % p.nlmmax.toNat)
            (by omega) (Nat.zero_le _) (Nat.mod_lt _ hM)
          rw [hq] at this
          exact this
    cases hA : t.py_plo with
    | mk dimsA dataA =>
      cases hB : s.py_plo with
      | mk dimsB dataB =>
        rw [hA, hB] at r4
        rw [hA, hB] at hdata
        simp only [] at r4 hdata
        rw [r4, hdata]
  refine ⟨t, ht, r1, hplo, r6, r7, ?_, ?_⟩
  · intro is ik ib his hik hib
    have hr : (is * p.nk.toNat + ik) * p.nb.toNat + ib < nrec p :=
      lin3_lt is ik ib _ _ _ his hik hib
    rw [getptr4 t.py_ferw _ _ _ _ _ _ _ _ (r6.trans hd4), hN, r8,
      if_pos (by omega), Nat.add_sub_cancel_left]
  · intro q hq
    have e : (ion + 1) * nrec p = ion * nrec p + nrec p := by ring
    rw [e] at hq
    rw [r8, if_neg (by omega)]

/-! ## A short read in the middle of the data -/

/-- A loop whose body runs through up to the iteration `j` and jumps to `error` there. -/
theorem for_from_fail {σ : Type} (body : Nat → σ → Res σ) (P : Nat → σ → Prop) (Q : σ → Prop) :
    ∀ (n i j : Nat) (s : σ), i ≤ j → j < i + n → P i s →
      (∀ k s, i ≤ k → k < j → P k s → ∃ t, body k s = .ok t ∧ P (k + 1) t) →
      (∀ s, P j s → ∃ e, body j s = .error e ∧ Q e) →
      ∃ e, for_from body i n s = .error e ∧ Q e := by
  intro n
  induction n with
  | zero => intro i j s h1 h2; omega
  | succ n ih =>
    intro i j s h1 h2 hP hstep hfail
    unfold for_from
    by_cases hij : i = j
    · subst hij
      obtain ⟨e, he, hQ⟩ := hfail s hP
      rw [he]
      exact ⟨e, rfl, hQ⟩
    · obtain ⟨t, ht, hPt⟩ := hstep i s (Nat.le_refl i) (by omega) hP
      rw [ht]
      exact ih (i + 1) j t (by omega) (by omega) hPt
        (fun k s hk hk' => hstep k s (by omega) hk') hfail

theorem for_from_nest3_fail {σ : Type} (body : Nat → Nat → Nat → σ → Res σ)
    (P : Nat → σ → Prop) (Q : σ → Prop) (n1 n2 n3 a b c : Nat) (s : σ)
    (ha : a < n1) (hb : b < n2) (hc : c < n3) (h0 : P 0 s)
    (hstep : ∀ i j k s, i < n1 → j < n2 → k < n3 →
      (i * n2 + j) * n3 + k < (a * n2 + b) * n3 + c → P ((i * n2 + j) * n3 + k) s →
      ∃ t, body i j k s = .ok t ∧ P ((i * n2 + j) * n3 + k + 1) t)
    (hfail : ∀ s, P ((a * n2 + b) * n3 + c) s → ∃ e, body a b c s = .error e ∧ Q e) :
    ∃ e, for_from (fun i => for_from (fun j => for_from (body i j) 0 n3) 0 n2) 0 n1 s
      = .error e ∧ Q e := by
  refine for_from_fail (fun i => for_from (fun j => for_from (body i j) 0 n3) 0 n2)
    (fun i s => P (i * n2 * n3) s) Q n1 0 a s (Nat.zero_le _) (by omega) (by simpa using h0)
    ?_ ?_
  · intro i s _ hi hP
    have h2 := for_from_ok (fun j => for_from (body i j) 0 n3)
      (fun j s => P ((i * n2 + j) * n3) s) n2 0 s (by simpa using hP) (by
        intro j s _ hj hP
        have h3 := for_from_ok (body i j) (fun k s => P ((i * n2 + j) * n3 + k) s) n3 0 s
          (by simpa using hP) (by
            intro k s _ hk hP
            have hlt : (i * n2 + j) * n3 + k < (a * n2 + b) * n3 + c := by
              have h1 := lin_lt i a n2 j hi (by omega)
              have h2 := lin_lt (i * n2 + j) (a * n2) n3 k h1 (by omega)
              have h3 : a * n2 * n3 ≤ (a * n2 + b) * n3 :=
                Nat.mul_le_mul_right _ (Nat.le_add_right _ _)
              omega
            exact hstep i j k s (by omega) (by omega) (by omega) hlt hP)
        obtain ⟨t, ht, hPt⟩ := h3
        refine ⟨t, ht, ?_⟩
        have e : (i * n2 + j) * n3 + (0 + n3) = (i * n2 + (j + 1)) * n3 := by ring
        simp only [] at hPt ⊢
        rw [← e]; exact hPt)
    obtain ⟨t, ht, hPt⟩ := h2
    refine ⟨t, ht, ?_⟩
    have e : (i * n2 + (0 + n2)) * n3 = (i + 1) * n2 * n3 := by ring
    simp only [] at hPt ⊢
    rw [← e]; exact hPt
  · intro s hP
    simp only [] at hP
    refine for_from_fail (fun j => for_from (body a j) 0 n3)
      (fun j s => P ((a * n2 + j) * n3) s) Q n2 0 b s (Nat.zero_le _) (by omega)
      (by simpa using hP) ?_ ?_
    · intro j s _ hj hP
      have h3 := for_from_ok (body a j) (fun k s => P ((a * n2 + j) * n3 + k) s) n3 0 s
        (by simpa using hP) (by
          intro k s _ hk hP
          have hlt : (a * n2 + j) * n3 + k < (a * n2 + b) * n3 + c := by
            have h2 := lin_lt (a * n2 + j) (a * n2 + b) n3 k (by omega) (by omega)
            omega
          exact hstep a j k s ha (by omega) (by omega) hlt hP)
      obtain ⟨t, ht, hPt⟩ := h3
      refine ⟨t, ht, ?_⟩
      have e : (a * n2 + j) * n3 + (0 + n3) = (a * n2 + (j + 1)) * n3 := by ring
      simp only [] at hPt ⊢
      rw [← e]; exact hPt
    · intro s hP
      simp only [] at hP
      refine for_from_fail (body a b) (fun k s => P ((a * n2 + b) * n3 + k) s) Q n3 0 c s
        (Nat.zero_le _) (by omega) (by simpa using hP) ?_ ?_
      · intro k s _ hk hP
        exact hstep a b k s ha hb (by omega) (by omega) hP
      · intro s hP
        exact hfail s hP

/-- One more record runs through when the file holds it in full. -/
theorem rec_succeeds_at (p : t_params) (d : List Byte) (ion base : Nat) (s0 : Arrays)
    (nlm : Int) (is ik ib : Nat) (s : Arrays)
    (hd5 : s0.py_plo.dims = [p.nion.toNat, p.ns.toNat, p.nk.toNat, p.nb.toNat, p.nlmmax.toNat])
    (hd4 : s0.py_ferw.dims = [p.nion.toNat, p.ns.toNat, p.nk.toNat, p.nb.toNat])
    (hl5 : s0.py_plo.data.length = p.nion.toNat * nrec p * p.nlmmax.toNat)
    (hl4 : s0.py_ferw.data.length = p.nion.toNat * nrec p)
    (hion : ion < p.nion.toNat) (his : is < p.ns.toNat) (hik : ik < p.nk.toNat)
    (hib : ib < p.nb.toNat)
    (hn0 : 0 ≤ nlm) (hn50 : nlm ≤ (BUF_LEN : Int)) (hnM : nlm.toNat ≤ p.nlmmax.toNat)
    (hlen : base + ((is * p.nk.toNat + ik) * p.nb.toNat + ib) * rec_size p nlm.toNat
      + rec_size p nlm.toNat ≤ d.length)
    (hinv : RecInv p d ion base nlm s0 ((is * p.nk.toNat + ik) * p.nb.toNat + ib) s) :
    ∃ t, read_record p nlm ion is ik ib s = .ok t ∧
      RecInv p d ion base nlm s0 ((is * p.nk.toNat + ik) * p.nb.toNat + ib + 1) t := by
  have hstep := rec_step p d ion base s0 nlm is ik ib s hd5 hd4
    (by unfold BUF_LEN at hn50; omega) (by unfold BUF_LEN at hn50; omega) hinv
  have hr : (is * p.nk.toNat + ik) * p.nb.toNat + ib < nrec p :=
    lin3_lt is ik ib _ _ _ his hik hib
  have o4 : PyArray_GetPtr s.py_ferw [ion, is, ik, ib]
      = ion * nrec p + ((is * p.nk.toNat + ik) * p.nb.toNat + ib) := by
    rw [getptr4 s.py_ferw _ _ _ _ _ _ _ _ (hinv.ferw_dims.trans hd4)]; rfl
  have o5 : PyArray_GetPtr s.py_plo [ion, is, ik, ib, 0]
      = (ion * nrec p + ((is * p.nk.toNat + ik) * p.nb.toNat + ib)) * p.nlmmax.toNat := by
    rw [getptr5 s.py_plo _ _ _ _ _ _ _ _ _ (hinv.plo_dims.trans hd5)]; rfl
  have b4 : ion * nrec p + ((is * p.nk.toNat + ik) * p.nb.toNat + ib) < p.nion.toNat * nrec p :=
    lin_lt ion _ _ _ hion hr
  have b5 : (ion * nrec p + ((is * p.nk.toNat + ik) * p.nb.toNat + ib)) * p.nlmmax.toNat
      + nlm.toNat ≤ p.nion.toNat * nrec p * p.nlmmax.toNat := by
    have := Nat.mul_le_mul_right p.nlmmax.toNat (Nat.succ_le_of_lt b4)
    have e : (ion * nrec p + ((is * p.nk.toNat + ik) * p.nb.toNat + ib)).succ * p.nlmmax.toNat
      = (ion * nrec p + ((is * p.nk.toNat + ik) * p.nb.toNat + ib)) * p.nlmmax.toNat
        + p.nlmmax.toNat := by rw [Nat.succ_mul]
    omega
  generalize (is * p.nk.toNat + ik) * p.nb.toNat + ib = r at hinv hstep hr hlen o4 o5 b4 b5
  have hk : nlm = ((nlm.toNat : Nat) : Int) := (Int.toNat_of_nonneg hn0).symm
  have hk50 : nlm.toNat ≤ BUF_LEN := by omega
  have hfull := read_record_full p nlm ion is ik ib s d _ false nlm.toNat hinv.fh hk hk50 hlen
  obtain ⟨t, ht⟩ := record_store_of_le p ion is ik ib nlm.toNat
    (weight_at p d (base + r * rec_size p nlm.toNat))
    (value_at p d (base + r * rec_size p nlm.toNat))
    ⟨d, base + r * rec_size p nlm.toNat + rec_size p nlm.toNat, false⟩ s
    (by rw [o4, hinv.ferw_len, hl4]; exact b4) (by rw [o5, hinv.plo_len, hl5]; exact b5)
  rw [← hfull] at ht
  rw [ht] at hstep
  exact ⟨t, ht, hstep⟩

/-- The arrays when `read_arrays` jumps to `error` in the record `r` of the ion `ion`: the
earlier records are stored, and the arrays are untouched from this record on. -/
theorem fail_state (p : t_params) (d : List Byte) (b0 : Nat) (sI sA s : Arrays) (ion r : Nat)
    (hion : IonInv p d b0 sI ion sA)
    (hrec : RecInv p d ion (ion_start p d b0 ion + 4) (nlm_at d (ion_start p d b0 ion))
      ⟨⟨d, ion_start p d b0 ion + 4, false⟩, sA.py_plo, sA.py_ferw⟩ r s)
    (hM : ∀ j, j ≤ ion → ion_nlm p d b0 j ≤ p.nlmmax.toNat) :
    s.py_plo.dims = sI.py_plo.dims ∧ s.py_ferw.dims = sI.py_ferw.dims ∧
    (∀ j r1, r1 < nrec p → (j < ion ∨ (j = ion ∧ r1 < r)) →
      s.py_ferw.data[j * nrec p + r1]? = some (weight_at p d (rec_pos p d b0 j r1)) ∧
      ∀ m, m < ion_nlm p d b0 j →
        s.py_plo.data[(j * nrec p + r1) * p.nlmmax.toNat + m]?
          = some (value_at p d (rec_pos p d b0 j r1) m)) ∧
    (∀ q, ion * nrec p + r ≤ q → s.py_ferw.data[q]? = sI.py_ferw.data[q]?) ∧
    (∀ q, (ion * nrec p + r) * p.nlmmax.toNat ≤ q → s.py_plo.data[q]? = sI.py_plo.data[q]?) := by
  obtain ⟨i1, i2, i3, i4, i5, i6, i7, i8, i9, i10, i11, i12⟩ := hion
  obtain ⟨r1, r2, r3, r4, r5, r6, r7, r8, r9, r10, r11, r12⟩ := hrec
  simp only [] at r4 r5 r6 r7 r8 r10 r11 r12
  have ek : ion_nlm p d b0 ion = (nlm_at d (ion_start p d b0 ion)).toNat := rfl
  refine ⟨r4.trans i4, r6.trans i6, ?_, ?_, ?_⟩
  · intro j r' hr' hlt
    rcases hlt with hj | ⟨hj, hr1⟩
    · have h1 := lin_lt j ion (nrec p) r' hj hr'
      refine ⟨?_, ?_⟩
      · rw [r8, if_neg (by omega)]
        exact i8 j r' hj hr'
      · intro m hm
        have hmM : m < p.nlmmax.toNat := Nat.lt_of_lt_of_le hm (hM j (by omega))
        have h2 := lin_lt (j * nrec p + r') (ion * nrec p) _ m h1 hmM
        rw [r10 _ h2]
        exact i10 j r' m hj hr' hm hmM
    · subst hj
      refine ⟨?_, ?_⟩
      · rw [r8, if_pos (by omega), Nat.add_sub_cancel_left]
        rfl
      · intro m hm
        have hmM : m < p.nlmmax.toNat := Nat.lt_of_lt_of_le hm (hM j (Nat.le_refl _))
        rw [ek] at hm
        exact r9 r' m hr1 hm hmM
  · intro q hq
    rw [r8, if_neg (by omega)]
    exact i9 q (by omega)
  · intro q hq
    have hk := hM ion (Nat.le_refl _)
    rw [ek] at hk
    rw [r12 hk q hq]
    have : ion * nrec p * p.nlmmax.toNat ≤ (ion * nrec p + r) * p.nlmmax.toNat :=
      Nat.mul_le_mul_right _ (Nat.le_add_right _ _)
    exact i12 (fun j' hj' => hM j' (by omega)) q (by omega)

/-- The run of `read_arrays` on a file that ends inside the record `(ion,is,ik,ib)`. -/
theorem read_arrays_fails (p : t_params) (d : List Byte) (b0 : Nat) (sI : Arrays)
    (hd5 : sI.py_plo.dims = [p.nion.toNat, p.ns.toNat, p.nk.toNat, p.nb.toNat, p.nlmmax.toNat])
    (hd4 : sI.py_ferw.dims = [p.nion.toNat, p.ns.toNat, p.nk.toNat, p.nb.toNat])
    (hl5 : sI.py_plo.data.length = p.nion.toNat * nrec p * p.nlmmax.toNat)
    (hl4 : sI.py_ferw.data.length = p.nion.toNat * nrec p)
    (hfh : sI.fh = ⟨d, b0, false⟩) (ion is ik ib : Nat)
    (hion : ion < p.nion.toNat) (his : is < p.ns.toNat) (hik : ik < p.nk.toNat)
    (hib : ib < p.nb.toNat)
    (hnlm : ∀ j, j ≤ ion → 0 ≤ nlm_at d (ion_start p d b0 j) ∧
      nlm_at d (ion_start p d b0 j) ≤ (BUF_LEN : Int) ∧ ion_nlm p d b0 j ≤ p.nlmmax.toNat)
    (hreach : rec_pos p d b0 ion ((is * p.nk.toNat + ik) * p.nb.toNat + ib) ≤ d.length)
    (hshort : d.length < rec_pos p d b0 ion ((is * p.nk.toNat + ik) * p.nb.toNat + ib)
      + rec_size p (ion_nlm p d b0 ion)) :
    ∃ sA s, read_arrays p sI = .error ⟨⟨d, d.length, true⟩, s.py_plo, s.py_ferw⟩ ∧
      IonInv p d b0 sI ion sA ∧
      RecInv p d ion (ion_start p d b0 ion + 4) (nlm_at d (ion_start p d b0 ion))
        ⟨⟨d, ion_start p d b0 ion + 4, false⟩, sA.py_plo, sA.py_ferw⟩
        ((is * p.nk.toNat + ik) * p.nb.toNat + ib) s := by
  have hstart : ion_start p d b0 ion + 4 ≤ d.length := by
    unfold rec_pos at hreach; omega
  have hpos : b0 ≤ d.length :=
    Nat.le_trans (ion_start_mono p d b0 0 ion (Nat.zero_le _)) (by omega)
  have h := for_from_fail (read_ion p) (fun i s => IonInv p d b0 sI i s)
    (fun e => ∃ sA s, e = ⟨⟨d, d.length, true⟩, s.py_plo, s.py_ferw⟩ ∧
      IonInv p d b0 sI ion sA ∧
      RecInv p d ion (ion_start p d b0 ion + 4) (nlm_at d (ion_start p d b0 ion))
        ⟨⟨d, ion_start p d b0 ion + 4, false⟩, sA.py_plo, sA.py_ferw⟩
        ((is * p.nk.toNat + ik) * p.nb.toNat + ib) s)
    p.nion.toNat 0 ion sI (Nat.zero_le _) (by omega) (ion_inv_zero p d b0 sI hfh hpos)
    (fun j s _ hj hP => ion_succeeds p d b0 sI j s hd5 hd4 hl5 hl4 (by omega)
      (hnlm j (by omega)).1 (hnlm j (by omega)).2.1 (hnlm j (by omega)).2.2
      (Nat.le_trans (ion_start_mono p d b0 (j + 1) ion (by omega)) (by omega)) hP)
    (by
      intro sA hA
      rw [read_ion_ok_eq p ion sA d _ false hA.fh hstart]
      obtain ⟨n0, n50, nM⟩ := hnlm ion (Nat.le_refl _)
      have ek : ion_nlm p d b0 ion = (nlm_at d (ion_start p d b0 ion)).toNat := rfl
      rw [ek] at nM hshort
      unfold rec_pos at hreach hshort
      rw [ek] at hreach hshort
      obtain ⟨e, he, s, hs, hR⟩ := for_from_nest3_fail
        (fun is ik ib => read_record p (nlm_at d (ion_start p d b0 ion)) ion is ik ib)
        (fun r s1 => RecInv p d ion (ion_start p d b0 ion + 4) (nlm_at d (ion_start p d b0 ion))
          ⟨⟨d, ion_start p d b0 ion + 4, false⟩, sA.py_plo, sA.py_ferw⟩ r s1)
        (fun e => ∃ s, e = ⟨⟨d, d.length, true⟩, s.py_plo, s.py_ferw⟩ ∧
          RecInv p d ion (ion_start p d b0 ion + 4) (nlm_at d (ion_start p d b0 ion))
            ⟨⟨d, ion_start p d b0 ion + 4, false⟩, sA.py_plo, sA.py_ferw⟩
            ((is * p.nk.toNat + ik) * p.nb.toNat + ib) s)
        p.ns.toNat p.nk.toNat p.nb.toNat is ik ib
        ⟨⟨d, ion_start p d b0 ion + 4, false⟩, sA.py_plo, sA.py_ferw⟩ his hik hib
        (rec_inv_zero p d ion _ _ _ rfl hstart)
        (fun i j k s1 hi hj hk hlt hP => rec_succeeds_at p d ion _ _ _ i j k s1
          (hA.plo_dims.trans hd5) (hA.ferw_dims.trans hd4) (hA.plo_len.trans hl5)
          (hA.ferw_len.trans hl4) hion hi hj hk n0 n50 nM (by
            have h1 := Nat.mul_le_mul_right
              (rec_size p (nlm_at d (ion_start p d b0 ion)).toNat) (Nat.succ_le_of_lt hlt)
            rw [Nat.succ_mul] at h1
            omega) hP)
        (fun s1 hP => ⟨_, read_record_short p _ ion is ik ib s1 d _ false
            (nlm_at d (ion_start p d b0 ion)).toNat hP.fh (Int.toNat_of_nonneg n0).symm
            (by omega) hP.pos_le hshort, s1, rfl, hP⟩)
      exact ⟨e, he, sA, s, hs, hA, hR⟩)
  obtain ⟨e, he, sA, s, hs, hA, hR⟩ := h
  refine ⟨sA, s, ?_, hA, hR⟩
  unfold read_arrays for_loop
  rw [he, hs]

/-- Claim C14, amended. Per-record atomicity on a short read. Take a file with a supported
precision, positive dimensions whose product fits an `int`, and an index `(ion,is,ik,ib)`
inside them, such that the `nlm` of every ion up to `ion` lies in `0..nlmmax` and in
`0..50`, and such that the file holds everything before the record `(ion,is,ik,ib)` but
not the whole record. Then the call returns `NULL` with the end-of-file `IOError`, after
one `fclose`, and in the arrays it leaves behind: `Ferw[ion,is,ik,ib]` and every
`Plo[ion,is,ik,ib,m]` are zero; every record before it in `(ion,is,ik,ib)` order has its
weight in `Ferw` and its `nlm` values in `Plo`; and every record after it is still zero in
both arrays. -/
theorem short_read_atomic (h : Host) (d : List Byte) (hf : h.file = some d)
    (hlen : 28 ≤ d.length) (hprec : hdr_field d 0 = 8 ∨ hdr_field d 0 = 4)
    (hM0 : 0 < hdr_field d 5)
    (hfit : hdr_field d 1 * hdr_field d 2 * hdr_field d 3 * hdr_field d 4 * hdr_field d 5
      < 2 ^ 31)
    (ion is ik ib : Nat) (hion : (ion : Int) < hdr_field d 1) (his : (is : Int) < hdr_field d 2)
    (hik : (ik : Int) < hdr_field d 3) (hib : (ib : Int) < hdr_field d 4)
    (hnlm : ∀ j, j ≤ ion → 0 ≤ nlm_at d (ion_start (hdr_params d) d 28 j) ∧
      nlm_at d (ion_start (hdr_params d) d 28 j) ≤ 50 ∧
      nlm_at d (ion_start (hdr_params d) d 28 j) ≤ hdr_field d 5)
    (hreach : rec_pos (hdr_params d) d 28 ion
      ((is * (hdr_field d 3).toNat + ik) * (hdr_field d 4).toNat + ib) ≤ d.length)
    (hshort : d.length < rec_pos (hdr_params d) d 28 ion
        ((is * (hdr_field d 3).toNat + ik) * (hdr_field d 4).toNat + ib)
      + rec_size (hdr_params d) (nlm_at d (ion_start (hdr_params d) d 28 ion)).toNat) :
    ∃ plo ferw,
      io_read_plocar h = .returned none
        ⟨⟨d, d.length, true⟩, some (create_par_dictionary (hdr_params d)), some plo, some ferw,
          some .IOError_eof, 1⟩ ∧
      ferw.data[PyArray_GetPtr ferw [ion, is, ik, ib]]? = some 0 ∧
      (∀ m : Nat, (m : Int) < hdr_field d 5 →
        plo.data[PyArray_GetPtr plo [ion, is, ik, ib, m]]? = some (0, 0)) ∧
      (∀ j js jk jb : Nat, (j : Int) < hdr_field d 1 → (js : Int) < hdr_field d 2 →
        (jk : Int) < hdr_field d 3 → (jb : Int) < hdr_field d 4 →
        (j < ion ∨ (j = ion ∧ (js * (hdr_field d 3).toNat + jk) * (hdr_field d 4).toNat + jb
          < (is * (hdr_field d 3).toNat + ik) * (hdr_field d 4).toNat + ib)) →
        ferw.data[PyArray_GetPtr ferw [j, js, jk, jb]]?
          = some (weight_at (hdr_params d) d (rec_pos (hdr_params d) d 28 j
              ((js * (hdr_field d 3).toNat + jk) * (hdr_field d 4).toNat + jb))) ∧
        ∀ m : Nat, (m : Int) < nlm_at d (ion_start (hdr_params d) d 28 j) →
          plo.data[PyArray_GetPtr plo [j, js, jk, jb, m]]?
            = some (value_at (hdr_params d) d (rec_pos (hdr_params d) d 28 j
                ((js * (hdr_field d 3).toNat + jk) * (hdr_field d 4).toNat + jb)) m)) ∧
      (∀ j js jk jb : Nat, (j : Int) < hdr_field d 1 → (js : Int) < hdr_field d 2 →
        (jk : Int) < hdr_field d 3 → (jb : Int) < hdr_field d 4 →
        (ion < j ∨ (j = ion ∧ (is * (hdr_field d 3).toNat + ik) * (hdr_field d 4).toNat + ib
          < (js * (hdr_field d 3).toNat + jk) * (hdr_field d 4).toNat + jb)) →
        ferw.data[PyArray_GetPtr ferw [j, js, jk, jb]]? = some 0 ∧
        ∀ m : Nat, (m : Int) < hdr_field d 5 →
          plo.data[PyArray_GetPtr plo [j, js, jk, jb, m]]? = some (0, 0)) := by
  have f1 : (hdr_params d).nion = hdr_field d 1 := rfl
  have f2 : (hdr_params d).ns = hdr_field d 2 := rfl
  have f3 : (hdr_params d).nk = hdr_field d 3 := rfl
  have f4 : (hdr_params d).nb = hdr_field d 4 := rfl
  have f5 : (hdr_params d).nlmmax = hdr_field d 5 := rfl
  rw [← f1, ← f2, ← f3, ← f4, ← f5] at hfit
  rw [← f1] at hion
  rw [← f2] at his
  rw [← f3] at hik
  rw [← f4] at hib
  rw [← f5] at hM0
  simp only [← f1, ← f2, ← f3, ← f4, ← f5]
  rw [← f3, ← f4] at hreach hshort
  generalize hp : hdr_params d = p at *
  have p1 : 0 < p.nion := by omega
  have p2 : 0 < p.ns := by omega
  have p3 : 0 < p.nk := by omega
  have p4 : 0 < p.nb := by omega
  obtain ⟨g1, g2, g3, _⟩ := pos_products _ _ _ _ _ p1 p2 p3 p4 hM0 _ hfit
  have c1 := create_plo_array_of p (by omega) (by omega) (by omega) (by omega) (by omega)
    g1 g2 g3 hfit (npy_nbytes_pos5 _ _ _ _ _ p1 p2 p3 p4 hM0 hfit)
  have c2 := create_ferw_array_of p (by omega) (by omega) (by omega) (by omega) g1 g2 g3
    (npy_nbytes_pos4 _ _ _ _ p1 p2 p3 p4 g3)
  have hion' : ion < p.nion.toNat := by omega
  have his' : is < p.ns.toNat := by omega
  have hik' : ik < p.nk.toNat := by omega
  have hib' : ib < p.nb.toNat := by omega
  have hnlm' : ∀ j, j ≤ ion → 0 ≤ nlm_at d (ion_start p d 28 j) ∧
      nlm_at d (ion_start p d 28 j) ≤ (BUF_LEN : Int) ∧ ion_nlm p d 28 j ≤ p.nlmmax.toNat := by
    intro j hj
    obtain ⟨a1, a2, a3⟩ := hnlm j hj
    refine ⟨a1, by unfold BUF_LEN; exact a2, ?_⟩
    unfold ion_nlm
    rw [← f5] at a3
    omega
  generalize hsI : (⟨⟨d, 28, false⟩,
      ⟨[p.nion.toNat, p.ns.toNat, p.nk.toNat, p.nb.toNat, p.nlmmax.toNat],
        List.replicate (p.nion.toNat * nrec p * p.nlmmax.toNat) (0, 0)⟩,
      ⟨[p.nion.toNat, p.ns.toNat, p.nk.toNat, p.nb.toNat],
        List.replicate (p.nion.toNat * nrec p) 0⟩⟩ : Arrays) = sI at *
  obtain ⟨sA, s, hrun, hA, hR⟩ := read_arrays_fails p d 28 sI (by rw [← hsI]) (by rw [← hsI])
    (by rw [← hsI]; simp) (by rw [← hsI]; simp) (by rw [← hsI]) ion is ik ib hion' his' hik'
    hib' hnlm' hreach hshort
  obtain ⟨e5, e4, hprev, hferw, hplo⟩ := fail_state p d 28 sI sA s ion _ hA hR
    (fun j hj => (hnlm' j hj).2.2)
  have hd5 : s.py_plo.dims
      = [p.nion.toNat, p.ns.toNat, p.nk.toNat, p.nb.toNat, p.nlmmax.toNat] := by
    rw [e5, ← hsI]
  have hd4 : s.py_ferw.dims = [p.nion.toNat, p.ns.toNat, p.nk.toNat, p.nb.toNat] := by
    rw [e4, ← hsI]
  have hr : (is * p.nk.toNat + ik) * p.nb.toNat + ib < nrec p :=
    lin3_lt is ik ib _ _ _ his' hik' hib'
  have z4 : ∀ q, q < p.nion.toNat * nrec p → sI.py_ferw.data[q]? = some 0 := by
    intro q hq
    rw [← hsI]
    simp only []
    rw [List.getElem?_replicate, if_pos hq]
  have z5 : ∀ q, q < p.nion.toNat * nrec p * p.nlmmax.toNat →
      sI.py_plo.data[q]? = some (0, 0) := by
    intro q hq
    rw [← hsI]
    simp only []
    rw [List.getElem?_replicate, if_pos hq]
  have hafter : ∀ j js jk jb : Nat, (j : Int) < p.nion → (js : Int) < p.ns →
      (jk : Int) < p.nk → (jb : Int) < p.nb →
      ion * nrec p + ((is * p.nk.toNat + ik) * p.nb.toNat + ib)
        ≤ j * nrec p + ((js * p.nk.toNat + jk) * p.nb.toNat + jb) →
      s.py_ferw.data[PyArray_GetPtr s.py_ferw [j, js, jk, jb]]? = some 0 ∧
      ∀ m : Nat, (m : Int) < p.nlmmax →
        s.py_plo.data[PyArray_GetPtr s.py_plo [j, js, jk, jb, m]]? = some (0, 0) := by
    intro j js jk jb hj hjs hjk hjb hle
    have hr' : (js * p.nk.toNat + jk) * p.nb.toNat + jb < nrec p :=
      lin3_lt js jk jb _ _ _ (by omega) (by omega) (by omega)
    have hq4 := lin_lt j p.nion.toNat (nrec p) _ (by omega) hr'
    refine ⟨?_, ?_⟩
    · rw [getptr4 s.py_ferw _ _ _ _ _ _ _ _ hd4]
      have := hferw (j * nrec p + ((js * p.nk.toNat + jk) * p.nb.toNat + jb)) hle
      unfold nrec at this hq4 z4
      rw [this]
      exact z4 _ hq4
    · intro m hm
      have hm' : m < p.nlmmax.toNat := by omega
      rw [getptr5m s.py_plo _ _ _ _ _ _ _ _ _ _ hd5]
      have hq5 := lin_lt _ _ p.nlmmax.toNat m hq4 hm'
      have hge : (ion * nrec p + ((is * p.nk.toNat + ik) * p.nb.toNat + ib)) * p.nlmmax.toNat
          ≤ (j * nrec p + ((js * p.nk.toNat + jk) * p.nb.toNat + jb)) * p.nlmmax.toNat + m :=
        Nat.le_trans (Nat.mul_le_mul_right _ hle) (Nat.le_add_right _ _)
      have := hplo _ hge
      unfold nrec at this hq5 z5
      rw [this]
      exact z5 _ hq5
  refine ⟨s.py_plo, s.py_ferw, ?_, ?_, ?_, ?_, ?_⟩
  · rw [io_read_plocar_params h d hf hlen hprec, hp]
    have := read_body_of_error h p ⟨d, 28, false⟩ _ _ _ c1 c2 (by rw [hsI]; exact hrun) rfl
    exact this
  · exact (hafter ion is ik ib (by omega) his hik hib (Nat.le_refl _)).1
  · exact (hafter ion is ik ib (by omega) his hik hib (Nat.le_refl _)).2
  · intro j js jk jb hj hjs hjk hjb hlt
    have hr' : (js * p.nk.toNat + jk) * p.nb.toNat + jb < nrec p :=
      lin3_lt js jk jb _ _ _ (by omega) (by omega) (by omega)
    obtain ⟨a1, a2⟩ := hprev j _ hr' hlt
    refine ⟨?_, ?_⟩
    · rw [getptr4 s.py_ferw _ _ _ _ _ _ _ _ hd4]
      exact a1
    · intro m hm
      rw [getptr5m s.py_plo _ _ _ _ _ _ _ _ _ _ hd5]
      exact a2 m (by unfold ion_nlm; omega)
  · intro j js jk jb hj hjs hjk hjb hlt
    have hr' : (js * p.nk.toNat + jk) * p.nb.toNat + jb < nrec p :=
      lin3_lt js jk jb _ _ _ (by omega) (by omega) (by omega)
    refine hafter j js jk jb hj hjs hjk hjb ?_
    rcases hlt with hj1 | ⟨hj1, hr1⟩
    · have := Nat.mul_le_mul_right (nrec p) (Nat.succ_le_of_lt hj1)
      rw [Nat.succ_mul] at this
      omega
    · subst hj1
      omega

/-! ## The claims at sample files -/

set_option maxRecDepth 100000 in
/-- The claim C12 at the scenario of the specification: the ion has `nlm = 2` under
`nlmmax = 3`, and `Plo[0,0,0,0,2]` is zero in the returned array. -/
theorem padding_never_written_witness :
    hdr_field (encode_plocar scenario) 1 = 1 ∧
    nlm_at (encode_plocar scenario) 28 = 2 ∧ hdr_field (encode_plocar scenario) 5 = 3 ∧
    io_read_plocar (host_of (encode_plocar scenario))
      = .returned (some scenario_out) (frame_ok (encode_plocar scenario) 72 scenario_out) ∧
    scenario_out.2.1.data[PyArray_GetPtr scenario_out.2.1 [0, 0, 0, 0, 2]]? = some (0, 0) := by
  have h1 : hdr_field (encode_plocar scenario) 1 = 1 := by decide
  have T := padding_never_written (host_of (encode_plocar scenario)) (encode_plocar scenario)
    scenario_out.1 scenario_out.2.1 scenario_out.2.2 _ rfl scenario_run (by
      intro ion hion
      have : ion = 0 := by rw [h1] at hion; omega
      subst this
      decide)
  exact ⟨h1, by decide, by decide, scenario_run,
    T.2 0 0 0 0 2 (by decide) (by decide) (by decide) (by decide) (by decide) (by decide)⟩

set_option maxRecDepth 100000 in
/-- The claim C16 at the scenario of the specification followed by three more bytes: the
same tuple is returned, and `72 = 28 + (4 + 1*1*1*(8 + 2*8*2))` bytes are consumed. -/
theorem trailing_bytes_ignored_witness :
    io_read_plocar (host_of (encode_plocar scenario))
      = .returned (some scenario_out) (frame_ok (encode_plocar scenario) 72 scenario_out) ∧
    io_read_plocar ⟨some (encode_plocar scenario ++ [7, 7, 7]), fun _ => false⟩
      = .returned (some scenario_out)
          ⟨⟨encode_plocar scenario ++ [7, 7, 7], 72, false⟩, some scenario_out.1,
            some scenario_out.2.1, some scenario_out.2.2, none, 1⟩ ∧
    ((72 : Nat) : Int) = 28 + ∑ ion in Finset.range (hdr_field (encode_plocar scenario) 1).toNat,
      (4 + hdr_field (encode_plocar scenario) 2 * hdr_field (encode_plocar scenario) 3
          * hdr_field (encode_plocar scenario) 4
        * ((if hdr_field (encode_plocar scenario) 0 = 8 then 8 else 4)
          + 2 * (if hdr_field (encode_plocar scenario) 0 = 8 then 8 else 4)
            * nlm_at (encode_plocar scenario)
                (ion_start (hdr_params (encode_plocar scenario)) (encode_plocar scenario) 28
                  ion))) := by
  have T := trailing_bytes_ignored (host_of (encode_plocar scenario)) (encode_plocar scenario)
    [7, 7, 7] scenario_out.1 scenario_out.2.1 scenario_out.2.2 _ rfl scenario_run
  exact ⟨scenario_run, T.1, T.2.2⟩

set_option maxRecDepth 100000 in
/-- The claim C18, amended, at the second ion of `spill_data`: its `nlm` at offset 72 is 0
and the file ends after its weight, at 84; `read_ion` runs through to offset 84, stores
the weight `0.25` in `Ferw[1,0,0,0]` and leaves `Plo` as it found it. -/
theorem zero_nlm_weights_only_witness :
    nlm_at (encode_plocar spill_data) 72 = 0 ∧ (encode_plocar spill_data).length = 84 ∧
    ∃ t, read_ion ⟨2, 1, 1, 1, 1, 0, 1⟩ 1
        ⟨⟨encode_plocar spill_data, 72, false⟩, spill_out.2.1,
          ⟨[2, 1, 1, 1], [0x3FE0000000000000, 0]⟩⟩ = .ok t ∧
      t.fh = ⟨encode_plocar spill_data, 84, false⟩ ∧
      t.py_plo = spill_out.2.1 ∧
      t.py_ferw.data[PyArray_GetPtr t.py_ferw [1, 0, 0, 0]]? = some 0x3FD0000000000000 ∧
      t.py_ferw.data[0]? = some 0x3FE0000000000000 := by
  have T := zero_nlm_weights_only ⟨2, 1, 1, 1, 1, 0, 1⟩ (encode_plocar spill_data) 1 72
    ⟨⟨encode_plocar spill_data, 72, false⟩, spill_out.2.1,
      ⟨[2, 1, 1, 1], [0x3FE0000000000000, 0]⟩⟩ rfl rfl rfl (by decide) (by decide) (by decide)
    (by decide) (by decide)
  obtain ⟨t, h1, h2, h3, _, _, h6, h7⟩ := T
  have hw : weight_at ⟨2, 1, 1, 1, 1, 0, 1⟩ (encode_plocar spill_data) 76
      = 0x3FD0000000000000 := by decide
  refine ⟨by decide, by decide, t, h1, h2, h3, ?_, ?_⟩
  · have := h6 0 0 0 (by decide) (by decide) (by decide)
    rw [this]
    exact congrArg some hw
  · have := h7 0 (Or.inl (by decide))
    rw [this]
    rfl

set_option maxRecDepth 100000 in
/-- The claim C18 as it is written fails: in the file of `spill_data` the precision is 8,
the second ion has `nlm = 0` and its weight follows, the call returns the tuple, and
`Plo[1,0,0,0,0]` is `3 - 1i`, the second value of the first ion, not zero. -/
theorem zero_nlm_ion_not_zero :
    hdr_field (encode_plocar spill_data) 0 = 8 ∧
    hdr_field (encode_plocar spill_data) 5 = 1 ∧
    nlm_at (encode_plocar spill_data)
      (ion_start (hdr_params (encode_plocar spill_data)) (encode_plocar spill_data) 28 1) = 0 ∧
    io_read_plocar (host_of (encode_plocar spill_data))
      = .returned (some spill_out) (frame_ok (encode_plocar spill_data) 84 spill_out) ∧
    spill_out.2.1.data[PyArray_GetPtr spill_out.2.1 [1, 0, 0, 0, 0]]?
      = some (0x4008000000000000, 0xBFF0000000000000) :=
  ⟨by decide, by decide, by decide, spill_run, by decide⟩

set_option maxRecDepth 100000 in
/-- The claim C14 as it is written fails: the file of `spill_data` cut after 80 bytes ends
inside the weight of the record `(1,0,0,0)`, which lies at 76, and the call returns `NULL`
with the end-of-file `IOError`; but the first ion has `nlm = 2` under `nlmmax = 1`, and
`Plo[1,0,0,0,0]` is not zero at that point: it holds `3 - 1i`, the second value of the
record `(0,0,0,0)`. -/
theorem short_read_after_spill :
    hdr_field ((encode_plocar spill_data).take 80) 0 = 8 ∧
    hdr_field ((encode_plocar spill_data).take 80) 5 = 1 ∧
    nlm_at ((encode_plocar spill_data).take 80) 28 = 2 ∧
    rec_pos (hdr_params ((encode_plocar spill_data).take 80))
      ((encode_plocar spill_data).take 80) 28 1 0 = 76 ∧
    ((encode_plocar spill_data).take 80).length = 80 ∧
    io_read_plocar (host_of ((encode_plocar spill_data).take 80))
      = .returned none ⟨⟨(encode_plocar spill_data).take 80, 80, true⟩, some spill_out.1,
          some spill_out.2.1, some ⟨[2, 1, 1, 1], [0x3FE0000000000000, 0]⟩,
          some .IOError_eof, 1⟩ ∧
    spill_out.2.1.data[PyArray_GetPtr spill_out.2.1 [1, 0, 0, 0, 0]]?
      = some (0x4008000000000000, 0xBFF0000000000000) := by
  decide

set_option maxRecDepth 100000 in
/-- The claim C14, amended, at the file of `pair_data` cut after 90 bytes: the record
`(1,0,0,0)` lies at 76 and is 24 bytes long, so the file ends inside it; the call returns
`NULL` with the end-of-file `IOError`, `Ferw[1,0,0,0]` and `Plo[1,0,0,0,0]` are zero, and
the record `(0,0,0,0)` has its weight `0.5` and its values `1 + 2i` and `3 - 1i` in the
arrays. -/
theorem short_read_atomic_witness :
    rec_pos (hdr_params ((encode_plocar pair_data).take 90)) ((encode_plocar pair_data).take 90)
      28 1 0 = 76 ∧
    rec_size (hdr_params ((encode_plocar pair_data).take 90)) 1 = 24 ∧
    ((encode_plocar pair_data).take 90).length = 90 ∧
    ∃ plo ferw,
      io_read_plocar (host_of ((encode_plocar pair_data).take 90)) = .returned none
        ⟨⟨(encode_plocar pair_data).take 90, 90, true⟩,
          some [("nion", 2), ("ns", 1), ("nk", 1), ("nb", 1), ("nc_flag", 0)],
          some plo, some ferw, some .IOError_eof, 1⟩ ∧
      ferw.data[PyArray_GetPtr ferw [1, 0, 0, 0]]? = some 0 ∧
      plo.data[PyArray_GetPtr plo [1, 0, 0, 0, 0]]? = some (0, 0) ∧
      plo.data[PyArray_GetPtr plo [1, 0, 0, 0, 1]]? = some (0, 0) ∧
      ferw.data[PyArray_GetPtr ferw [0, 0, 0, 0]]? = some 0x3FE0000000000000 ∧
      plo.data[PyArray_GetPtr plo [0, 0, 0, 0, 0]]?
        = some (0x3FF0000000000000, 0x4000000000000000) ∧
      plo.data[PyArray_GetPtr plo [0, 0, 0, 0, 1]]?
        = some (0x4008000000000000, 0xBFF0000000000000) := by
  have hn0 : nlm_at ((encode_plocar pair_data).take 90)
      (ion_start (hdr_params ((encode_plocar pair_data).take 90))
        ((encode_plocar pair_data).take 90) 28 0) = 2 := by decide
  have hn1 : nlm_at ((encode_plocar pair_data).take 90)
      (ion_start (hdr_params ((encode_plocar pair_data).take 90))
        ((encode_plocar pair_data).take 90) 28 1) = 1 := by decide
  have h5 : hdr_field ((encode_plocar pair_data).take 90) 5 = 2 := by decide
  have T := short_read_atomic (host_of ((encode_plocar pair_data).take 90))
    ((encode_plocar pair_data).take 90) rfl (by decide) (by decide) (by decide) (by decide)
    1 0 0 0 (by decide) (by decide) (by decide) (by decide)
    (by
      intro j hj
      rcases Nat.le_one_iff_eq_zero_or_eq_one.mp hj with h0 | h1
      · subst h0; rw [hn0, h5]; decide
      · subst h1; rw [hn1, h5]; decide)
    (by decide) (by decide)
  obtain ⟨plo, ferw, t1, t2, t3, t4, _⟩ := T
  obtain ⟨t5, t6⟩ := t4 0 0 0 0 (by decide) (by decide) (by decide) (by decide)
    (Or.inl (by decide))
  have hw : weight_at (hdr_params ((encode_plocar pair_data).take 90))
      ((encode_plocar pair_data).take 90)
      (rec_pos (hdr_params ((encode_plocar pair_data).take 90))
        ((encode_plocar pair_data).take 90) 28 0 0) = 0x3FE0000000000000 := by decide
  have hv0 : value_at (hdr_params ((encode_plocar pair_data).take 90))
      ((encode_plocar pair_data).take 90)
      (rec_pos (hdr_params ((encode_plocar pair_data).take 90))
        ((encode_plocar pair_data).take 90) 28 0 0) 0
      = (0x3FF0000000000000, 0x4000000000000000) := by decide
  have hv1 : value_at (hdr_params ((encode_plocar pair_data).take 90))
      ((encode_plocar pair_data).take 90)
      (rec_pos (hdr_params ((encode_plocar pair_data).take 90))
        ((encode_plocar pair_data).take 90) 28 0 0) 1
      = (0x4008000000000000, 0xBFF0000000000000) := by decide
  have hdict : create_par_dictionary (hdr_params ((encode_plocar pair_data).take 90))
      = [("nion", 2), ("ns", 1), ("nk", 1), ("nb", 1), ("nc_flag", 0)] := by decide
  have hl : ((encode_plocar pair_data).take 90).length = 90 := by decide
  refine ⟨by decide, by decide, hl, plo, ferw, ?_, t2, t3 0 (by rw [h5]; decide),
    t3 1 (by rw [h5]; decide), ?_, ?_, ?_⟩
  · rw [t1, hdict, hl]
  · have := t5
    simp only [Nat.zero_mul, Nat.zero_add] at this
    rw [this]
    exact congrArg some hw
  · have := t6 0 (by rw [hn0]; decide)
    simp only [Nat.zero_mul, Nat.zero_add] at this
    rw [this]
    exact congrArg some hv0
  · have := t6 1 (by rw [hn0]; decide)
    simp only [Nat.zero_mul, Nat.zero_add] at this
    rw [this]
    exact congrArg some hv1

/-! ## Values written over -/

set_option maxRecDepth 100000 in
theorem overlap_run : io_read_plocar (host_of (encode_plocar overlap_data))
    = .returned (some overlap_out) (frame_ok (encode_plocar overlap_data) 100 overlap_out) := by
  decide

set_option maxRecDepth 100000 in
theorem overlap4_run : io_read_plocar (host_of (encode_plocar overlap_data4))
    = .returned (some overlap_out) (frame_ok (encode_plocar overlap_data4) 68 overlap_out) := by
  decide

set_option maxRecDepth 100000 in
/-- The claim C2 as it is written fails: in the file of `overlap_data` the precision is 8,
the first ion has `nlm = 2` under `nlmmax = 1`, and the call returns the tuple; the record
`(0,0,0,0)` lies at `28 + 4`, so its value `m = 1 < nlm` is the sixteen bytes at
`28 + 4 + 8 + 16`, those of `3 - 1i`; but `Plo[0,0,0,0,1]` holds `5 + 6i`, the value that
the record `(1,0,0,0)` wrote there afterwards. -/
theorem double_decode_overwritten :
    hdr_field (encode_plocar overlap_data) 0 = 8 ∧
    hdr_field (encode_plocar overlap_data) 5 = 1 ∧
    ion_start (hdr_params (encode_plocar overlap_data)) (encode_plocar overlap_data) 28 0 = 28 ∧
    nlm_at (encode_plocar overlap_data) 28 = 2 ∧
    io_read_plocar (host_of (encode_plocar overlap_data))
      = .returned (some overlap_out) (frame_ok (encode_plocar overlap_data) 100 overlap_out) ∧
    ((encode_plocar overlap_data).drop (28 + 4 + 0 * (8 + 16 * 2) + 8 + 16 * 1)).take 16
      = le_bytes 8 0x4008000000000000 ++ le_bytes 8 0xBFF0000000000000 ∧
    (overlap_out.2.1.data[PyArray_GetPtr overlap_out.2.1 [0, 0, 0, 0, 1]]?).map
        (fun z => le_bytes 8 z.1 ++ le_bytes 8 z.2)
      = some (le_bytes 8 0x4014000000000000 ++ le_bytes 8 0x4018000000000000) ∧
    (overlap_out.2.1.data[PyArray_GetPtr overlap_out.2.1 [0, 0, 0, 0, 1]]?).map
        (fun z => le_bytes 8 z.1 ++ le_bytes 8 z.2)
      ≠ some (((encode_plocar overlap_data).drop (28 + 4 + 0 * (8 + 16 * 2) + 8 + 16 * 1)).take
          16) :=
  ⟨by decide, by decide, rfl, by decide, overlap_run, by decide, by decide, by decide⟩

set_option maxRecDepth 100000 in
/-- The claim C3 as it is written fails: in the file of `overlap_data4` the precision is 4,
the first ion has `nlm = 2` under `nlmmax = 1`, and the call returns the tuple; the record
`(0,0,0,0)` lies at `28 + 4`, so its value `m = 1 < nlm` is the two `float`s at
`28 + 4 + 4 + 8` and four bytes on, `3` and `-1`; but `Plo[0,0,0,0,1]` holds `5 + 6i`, the
value that the record `(1,0,0,0)` wrote there afterwards. -/
theorem single_decode_overwritten :
    hdr_field (encode_plocar overlap_data4) 0 = 4 ∧
    hdr_field (encode_plocar overlap_data4) 5 = 1 ∧
    ion_start (hdr_params (encode_plocar overlap_data4)) (encode_plocar overlap_data4) 28 0
      = 28 ∧
    nlm_at (encode_plocar overlap_data4) 28 = 2 ∧
    io_read_plocar (host_of (encode_plocar overlap_data4))
      = .returned (some overlap_out) (frame_ok (encode_plocar overlap_data4) 68 overlap_out) ∧
    (float_to_double (le_nat (((encode_plocar overlap_data4).drop
          (28 + 4 + 0 * (4 + 8 * 2) + 4 + 8 * 1)).take 4)),
      float_to_double (le_nat (((encode_plocar overlap_data4).drop
          (28 + 4 + 0 * (4 + 8 * 2) + 4 + 8 * 1 + 4)).take 4)))
      = (0x4008000000000000, 0xBFF0000000000000) ∧
    overlap_out.2.1.data[PyArray_GetPtr overlap_out.2.1 [0, 0, 0, 0, 1]]?
      = some (0x4014000000000000, 0x4018000000000000) ∧
    overlap_out.2.1.data[PyArray_GetPtr overlap_out.2.1 [0, 0, 0, 0, 1]]?
      ≠ some (float_to_double (le_nat (((encode_plocar overlap_data4).drop
            (28 + 4 + 0 * (4 + 8 * 2) + 4 + 8 * 1)).take 4)),
          float_to_double (le_nat (((encode_plocar overlap_data4).drop
            (28 + 4 + 0 * (4 + 8 * 2) + 4 + 8 * 1 + 4)).take 4))) :=
  ⟨by decide, by decide, rfl, by decide, overlap4_run, by decide, by decide, by decide⟩

/-! ## An `nlm` above `nlmmax` is accepted -/

/-- One more record runs through when the file holds it in full and its `nlm` values end
inside `Plo`, whatever `nlmmax` is. -/
theorem rec_succeeds_in (p : t_params) (d : List Byte) (ion base : Nat) (s0 : Arrays)
    (nlm : Int) (is ik ib : Nat) (s : Arrays)
    (hd5 : s0.py_plo.dims = [p.nion.toNat, p.ns.toNat, p.nk.toNat, p.nb.toNat, p.nlmmax.toNat])
    (hd4 : s0.py_ferw.dims = [p.nion.toNat, p.ns.toNat, p.nk.toNat, p.nb.toNat])
    (hl5 : s0.py_plo.data.length = p.nion.toNat * nrec p * p.nlmmax.toNat)
    (hl4 : s0.py_ferw.data.length = p.nion.toNat * nrec p)
    (hion : ion < p.nion.toNat) (his : is < p.ns.toNat) (hik : ik < p.nk.toNat)
    (hib : ib < p.nb.toNat)
    (hn0 : 0 ≤ nlm) (hn50 : nlm ≤ (BUF_LEN : Int))
    (b5 : (ion * nrec p + ((is * p.nk.toNat + ik) * p.nb.toNat + ib)) * p.nlmmax.toNat
      + nlm.toNat ≤ p.nion.toNat * nrec p * p.nlmmax.toNat)
    (hlen : base + ((is * p.nk.toNat + ik) * p.nb.toNat + ib) * rec_size p nlm.toNat
      + rec_size p nlm.toNat ≤ d.length)
    (hinv : RecInv p d ion base nlm s0 ((is * p.nk.toNat + ik) * p.nb.toNat + ib) s) :
    ∃ t, read_record p nlm ion is ik ib s = .ok t ∧
      RecInv p d ion base nlm s0 ((is * p.nk.toNat + ik) * p.nb.toNat + ib + 1) t := by
  have hstep := rec_step p d ion base s0 nlm is ik ib s hd5 hd4
    (by unfold BUF_LEN at hn50; omega) (by unfold BUF_LEN at hn50; omega) hinv
  have hr : (is * p.nk.toNat + ik) * p.nb.toNat + ib < nrec p :=
    lin3_lt is ik ib _ _ _ his hik hib
  have o4 : PyArray_GetPtr s.py_ferw [ion, is, ik, ib]
      = ion * nrec p + ((is * p.nk.toNat + ik) * p.nb.toNat + ib) := by
    rw [getptr4 s.py_ferw _ _ _ _ _ _ _ _ (hinv.ferw_dims.trans hd4)]; rfl
  have o5 : PyArray_GetPtr s.py_plo [ion, is, ik, ib, 0]
      = (ion * nrec p + ((is * p.nk.toNat + ik) * p.nb.toNat + ib)) * p.nlmmax.toNat := by
    rw [getptr5 s.py_plo _ _ _ _ _ _ _ _ _ (hinv.plo_dims.trans hd5)]; rfl
  have b4 : ion * nrec p + ((is * p.nk.toNat + ik) * p.nb.toNat + ib) < p.nion.toNat * nrec p :=
    lin_lt ion _ _ _ hion hr
  generalize (is * p.nk.toNat + ik) * p.nb.toNat + ib = r at hinv hstep hr hlen o4 o5 b4 b5
  have hk : nlm = ((nlm.toNat : Nat) : Int) := (Int.toNat_of_nonneg hn0).symm
  have hk50 : nlm.toNat ≤ BUF_LEN := by omega
  have hfull := read_record_full p nlm ion is ik ib s d _ false nlm.toNat hinv.fh hk hk50 hlen
  obtain ⟨t, ht⟩ := record_store_of_le p ion is ik ib nlm.toNat
    (weight_at p d (base + r * rec_size p nlm.toNat))
    (value_at p d (base + r * rec_size p nlm.toNat))
    ⟨d, base + r * rec_size p nlm.toNat + rec_size p nlm.toNat, false⟩ s
    (by rw [o4, hinv.ferw_len, hl4]; exact b4) (by rw [o5, hinv.plo_len, hl5]; exact b5)
  rw [← hfull] at ht
  rw [ht] at hstep
  exact ⟨t, ht, hstep⟩

theorem ion_succeeds_in (p : t_params) (d : List Byte) (b0 : Nat) (sI : Arrays) (i : Nat)
    (s : Arrays)
    (hd5 : sI.py_plo.dims = [p.nion.toNat, p.ns.toNat, p.nk.toNat, p.nb.toNat, p.nlmmax.toNat])
    (hd4 : sI.py_ferw.dims = [p.nion.toNat, p.ns.toNat, p.nk.toNat, p.nb.toNat])
    (hl5 : sI.py_plo.data.length = p.nion.toNat * nrec p * p.nlmmax.toNat)
    (hl4 : sI.py_ferw.data.length = p.nion.toNat * nrec p)
    (hi : i < p.nion.toNat)
    (hn0 : 0 ≤ nlm_at d (ion_start p d b0 i))
    (hn50 : nlm_at d (ion_start p d b0 i) ≤ (BUF_LEN : Int))
    (hin : ∀ r, r < nrec p → (i * nrec p + r) * p.nlmmax.toNat + ion_nlm p d b0 i
      ≤ p.nion.toNat * nrec p * p.nlmmax.toNat)
    (hlen : ion_start p d b0 (i + 1) ≤ d.length)
    (hinv : IonInv p d b0 sI i s) :
    ∃ t, read_ion p i s = .ok t ∧ IonInv p d b0 sI (i + 1) t := by
  have eS : ion_start p d b0 (i + 1)
      = ion_start p d b0 i + 4 + nrec p * rec_size p (nlm_at d (ion_start p d b0 i)).toNat := rfl
  rw [eS] at hlen
  have hstep := ion_step p d b0 sI i s hd5 hd4 hinv
  rw [read_ion_ok_eq p i s d _ false hinv.fh (by omega)] at hstep ⊢
  obtain ⟨t, ht, _⟩ := for_from_nest3_ok
    (fun is ik ib => read_record p (nlm_at d (ion_start p d b0 i)) i is ik ib)
    (fun r s1 => RecInv p d i (ion_start p d b0 i + 4) (nlm_at d (ion_start p d b0 i))
      ⟨⟨d, ion_start p d b0 i + 4, false⟩, s.py_plo, s.py_ferw⟩ r s1)
    p.ns.toNat p.nk.toNat p.nb.toNat
    ⟨⟨d, ion_start p d b0 i + 4, false⟩, s.py_plo, s.py_ferw⟩
    (rec_inv_zero p d i _ _ _ rfl (by omega))
    (fun is ik ib s1 his hik hib hP => rec_succeeds_in p d i _ _ _ is ik ib s1
      (hinv.plo_dims.trans hd5) (hinv.ferw_dims.trans hd4) (hinv.plo_len.trans hl5)
      (hinv.ferw_len.trans hl4) hi his hik hib hn0 hn50
      (hin _ (lin3_lt is ik ib _ _ _ his hik hib)) (by
        have hr : (is * p.nk.toNat + ik) * p.nb.toNat + ib < nrec p :=
          lin3_lt is ik ib _ _ _ his hik hib
        have h1 := Nat.mul_le_mul_right
          (rec_size p (nlm_at d (ion_start p d b0 i)).toNat) (Nat.succ_le_of_lt hr)
        rw [Nat.succ_mul] at h1
        omega) hP)
  rw [ht] at hstep ⊢
  exact ⟨t, rfl, hstep⟩

/-- When every ion's `nlm` lies in `[0, 50]`, the values of every record end inside `Plo`
and the file holds all the blocks, `read_arrays` runs through, whether or not an `nlm`
exceeds `nlmmax`. -/
theorem read_arrays_succeeds_in (p : t_params) (d : List Byte) (b0 : Nat) (sI : Arrays)
    (hd5 : sI.py_plo.dims = [p.nion.toNat, p.ns.toNat, p.nk.toNat, p.nb.toNat, p.nlmmax.toNat])
    (hd4 : sI.py_ferw.dims = [p.nion.toNat, p.ns.toNat, p.nk.toNat, p.nb.toNat])
    (hl5 : sI.py_plo.data.length = p.nion.toNat * nrec p * p.nlmmax.toNat)
    (hl4 : sI.py_ferw.data.length = p.nion.toNat * nrec p)
    (hfh : sI.fh = ⟨d, b0, false⟩)
    (hnlm : ∀ i, i < p.nion.toNat → 0 ≤ nlm_at d (ion_start p d b0 i) ∧
      nlm_at d (ion_start p d b0 i) ≤ (BUF_LEN : Int))
    (hin : ∀ i r, i < p.nion.toNat → r < nrec p →
      (i * nrec p + r) * p.nlmmax.toNat + ion_nlm p d b0 i
        ≤ p.nion.toNat * nrec p * p.nlmmax.toNat)
    (hlen : ion_start p d b0 p.nion.toNat ≤ d.length) :
    ∃ t, read_arrays p sI = .ok t ∧ IonInv p d b0 sI p.nion.toNat t := by
  have hpos : b0 ≤ d.length :=
    Nat.le_trans (ion_start_mono p d b0 0 p.nion.toNat (Nat.zero_le _)) hlen
  have h := for_from_ok (read_ion p) (fun i s => IonInv p d b0 sI i s)
    p.nion.toNat 0 sI (ion_inv_zero p d b0 sI hfh hpos)
    (fun j s _ hj hP => ion_succeeds_in p d b0 sI j s hd5 hd4 hl5 hl4 (by omega)
      (hnlm j (by omega)).1 (hnlm j (by omega)).2 (fun r hr => hin j r (by omega) hr)
      (Nat.le_trans (ion_start_mono p d b0 (j + 1) p.nion.toNat (by omega)) hlen) hP)
  rw [Nat.zero_add] at h
  exact h

/-- Claim C6, amended. The `nlm` of an ion is not validated: it is never compared with
`nlmmax`, and there is no invalid-record error. First, an `nlm` above `nlmmax` is accepted:
for every file of at least 28 bytes with a supported precision and positive dimensions
whose product fits an `int`, in which the `nlm` of every ion lies in `0..50`, the `nlm`
values of every record end inside the elements of `Plo` (the record `r` of the ion starts
at element `(ion*ns*nk*nb + r)*nlmmax`) and the file holds the blocks of all ions, the call
returns the tuple, with the stream behind the last block, whether or not an `nlm` exceeds
`nlmmax`. Second, for every ion whose `nlm` exceeds `nlmmax`, whenever the call returns
the tuple, `Ferw[ion,is,ik,ib]` holds the weight of the record and `Plo[ion,is,ik,ib,m]`
its `m`-th value for every `m < nlmmax`. Third, for every ion that has records
(`ns, nk, nb > 0`) and whose `nlm` is negative, the call does not return the tuple: it
returns `NULL` or leaves defined behaviour. -/
theorem nlm_not_validated (h : Host) (d : List Byte) (hf : h.file = some d) :
    ((∀ i, h.setitem_fails i = false) → 28 ≤ d.length →
      (hdr_field d 0 = 8 ∨ hdr_field d 0 = 4) →
      0 < hdr_field d 1 → 0 < hdr_field d 2 → 0 < hdr_field d 3 → 0 < hdr_field d 4 →
      0 < hdr_field d 5 →
      hdr_field d 1 * hdr_field d 2 * hdr_field d 3 * hdr_field d 4 * hdr_field d 5 < 2 ^ 31 →
      (∀ ion : Nat, (ion : Int) < hdr_field d 1 →
        0 ≤ nlm_at d (ion_start (hdr_params d) d 28 ion) ∧
        nlm_at d (ion_start (hdr_params d) d 28 ion) ≤ 50) →
      (∀ ion r : Nat, (ion : Int) < hdr_field d 1 → r < nrec (hdr_params d) →
        (ion * nrec (hdr_params d) + r) * (hdr_field d 5).toNat
            + (nlm_at d (ion_start (hdr_params d) d 28 ion)).toNat
          ≤ (hdr_field d 1).toNat * nrec (hdr_params d) * (hdr_field d 5).toNat) →
      ion_start (hdr_params d) d 28 (hdr_field d 1).toNat ≤ d.length →
      ∃ plo ferw, io_read_plocar h
        = .returned (some (create_par_dictionary (hdr_params d), plo, ferw))
            ⟨⟨d, ion_start (hdr_params d) d 28 (hdr_field d 1).toNat, false⟩,
              some (create_par_dictionary (hdr_params d)), some plo, some ferw, none, 1⟩) ∧
    (∀ (ion : Nat) pd plo ferw fr (is ik ib : Nat), (ion : Int) < hdr_field d 1 →
      io_read_plocar h = .returned (some (pd, plo, ferw)) fr →
      hdr_field d 5 < nlm_at d (ion_start (hdr_params d) d 28 ion) →
      (is : Int) < hdr_field d 2 → (ik : Int) < hdr_field d 3 → (ib : Int) < hdr_field d 4 →
      ferw.data[PyArray_GetPtr ferw [ion, is, ik, ib]]?
        = some (weight_at (hdr_params d) d (rec_pos (hdr_params d) d 28 ion
            ((is * (hdr_field d 3).toNat + ik) * (hdr_field d 4).toNat + ib))) ∧
      ∀ m : Nat, (m : Int) < hdr_field d 5 →
        plo.data[PyArray_GetPtr plo [ion, is, ik, ib, m]]?
          = some (value_at (hdr_params d) d (rec_pos (hdr_params d) d 28 ion
              ((is * (hdr_field d 3).toNat + ik) * (hdr_field d 4).toNat + ib)) m)) ∧
    (∀ ion : Nat, (ion : Int) < hdr_field d 1 →
      nlm_at d (ion_start (hdr_params d) d 28 ion) < 0 →
      0 < hdr_field d 2 → 0 < hdr_field d 3 → 0 < hdr_field d 4 →
      io_read_plocar h = .undefined ∨ ∃ fr, io_read_plocar h = .returned none fr) := by
  have e1 : (hdr_params d).nion = hdr_field d 1 := rfl
  have e2 : (hdr_params d).ns = hdr_field d 2 := rfl
  have e3 : (hdr_params d).nk = hdr_field d 3 := rfl
  have e4 : (hdr_params d).nb = hdr_field d 4 := rfl
  have e5 : (hdr_params d).nlmmax = hdr_field d 5 := rfl
  refine ⟨?_, ?_, ?_⟩
  · intro hset hlen hprec p1 p2 p3 p4 p5 hfit hnlm hin hfile
    rw [← e1, ← e2, ← e3, ← e4, ← e5] at hfit
    rw [← e1] at p1 hfile hin
    rw [← e2] at p2
    rw [← e3] at p3
    rw [← e4] at p4
    rw [← e5] at p5 hin
    obtain ⟨g1, g2, g3, _⟩ := pos_products _ _ _ _ _ p1 p2 p3 p4 p5 _ hfit
    have c1 := create_plo_array_of (hdr_params d) (by omega) (by omega) (by omega) (by omega)
      (by omega) g1 g2 g3 hfit (npy_nbytes_pos5 _ _ _ _ _ p1 p2 p3 p4 p5 hfit)
    have c2 := create_ferw_array_of (hdr_params d) (by omega) (by omega) (by omega) (by omega)
      g1 g2 g3 (npy_nbytes_pos4 _ _ _ _ p1 p2 p3 p4 g3)
    obtain ⟨t, ht, hinv⟩ := read_arrays_succeeds_in (hdr_params d) d 28
      ⟨⟨d, 28, false⟩,
        ⟨[(hdr_params d).nion.toNat, (hdr_params d).ns.toNat, (hdr_params d).nk.toNat,
            (hdr_params d).nb.toNat, (hdr_params d).nlmmax.toNat],
          List.replicate ((hdr_params d).nion.toNat * nrec (hdr_params d)
            * (hdr_params d).nlmmax.toNat) (0, 0)⟩,
        ⟨[(hdr_params d).nion.toNat, (hdr_params d).ns.toNat, (hdr_params d).nk.toNat,
            (hdr_params d).nb.toNat],
          List.replicate ((hdr_params d).nion.toNat * nrec (hdr_params d)) 0⟩⟩
      rfl rfl (by simp) (by simp) rfl
      (fun i hi => by
        have := hnlm i (by rw [← e1]; omega)
        exact ⟨this.1, by unfold BUF_LEN; exact this.2⟩)
      (fun i r hi hr => hin i r (by omega) hr) hfile
    refine ⟨t.py_plo, t.py_ferw, ?_⟩
    rw [io_read_plocar_params h d hf hlen hprec,
      read_body_of_ok h (hdr_params d) ⟨d, 28, false⟩ _ _ t hset c1 c2 ht, hinv.fh]
    rfl
  · intro ion pd plo ferw fr is ik ib hion hok hgt his hik hib
    obtain ⟨a1, _, _, a4, a5⟩ := io_read_plocar_values h d pd plo ferw fr hf hok ion is ik ib
      (by rw [e1]; omega) (by rw [e2]; omega) (by rw [e3]; omega) (by rw [e4]; omega)
    refine ⟨a4, ?_⟩
    intro m hm
    exact a5 m (by omega) (by rw [e5]; omega)
  · intro ion hion hneg h2 h3 h4
    rcases io_read_plocar_opened h d hf with hu | ⟨ret, fr, hr⟩
    · exact Or.inl hu
    · cases ret with
      | none => exact Or.inr ⟨fr, hr⟩
      | some ret =>
        exfalso
        obtain ⟨a1, _⟩ := io_read_plocar_values h d ret.1 ret.2.1 ret.2.2 fr hf hr ion 0 0 0
          (by rw [e1]; omega) (by rw [e2]; omega) (by rw [e3]; omega) (by rw [e4]; omega)
        omega

set_option maxRecDepth 100000 in
/-- The claim C6, amended, at the file of `spill_data`, whose first ion has
`nlm = 2 > nlmmax = 1`: the file meets the conditions of the first part, so the call
returns the tuple with the stream at 84, the end of the file; and at the file of
`neg_nlm_data`, whose ion has `nlm = -1`: the tuple is not returned. -/
theorem nlm_not_validated_witness :
    hdr_field (encode_plocar spill_data) 5 = 1 ∧
    nlm_at (encode_plocar spill_data)
      (ion_start (hdr_params (encode_plocar spill_data)) (encode_plocar spill_data) 28 0) = 2 ∧
    (∃ plo ferw, io_read_plocar (host_of (encode_plocar spill_data))
      = .returned (some ([("nion", 2), ("ns", 1), ("nk", 1), ("nb", 1), ("nc_flag", 0)],
            plo, ferw))
          ⟨⟨encode_plocar spill_data, 84, false⟩,
            some [("nion", 2), ("ns", 1), ("nk", 1), ("nb", 1), ("nc_flag", 0)],
            some plo, some ferw, none, 1⟩) ∧
    nlm_at (encode_plocar neg_nlm_data)
        (ion_start (hdr_params (encode_plocar neg_nlm_data)) (encode_plocar neg_nlm_data) 28 0)
      = -1 ∧
    (io_read_plocar (host_of (encode_plocar neg_nlm_data)) = .undefined ∨
      ∃ fr, io_read_plocar (host_of (encode_plocar neg_nlm_data)) = .returned none fr) := by
  have hN : nrec (hdr_params (encode_plocar spill_data)) = 1 := by decide
  have h1 : hdr_field (encode_plocar spill_data) 1 = 2 := by decide
  have h5 : hdr_field (encode_plocar spill_data) 5 = 1 := by decide
  have n0 : nlm_at (encode_plocar spill_data)
      (ion_start (hdr_params (encode_plocar spill_data)) (encode_plocar spill_data) 28 0) = 2 := by
    decide
  have n1 : nlm_at (encode_plocar spill_data)
      (ion_start (hdr_params (encode_plocar spill_data)) (encode_plocar spill_data) 28 1) = 0 := by
    decide
  have hs : ion_start (hdr_params (encode_plocar spill_data)) (encode_plocar spill_data) 28 2
      = 84 := by decide
  have hdict : create_par_dictionary (hdr_params (encode_plocar spill_data))
      = [("nion", 2), ("ns", 1), ("nk", 1), ("nb", 1), ("nc_flag", 0)] := by decide
  have T := (nlm_not_validated (host_of (encode_plocar spill_data)) (encode_plocar spill_data)
    rfl).1 (fun _ => rfl) (by decide) (by decide) (by decide) (by decide) (by decide)
    (by decide) (by decide) (by decide)
    (by
      intro ion hion
      rw [h1] at hion
      have : ion = 0 ∨ ion = 1 := by omega
      rcases this with e | e
      · subst e; rw [n0]; decide
      · subst e; rw [n1]; decide)
    (by
      intro ion r hion hr
      rw [h1] at hion
      rw [hN] at hr
      have hr0 : r = 0 := by omega
      subst hr0
      rw [hN, h1, h5]
      have : ion = 0 ∨ ion = 1 := by omega
      rcases this with e | e
      · subst e; rw [n0]; decide
      · subst e; rw [n1]; decide)
    (by rw [h1]; decide)
  rw [h1] at T
  have hs' : ion_start (hdr_params (encode_plocar spill_data)) (encode_plocar spill_data) 28
      (2 : Int).toNat = 84 := hs
  rw [hs', hdict] at T
  exact ⟨h5, n0, T, by decide,
    (nlm_not_validated (host_of (encode_plocar neg_nlm_data)) (encode_plocar neg_nlm_data)
      rfl).2.2 0 (by decide) (by decide) (by decide) (by decide) (by decide)⟩

/-! ## A dimension that is zero -/

theorem for_from_id {σ : Type} (body : Nat → σ → Res σ) (hb : ∀ j s, body j s = .ok s) :
    ∀ (n i : Nat) (s : σ), for_from body i n s = .ok s := by
  intro n
  induction n with
  | zero => intro i s; rfl
  | succ n ih =>
    intro i s
    unfold for_from
    rw [hb i s]
    exact ih (i + 1) s

theorem for_from_nest3_empty {σ : Type} (body : Nat → Nat → Nat → σ → Res σ)
    (n1 n2 n3 : Nat) (s : σ) (h : n1 * n2 * n3 = 0) :
    for_from (fun i => for_from (fun j => for_from (body i j) 0 n3) 0 n2) 0 n1 s = .ok s := by
  rcases Nat.eq_zero_or_pos n3 with h3 | h3
  · subst h3
    exact for_from_id _ (fun i s => for_from_id _ (fun j s => rfl) n2 0 s) n1 0 s
  · rcases Nat.eq_zero_or_pos n2 with h2 | h2
    · subst h2
      exact for_from_id _ (fun i s => rfl) n1 0 s
    · have : n1 = 0 := by
        rcases Nat.eq_zero_or_pos n1 with h1 | h1
        · exact h1
        · have := Nat.mul_pos (Nat.mul_pos h1 h2) h3
          omega
      subst this
      rfl

/-- An ion without records: `read_ion` reads its `nlm` and nothing else. -/
theorem read_ion_norec (p : t_params) (ion : Nat) (s : Arrays) (d : List Byte) (pos : Nat)
    (eof : Bool) (hN : nrec p = 0) (hfh : s.fh = ⟨d, pos, eof⟩) (hlen : pos + 4 ≤ d.length) :
    read_ion p ion s = .ok ⟨⟨d, pos + 4, eof⟩, s.py_plo, s.py_ferw⟩ := by
  rw [read_ion_ok_eq p ion s d pos eof hfh hlen]
  exact for_from_nest3_empty _ _ _ _ _ hN

/-- The run of `read_arrays` when the ions have no records: four bytes are read per ion,
as long as the file has them. -/
theorem read_arrays_norec (p : t_params) (d : List Byte) (b0 : Nat) (sI : Arrays)
    (hN : nrec p = 0) (hfh : sI.fh = ⟨d, b0, false⟩) (hb : b0 ≤ d.length) :
    (b0 + 4 * p.nion.toNat ≤ d.length →
      read_arrays p sI = .ok ⟨⟨d, b0 + 4 * p.nion.toNat, false⟩, sI.py_plo, sI.py_ferw⟩) ∧
    (d.length < b0 + 4 * p.nion.toNat →
      read_arrays p sI = .error ⟨⟨d, d.length, true⟩, sI.py_plo, sI.py_ferw⟩) := by
  have hsI : sI = ⟨⟨d, b0 + 4 * 0, false⟩, sI.py_plo, sI.py_ferw⟩ := by
    cases sI with
    | mk fh pl fw =>
      simp only [] at hfh
      rw [hfh]
      rfl
  constructor
  · intro hlen
    obtain ⟨t, ht, hP⟩ := for_from_ok (read_ion p)
      (fun i s => s = ⟨⟨d, b0 + 4 * i, false⟩, sI.py_plo, sI.py_ferw⟩) p.nion.toNat 0 sI hsI
      (by
        intro j s _ hj hP
        subst hP
        have e : b0 + 4 * (j + 1) = b0 + 4 * j + 4 := by omega
        refine ⟨_, read_ion_norec p j _ d _ false hN rfl (by omega), ?_⟩
        show (_ : Arrays) = ⟨⟨d, b0 + 4 * (j + 1), false⟩, sI.py_plo, sI.py_ferw⟩
        rw [e])
    unfold read_arrays for_loop
    rw [ht, hP, Nat.zero_add]
  · intro hlen
    obtain ⟨e, he, hQ⟩ := for_from_fail (read_ion p)
      (fun i s => s = ⟨⟨d, b0 + 4 * i, false⟩, sI.py_plo, sI.py_ferw⟩)
      (fun e => e = ⟨⟨d, d.length, true⟩, sI.py_plo, sI.py_ferw⟩)
      p.nion.toNat 0 ((d.length - b0) / 4) sI (Nat.zero_le _) (by omega) hsI
      (by
        intro j s _ hj hP
        subst hP
        have e : b0 + 4 * (j + 1) = b0 + 4 * j + 4 := by omega
        refine ⟨_, read_ion_norec p j _ d _ false hN rfl (by omega), ?_⟩
        show (_ : Arrays) = ⟨⟨d, b0 + 4 * (j + 1), false⟩, sI.py_plo, sI.py_ferw⟩
        rw [e])
      (by
        intro s hP
        subst hP
        exact ⟨_, read_ion_short p _ _ d _ false rfl (by omega) (by omega), rfl⟩)
    unfold read_arrays for_loop
    rw [he, hQ]

/-- A shape with a zero dimension that NumPy refuses: the dimensions that are not 0 make
`16 * 2147483647 * 2147483647` bytes, more than an `npy_intp` holds. -/
theorem npy_refuses_big_shape :
    create_plo_array ⟨0, 2147483647, 2147483647, 1, 1, 0, 1⟩ = none ∧
    create_ferw_array ⟨0, 2147483647, 2147483647, 1, 1, 0, 1⟩ = none := by
  decide

/-- Claim C7, amended. A zero dimension is not rejected. Take a file of at least 28 bytes
whose header has a supported precision, dimensions `nion, ns, nk, nb, nlmmax ≥ 0` of which
one is 0, `int` products `nion*ns`, `nion*ns*nk`, `nion*ns*nk*nb` that do not overflow, and
a shape that NumPy accepts (16 times the product of the dimensions that are not 0 fits an
`npy_intp`). Then `create_plo_array` builds the array of the header's shape with no element
and `create_ferw_array` the array of the header's shape with `nion*ns*nk*nb` zeroed
elements, and the call goes on to the record loop: it ends as `read_arrays` ends on these
two arrays, with the tuple when `read_arrays` runs through and through `ioerror` when it
does not. In particular, when one of `nion, ns, nk, nb` is 0 no ion has a record, the loop
reads the `nlm` of each of the `nion` ions and nothing else, and the call returns the
tuple with two empty arrays and the stream at `28 + 4*nion` when the file has that many
bytes, and `NULL` with the end-of-file `IOError` when it has not. -/
theorem zero_dimension_allocated (h : Host) (d : List Byte) (hf : h.file = some d)
    (hlen : 28 ≤ d.length) (hprec : hdr_field d 0 = 8 ∨ hdr_field d 0 = 4)
    (hset : ∀ i, h.setitem_fails i = false)
    (h1 : 0 ≤ hdr_field d 1) (h2 : 0 ≤ hdr_field d 2) (h3 : 0 ≤ hdr_field d 3)
    (h4 : 0 ≤ hdr_field d 4) (h5 : 0 ≤ hdr_field d 5)
    (hz : hdr_field d 1 = 0 ∨ hdr_field d 2 = 0 ∨ hdr_field d 3 = 0 ∨ hdr_field d 4 = 0 ∨
      hdr_field d 5 = 0)
    (f1 : hdr_field d 1 * hdr_field d 2 < 2 ^ 31)
    (f2 : hdr_field d 1 * hdr_field d 2 * hdr_field d 3 < 2 ^ 31)
    (f3 : hdr_field d 1 * hdr_field d 2 * hdr_field d 3 * hdr_field d 4 < 2 ^ 31)
    (hn : npy_nbytes 16 [hdr_field d 1, hdr_field d 2, hdr_field d 3, hdr_field d 4,
      hdr_field d 5] ≤ NPY_MAX_INTP) :
    create_plo_array (hdr_params d)
      = some ⟨[(hdr_field d 1).toNat, (hdr_field d 2).toNat, (hdr_field d 3).toNat,
          (hdr_field d 4).toNat, (hdr_field d 5).toNat], []⟩ ∧
    create_ferw_array (hdr_params d)
      = some ⟨[(hdr_field d 1).toNat, (hdr_field d 2).toNat, (hdr_field d 3).toNat,
          (hdr_field d 4).toNat],
          List.replicate ((hdr_field d 1).toNat * ((hdr_field d 2).toNat * (hdr_field d 3).toNat
            * (hdr_field d 4).toNat)) 0⟩ ∧
    io_read_plocar h
      = (match read_arrays (hdr_params d) ⟨⟨d, 28, false⟩,
          ⟨[(hdr_field d 1).toNat, (hdr_field d 2).toNat, (hdr_field d 3).toNat,
            (hdr_field d 4).toNat, (hdr_field d 5).toNat], []⟩,
          ⟨[(hdr_field d 1).toNat, (hdr_field d 2).toNat, (hdr_field d 3).toNat,
            (hdr_field d 4).toNat],
            List.replicate ((hdr_field d 1).toNat * ((hdr_field d 2).toNat
              * (hdr_field d 3).toNat * (hdr_field d 4).toNat)) 0⟩⟩ with
        | .ok s => .returned (some (create_par_dictionary (hdr_params d), s.py_plo, s.py_ferw))
            ⟨s.fh, some (create_par_dictionary (hdr_params d)), some s.py_plo, some s.py_ferw,
              none, 1⟩
        | .error e => label_ioerror ⟨e.fh, some (create_par_dictionary (hdr_params d)),
            some e.py_plo, some e.py_ferw, none, 0⟩
        | .undefined => .undefined) ∧
    ((hdr_field d 1 = 0 ∨ hdr_field d 2 = 0 ∨ hdr_field d 3 = 0 ∨ hdr_field d 4 = 0) →
      (28 + 4 * (hdr_field d 1).toNat ≤ d.length →
        io_read_plocar h
          = .returned (some (create_par_dictionary (hdr_params d),
              ⟨[(hdr_field d 1).toNat, (hdr_field d 2).toNat, (hdr_field d 3).toNat,
                (hdr_field d 4).toNat, (hdr_field d 5).toNat], []⟩,
              ⟨[(hdr_field d 1).toNat, (hdr_field d 2).toNat, (hdr_field d 3).toNat,
                (hdr_field d 4).toNat], []⟩))
            ⟨⟨d, 28 + 4 * (hdr_field d 1).toNat, false⟩,
              some (create_par_dictionary (hdr_params d)),
              some ⟨[(hdr_field d 1).toNat, (hdr_field d 2).toNat, (hdr_field d 3).toNat,
                (hdr_field d 4).toNat, (hdr_field d 5).toNat], []⟩,
              some ⟨[(hdr_field d 1).toNat, (hdr_field d 2).toNat, (hdr_field d 3).toNat,
                (hdr_field d 4).toNat], []⟩, none, 1⟩) ∧
      (d.length < 28 + 4 * (hdr_field d 1).toNat →
        io_read_plocar h
          = .returned none
            ⟨⟨d, d.length, true⟩, some (create_par_dictionary (hdr_params d)),
              some ⟨[(hdr_field d 1).toNat, (hdr_field d 2).toNat, (hdr_field d 3).toNat,
                (hdr_field d 4).toNat, (hdr_field d 5).toNat], []⟩,
              some ⟨[(hdr_field d 1).toNat, (hdr_field d 2).toNat, (hdr_field d 3).toNat,
                (hdr_field d 4).toNat], []⟩, some .IOError_eof, 1⟩)) := by
  have e1 : (hdr_params d).nion = hdr_field d 1 := rfl
  have e2 : (hdr_params d).ns = hdr_field d 2 := rfl
  have e3 : (hdr_params d).nk = hdr_field d 3 := rfl
  have e4 : (hdr_params d).nb = hdr_field d 4 := rfl
  have e5 : (hdr_params d).nlmmax = hdr_field d 5 := rfl
  have hzero : hdr_field d 1 * hdr_field d 2 * hdr_field d 3 * hdr_field d 4 * hdr_field d 5
      = 0 := by
    rcases hz with z | z | z | z | z <;> rw [z] <;> simp
  have hzn : (hdr_field d 1).toNat * ((hdr_field d 2).toNat * (hdr_field d 3).toNat
      * (hdr_field d 4).toNat) * (hdr_field d 5).toNat = 0 := by
    rcases hz with z | z | z | z | z <;> rw [z] <;> simp
  have c5 := create_plo_array_of (hdr_params d) h1 h2 h3 h4 h5 f1 f2 f3
    (by rw [e1, e2, e3, e4, e5, hzero]; decide) hn
  have c4 := create_ferw_array_of (hdr_params d) h1 h2 h3 h4 f1 f2 f3
    (Nat.le_trans (npy_nbytes_le _ _ _ _ _ h5) hn)
  simp only [e1, e2, e3, e4, e5, nrec] at c5 c4
  rw [hzn] at c5
  have hmain : io_read_plocar h
      = (match read_arrays (hdr_params d) ⟨⟨d, 28, false⟩,
          ⟨[(hdr_field d 1).toNat, (hdr_field d 2).toNat, (hdr_field d 3).toNat,
            (hdr_field d 4).toNat, (hdr_field d 5).toNat], []⟩,
          ⟨[(hdr_field d 1).toNat, (hdr_field d 2).toNat, (hdr_field d 3).toNat,
            (hdr_field d 4).toNat],
            List.replicate ((hdr_field d 1).toNat * ((hdr_field d 2).toNat
              * (hdr_field d 3).toNat * (hdr_field d 4).toNat)) 0⟩⟩ with
        | .ok s => .returned (some (create_par_dictionary (hdr_params d), s.py_plo, s.py_ferw))
            ⟨s.fh, some (create_par_dictionary (hdr_params d)), some s.py_plo, some s.py_ferw,
              none, 1⟩
        | .error e => label_ioerror ⟨e.fh, some (create_par_dictionary (hdr_params d)),
            some e.py_plo, some e.py_ferw, none, 0⟩
        | .undefined => .undefined) := by
    rw [io_read_plocar_params h d hf hlen hprec]
    unfold read_body
    rw [c5, c4]
    simp only [List.replicate]
    cases read_arrays (hdr_params d) ⟨⟨d, 28, false⟩,
          ⟨[(hdr_field d 1).toNat, (hdr_field d 2).toNat, (hdr_field d 3).toNat,
            (hdr_field d 4).toNat, (hdr_field d 5).toNat], []⟩,
          ⟨[(hdr_field d 1).toNat, (hdr_field d 2).toNat, (hdr_field d 3).toNat,
            (hdr_field d 4).toNat],
            List.replicate ((hdr_field d 1).toNat * ((hdr_field d 2).toNat
              * (hdr_field d 3).toNat * (hdr_field d 4).toNat)) 0⟩⟩ with
    | ok s => simp [hset]
    | error e => rfl
    | undefined => rfl
  refine ⟨c5, c4, hmain, ?_⟩
  intro hz4
  have hcnt : (hdr_field d 1).toNat * ((hdr_field d 2).toNat * (hdr_field d 3).toNat
      * (hdr_field d 4).toNat) = 0 := by
    rcases hz4 with z | z | z | z <;> rw [z] <;> simp
  rw [hcnt] at hmain
  simp only [List.replicate] at hmain
  by_cases hN : nrec (hdr_params d) = 0
  · obtain ⟨r1, r2⟩ := read_arrays_norec (hdr_params d) d 28
      ⟨⟨d, 28, false⟩,
        ⟨[(hdr_field d 1).toNat, (hdr_field d 2).toNat, (hdr_field d 3).toNat,
          (hdr_field d 4).toNat, (hdr_field d 5).toNat], []⟩,
        ⟨[(hdr_field d 1).toNat, (hdr_field d 2).toNat, (hdr_field d 3).toNat,
          (hdr_field d 4).toNat], []⟩⟩ hN rfl hlen
    rw [e1] at r1 r2
    constructor
    · intro hl
      rw [hmain, r1 hl]
    · intro hl
      rw [hmain, r2 hl]
      rfl
  · have hz1 : hdr_field d 1 = 0 := by
      rcases hz4 with z | z | z | z
      · exact z
      · exfalso; apply hN; unfold nrec; rw [e2, z]; simp
      · exfalso; apply hN; unfold nrec; rw [e3, z]; simp
      · exfalso; apply hN; unfold nrec; rw [e4, z]; simp
    have hra := read_arrays_zero (hdr_params d)
      ⟨⟨d, 28, false⟩,
        ⟨[(hdr_field d 1).toNat, (hdr_field d 2).toNat, (hdr_field d 3).toNat,
          (hdr_field d 4).toNat, (hdr_field d 5).toNat], []⟩,
        ⟨[(hdr_field d 1).toNat, (hdr_field d 2).toNat, (hdr_field d 3).toNat,
          (hdr_field d 4).toNat], []⟩⟩ (by rw [e1]; exact hz1)
    constructor
    · intro _
      rw [hmain, hra]
      simp only [hz1, Int.toNat_zero, Nat.mul_zero, Nat.add_zero]
    · intro hl
      rw [hz1] at hl
      simp only [Int.toNat_zero, Nat.mul_zero, Nat.add_zero] at hl
      omega

set_option maxRecDepth 100000 in
/-- The claim C7, amended, at the file of `zero_ns_data`, whose header has `nion = 2` and
`ns = 0`: the 36 bytes are the header and the `nlm` of the two ions; the call reads both
and returns the tuple with two empty arrays, the stream at 36. -/
theorem zero_dimension_allocated_witness :
    hdr_field (encode_plocar zero_ns_data) 0 = 8 ∧
    hdr_field (encode_plocar zero_ns_data) 1 = 2 ∧
    hdr_field (encode_plocar zero_ns_data) 2 = 0 ∧
    (encode_plocar zero_ns_data).length = 36 ∧
    io_read_plocar (host_of (encode_plocar zero_ns_data))
      = .returned (some ([("nion", 2), ("ns", 0), ("nk", 1), ("nb", 1), ("nc_flag", 0)],
          ⟨[2, 0, 1, 1, 1], []⟩, ⟨[2, 0, 1, 1], []⟩))
        ⟨⟨encode_plocar zero_ns_data, 36, false⟩,
          some [("nion", 2), ("ns", 0), ("nk", 1), ("nb", 1), ("nc_flag", 0)],
          some ⟨[2, 0, 1, 1, 1], []⟩, some ⟨[2, 0, 1, 1], []⟩, none, 1⟩ := by
  have k1 : hdr_field (encode_plocar zero_ns_data) 1 = 2 := by decide
  have k2 : hdr_field (encode_plocar zero_ns_data) 2 = 0 := by decide
  have k3 : hdr_field (encode_plocar zero_ns_data) 3 = 1 := by decide
  have k4 : hdr_field (encode_plocar zero_ns_data) 4 = 1 := by decide
  have k5 : hdr_field (encode_plocar zero_ns_data) 5 = 1 := by decide
  have hdict : create_par_dictionary (hdr_params (encode_plocar zero_ns_data))
      = [("nion", 2), ("ns", 0), ("nk", 1), ("nb", 1), ("nc_flag", 0)] := by decide
  have T := ((zero_dimension_allocated (host_of (encode_plocar zero_ns_data))
    (encode_plocar zero_ns_data) rfl (by decide) (by decide) (fun _ => rfl) (by decide)
    (by decide) (by decide) (by decide) (by decide) (by decide) (by decide) (by decide)
    (by decide) (by decide)).2.2.2 (Or.inr (Or.inl k2))).1 (by decide)
  rw [hdict, k1, k2, k3, k4, k5] at T
  exact ⟨by decide, k1, k2, by decide, T⟩

end Plocar
